import Mathlib

/-!
Verification of the wallabag-backend synchronization core (wallabag-api repository,
crate `wallabag-backend`: `src/lib.rs` and `src/db.rs`) against its natural-language
specification.

The development shallowly embeds:
* timestamps (`chrono::DateTime<Utc>`) as a record of calendar fields, together with
  the exact RFC-3339 rendering that `DateTime::to_rfc3339` produces for a UTC
  datetime (zero-padded fields, `SecondsFormat::AutoSi` fractional seconds, and a
  literal `+00:00` offset);
* the SQLite database as a record of tables (lists of rows); SQL statements become
  list operations, `INSERT OR REPLACE` becomes delete-then-append, and the textual
  comparison `updated_at >= ?` becomes a bytewise comparison of the persisted
  RFC-3339 strings (SQLite's BINARY collation on ASCII text);
* the remote HTTP client as an oracle: one response (or failure) per possible call;
* `Backend::sync` / `Backend::full_sync` as state-passing functions that also record
  the trace of remote calls and stop at the first failed remote call, keeping all
  local writes made so far (no rollback), exactly like the `?` operator in the
  source.
-/

namespace Wallabag

/-! ## Orderings and numeric comparison helpers -/

/-- Three-way comparison on naturals, mirroring Rust's `Ord::cmp` on integers. -/
def ncmp (a b : Nat) : Ordering :=
  if a < b then .lt else if a = b then .eq else .gt

/-! ## Timestamps

`chrono::DateTime<Utc>` values, as the backend uses them: parsed from and rendered
to RFC-3339 text.  `Ts.cmp` is the instant comparison that `Ord::cmp` performs in
`Backend::sync` / `full_sync` / `sync_annotation` — for in-range UTC field values
the instant order is exactly the lexicographic order of the calendar fields. -/

structure Ts where
  year : Nat
  month : Nat
  day : Nat
  hour : Nat
  minute : Nat
  second : Nat
  nano : Nat
deriving Repr, DecidableEq

/-- Rust `Ord::cmp` on two `DateTime<Utc>` values (instant comparison). -/
def Ts.cmp (a b : Ts) : Ordering :=
  (ncmp a.year b.year).then ((ncmp a.month b.month).then ((ncmp a.day b.day).then
    ((ncmp a.hour b.hour).then ((ncmp a.minute b.minute).then
      ((ncmp a.second b.second).then (ncmp a.nano b.nano))))))

def Ts.le (a b : Ts) : Bool :=
  match Ts.cmp a b with
  | .gt => false
  | _ => true

def Ts.lt (a b : Ts) : Bool :=
  match Ts.cmp a b with
  | .lt => true
  | _ => false

/-- Field ranges of a real UTC datetime (within RFC-3339's four-digit years). -/
def Ts.valid (t : Ts) : Prop :=
  t.year ≤ 9999 ∧ t.month ≤ 12 ∧ t.day ≤ 31 ∧ t.hour ≤ 23 ∧
    t.minute ≤ 59 ∧ t.second ≤ 59 ∧ t.nano ≤ 999999999

instance (t : Ts) : Decidable t.valid := by
  unfold Ts.valid; infer_instance

/-! ## RFC-3339 rendering

`DateTime::<Utc>::to_rfc3339` renders `%Y-%m-%dT%H:%M:%S%.f+00:00`: every numeric
field zero-padded, and `%.f` (chrono `Fixed::Nanosecond`, "AutoSi") rendering
nothing when the nanosecond count is zero and otherwise a dot followed by 3, 6 or 9
digits depending on divisibility by 10^6 / 10^3. -/

/-- Zero-padded `k`-digit decimal rendering of `n % 10^k`, most significant first. -/
def pad : Nat → Nat → List Char
  | 0, _ => []
  | k + 1, n => pad k (n / 10) ++ [Nat.digitChar (n % 10)]

/-- The `%.f` fractional-second fragment (chrono "AutoSi"). -/
def fracPart (nano : Nat) : List Char :=
  if nano = 0 then []
  else if nano % 1000000 = 0 then '.' :: pad 3 (nano / 1000000)
  else if nano % 1000 = 0 then '.' :: pad 6 (nano / 1000)
  else '.' :: pad 9 nano

/-- The fixed `+00:00` offset fragment of a UTC datetime. -/
def offsetChars : List Char := ['+', '0', '0', ':', '0', '0']

/-- The exact text `DateTime::<Utc>::to_rfc3339` produces (as a character list). -/
def Ts.rfc3339 (t : Ts) : List Char :=
  pad 4 t.year ++ '-' :: (pad 2 t.month ++ '-' :: (pad 2 t.day ++ 'T' ::
    (pad 2 t.hour ++ ':' :: (pad 2 t.minute ++ ':' ::
      (pad 2 t.second ++ (fracPart t.nano ++ offsetChars))))))

/-! ## SQLite text comparison

SQLite's default BINARY collation compares TEXT values by `memcmp` over their UTF-8
bytes; on the pure-ASCII strings above this is bytewise comparison of the
characters. -/

def textCmp : List Char → List Char → Ordering
  | [], [] => .eq
  | [], _ :: _ => .lt
  | _ :: _, [] => .gt
  | c :: cs, d :: ds => (ncmp c.toNat d.toNat).then (textCmp cs ds)

/-- SQL `x >= y` on TEXT under the BINARY collation. -/
def textGe (x y : List Char) : Bool :=
  match textCmp x y with
  | .lt => false
  | _ => true

/-! ## Data model

Types from the `wallabag-api` crate as the backend consumes them (`ID` is an
`i64` newtype, modelled as `Int`).  The repository snapshot does not contain
`types/entry.rs` (only its re-export in `types.rs`), so `Entry` is modelled from
the spec (§3) and from the column list / field accesses in
`wallabag-backend/src/db.rs` and `lib.rs`.  `Annotation` is shortened to `Ann`
throughout (same fields as `types/annotations.rs`). -/

structure Tag where
  id : Int
  label : String
  slug : String
deriving Repr, DecidableEq

/-- A highlight range (source field names `start`/`end`, serde-renamed). -/
structure Range where
  rend : Option String
  rstart : Option String
  end_offset : Nat
  start_offset : Nat
deriving Repr, DecidableEq

structure Ann where
  id : Int
  annotator_schema_version : String
  created_at : Ts
  quote : Option String
  ranges : List Range
  text : String
  updated_at : Ts
  user : Option String
deriving Repr, DecidableEq

structure NewAnn where
  quote : String
  ranges : List Range
  text : String
deriving Repr, DecidableEq

/-- Modelled from the spec: the repository snapshot is missing `types/entry.rs`
(struct `Entry`); fields follow spec §3 and the `entries` column list used by
`DB::save_entry` / `row_to_entry` in `wallabag-backend/src/db.rs`. -/
structure Entry where
  annotations : Option (List Ann)
  content : Option String
  created_at : Ts
  domain_name : Option String
  headers : Option (List String)
  http_status : Option String
  id : Int
  is_archived : Bool
  is_public : Bool
  is_starred : Bool
  language : Option String
  mimetype : Option String
  origin_url : Option String
  preview_picture : Option String
  published_at : Option Ts
  published_by : Option (List String)
  reading_time : Nat
  starred_at : Option Ts
  tags : List Tag
  title : Option String
  uid : Option String
  updated_at : Ts
  url : Option String
  user_email : String
  user_id : Int
  user_name : String
deriving Repr, DecidableEq

structure NewEntry where
  url : String
  title : Option String
  tags : Option String
  archive : Option Nat
  starred : Option Nat
  content : Option String
  language : Option String
  preview_picture : Option String
  published_at : Option String
  authors : Option String
  public : Option Nat
  origin_url : Option String
deriving Repr, DecidableEq

/-- `NewEntry::new_with_url`. -/
def NewEntry.new_with_url (url : String) : NewEntry :=
  ⟨url, none, none, none, none, none, none, none, none, none, none, none⟩

structure PatchEntry where
  title : Option String
  tags : Option (List String)
  archive : Option Bool
  starred : Option Bool
  public : Option Bool
  content : Option String
  language : Option String
  preview_picture : Option String
  published_at : Option Ts
  authors : Option String
  origin_url : Option String
deriving Repr, DecidableEq

/-- `impl From<&Entry> for PatchEntry` (`types/patch_entry.rs`). -/
def PatchEntry.ofEntry (entry : Entry) : PatchEntry :=
  { title := entry.title
    tags := some (entry.tags.map (fun t => t.label))
    archive := some entry.is_archived
    starred := some entry.is_starred
    public := some entry.is_public
    content := entry.content
    language := entry.language
    preview_picture := entry.preview_picture
    published_at := entry.published_at
    authors := none
    origin_url := entry.origin_url }

/-! ## The local store

One field per table of the SQLite schema (`sql/up.sql`, not in the snapshot; the
tables and columns are fixed by the statements in `db.rs`).  A row of `entries`
is an `Entry` without its `annotations` (there is no such column); a row of
`annotations` carries its `entry_id` column.  Timestamp columns persist
`to_rfc3339` text; rows here keep the parsed `Ts`, and the embedding compares
them through `Ts.rfc3339` wherever SQL compares the TEXT column. -/

structure NewUrl where
  id : Int
  url : String
deriving Repr, DecidableEq

structure AnnRow where
  ann : Ann
  entry_id : Int
deriving Repr, DecidableEq

/-- A row of `new_annotations`: owning entry, local queue id, payload. -/
structure NewAnnRow where
  entry_id : Int
  id : Int
  payload : NewAnn
deriving Repr, DecidableEq

structure Store where
  entries : List Entry
  anns : List AnnRow
  tags : List Tag
  taglinks : List (Int × Int)
  new_urls : List NewUrl
  new_anns : List NewAnnRow
  entry_deletes : List Int
  ann_deletes : List Int
  last_sync : Ts
deriving Repr, DecidableEq

namespace DB

/-- `DB::get_entry` — `SELECT ... FROM entries WHERE id = ?`; `row_to_entry`
always leaves `annotations` at `None`. -/
def get_entry (s : Store) (id : Int) : Option Entry :=
  (s.entries.find? (fun e => e.id == id)).map (fun e => { e with annotations := none })

/-- `DB::get_all_entries` — the SELECT replaces the `content` column by the
literal `""`, and `annotations` is never loaded. -/
def get_all_entries (s : Store) : List Entry :=
  s.entries.map (fun e => { e with content := some "", annotations := none })

/-- `DB::get_entries_since` — `WHERE updated_at >= ?`, a SQLite TEXT comparison
of the persisted RFC-3339 strings. -/
def get_entries_since (s : Store) (since : Ts) : List Entry :=
  (s.entries.filter (fun e => textGe (Ts.rfc3339 e.updated_at) (Ts.rfc3339 since))).map
    (fun e => { e with annotations := none })

/-- `DB::save_entry` — `INSERT OR REPLACE INTO entries ...` (delete the row with
this id, insert the new row; no `annotations` column). -/
def save_entry (s : Store) (entry : Entry) : Store :=
  { s with entries := s.entries.filter (fun e => !(e.id == entry.id))
      ++ [{ entry with annotations := none }] }

/-- `DB::delete_entry`. -/
def delete_entry (s : Store) (id : Int) : Store :=
  { s with entries := s.entries.filter (fun e => !(e.id == id)) }

/-- `DB::get_annotation` (shortened name). -/
def get_ann (s : Store) (id : Int) : Option Ann :=
  (s.anns.find? (fun r => r.ann.id == id)).map (fun r => r.ann)

/-- `DB::get_annotations_since` (shortened name) — TEXT comparison as above. -/
def get_anns_since (s : Store) (since : Ts) : List Ann :=
  (s.anns.filter (fun r => textGe (Ts.rfc3339 r.ann.updated_at) (Ts.rfc3339 since))).map
    (fun r => r.ann)

/-- `DB::get_all_entry_ids` (a `HashSet` in source; a list here, used only for
membership and difference). -/
def get_all_entry_ids (s : Store) : List Int := s.entries.map (fun e => e.id)

/-- `DB::get_all_annotation_ids` (shortened name). -/
def get_all_ann_ids (s : Store) : List Int := s.anns.map (fun r => r.ann.id)

/-- `DB::save_annotation` (shortened name) — upsert by annotation id, with the
caller-supplied `entry_id` column. -/
def save_ann (s : Store) (ann : Ann) (entry_id : Int) : Store :=
  { s with anns := s.anns.filter (fun r => !(r.ann.id == ann.id)) ++ [⟨ann, entry_id⟩] }

/-- `DB::delete_annotation` (shortened name). -/
def delete_ann (s : Store) (id : Int) : Store :=
  { s with anns := s.anns.filter (fun r => !(r.ann.id == id)) }

/-- Modelled from the spec: `DB::get_annotations` (used by `Backend::export`) is
absent from the snapshot's `db.rs`; per spec §4.1 the `annotations` table keys
each row by the owning entry id, so the accessor returns every `(entry_id,
annotation)` row. -/
def get_anns (s : Store) : List (Int × Ann) :=
  s.anns.map (fun r => (r.entry_id, r.ann))

/-- `DB::get_new_urls`. -/
def get_new_urls (s : Store) : List NewUrl := s.new_urls

/-- `DB::remove_new_url`. -/
def remove_new_url (s : Store) (id : Int) : Store :=
  { s with new_urls := s.new_urls.filter (fun u => !(u.id == id)) }

/-- `DB::add_new_url` — insert with a fresh auto-increment local id. -/
def add_new_url (s : Store) (url : String) : Store :=
  { s with new_urls :=
      s.new_urls ++ [⟨(s.new_urls.map (fun u => u.id)).foldl max 0 + 1, url⟩] }

/-- `DB::get_new_annotations` (shortened name). -/
def get_new_anns (s : Store) : List NewAnnRow := s.new_anns

/-- `DB::remove_new_annotation` (shortened name). -/
def remove_new_ann (s : Store) (id : Int) : Store :=
  { s with new_anns := s.new_anns.filter (fun r => !(r.id == id)) }

/-- `DB::get_annotation_deletes` (shortened name). -/
def get_ann_deletes (s : Store) : List Int := s.ann_deletes

/-- `DB::remove_delete_annotation` (shortened name). -/
def remove_delete_ann (s : Store) (id : Int) : Store :=
  { s with ann_deletes := s.ann_deletes.filter (fun x => !(x == id)) }

/-- `DB::get_entry_deletes`. -/
def get_entry_deletes (s : Store) : List Int := s.entry_deletes

/-- `DB::remove_delete_entry`. -/
def remove_delete_entry (s : Store) (id : Int) : Store :=
  { s with entry_deletes := s.entry_deletes.filter (fun x => !(x == id)) }

/-- `DB::get_last_sync`. -/
def get_last_sync (s : Store) : Ts := s.last_sync

/-- `DB::touch_last_sync` — sets the watermark to `Utc::now()`, passed here as
the explicit parameter `now`. -/
def touch_last_sync (s : Store) (now : Ts) : Store := { s with last_sync := now }

/-- `DB::drop_tag_links_for_entry`. -/
def drop_tag_links_for_entry (s : Store) (entry_id : Int) : Store :=
  { s with taglinks := s.taglinks.filter (fun l => !(l.1 == entry_id)) }

/-- `DB::save_tag` — upsert by tag id. -/
def save_tag (s : Store) (tag : Tag) : Store :=
  { s with tags := s.tags.filter (fun t => !(t.id == tag.id)) ++ [tag] }

/-- `DB::save_tag_link` — upsert of the `(entry_id, tag_id)` pair. -/
def save_tag_link (s : Store) (entry_id : Int) (tag : Tag) : Store :=
  { s with taglinks := s.taglinks.filter (fun l => !(l == (entry_id, tag.id)))
      ++ [(entry_id, tag.id)] }

/-- `DB::delete_unused_tags` — delete tags with no `taglinks` row. -/
def delete_unused_tags (s : Store) : Store :=
  { s with tags := s.tags.filter (fun t => s.taglinks.any (fun l => l.2 == t.id)) }

/-- `DB::get_tags`. -/
def get_tags (s : Store) : List Tag := s.tags

end DB

/-! ## The remote client as an oracle

Each client method of `wallabag_api::Client` that the backend calls is one field:
`none` means the call fails (any `ClientError`), `some` is the successful
response.  The orchestrator sees calls as `RemoteCall` values (also used as the
abort reason and as trace entries).  `get_entries_with_filter` is keyed by the
`since` timestamp, the only filter field `Backend::sync` sets. -/

inductive RemoteCall where
  | getEntries : RemoteCall
  | getEntriesWithFilter : Ts → RemoteCall
  | createEntry : NewEntry → RemoteCall
  | updateEntry : Int → PatchEntry → RemoteCall
  | deleteEntry : Int → RemoteCall
  | createAnn : Int → NewAnn → RemoteCall
  | updateAnn : Ann → RemoteCall
  | deleteAnn : Int → RemoteCall
deriving Repr, DecidableEq

structure Client where
  getEntries : Option (List Entry)
  getEntriesWithFilter : Ts → Option (List Entry)
  createEntry : NewEntry → Option Entry
  updateEntry : Int → PatchEntry → Option Entry
  deleteEntry : Int → Option Entry
  createAnn : Int → NewAnn → Option Ann
  updateAnn : Ann → Option Ann
  deleteAnn : Int → Option Ann

/-! ## The sync computation

State passing over the store plus a trace of remote calls; a failed remote call
aborts the rest of the run (Rust `?`) but keeps all local writes made so far. -/

structure RunRes (α : Type) where
  store : Store
  trace : List RemoteCall
  result : Except RemoteCall α

def SyncM (α : Type) : Type := Store → RunRes α

def SyncM.pure {α : Type} (a : α) : SyncM α := fun s => ⟨s, [], .ok a⟩

def SyncM.bind {α β : Type} (m : SyncM α) (f : α → SyncM β) : SyncM β := fun s =>
  match m s with
  | ⟨s', tr, .error e⟩ => ⟨s', tr, .error e⟩
  | ⟨s', tr, .ok a⟩ =>
    let r := f a s'
    ⟨r.store, tr ++ r.trace, r.result⟩

/-- Run a pure store update (an infallible DB write). -/
def SyncM.lift (f : Store → Store) : SyncM Unit := fun s => ⟨f s, [], .ok ()⟩

/-- Run a pure store query (an infallible DB read). -/
def SyncM.read {α : Type} (f : Store → α) : SyncM α := fun s => ⟨s, [], .ok (f s)⟩

/-- Perform a remote call: record it in the trace; abort on oracle failure. -/
def SyncM.call {α : Type} (c : RemoteCall) (resp : Option α) : SyncM α := fun s =>
  ⟨s, [c], match resp with | some a => .ok a | none => .error c⟩

/-- Sequential `for` loop over a list (Rust `for x in xs { ...? }`). -/
def iterM {α : Type} (f : α → SyncM Unit) : List α → SyncM Unit
  | [] => SyncM.pure ()
  | x :: xs => SyncM.bind (f x) (fun _ => iterM f xs)

namespace Backend

/-- `Backend::sync_annotation` (shortened name): the per-annotation three-way
decision against the local copy. -/
def sync_ann (c : Client) (ann : Ann) (entry_id : Int) : SyncM Unit :=
  SyncM.bind (SyncM.read (fun s => DB.get_ann s ann.id)) (fun saved =>
    match saved with
    | some saved_ann =>
      match Ts.cmp saved_ann.updated_at ann.updated_at with
      | .lt => SyncM.lift (fun s => DB.save_ann s ann entry_id)
      | .eq => SyncM.pure ()
      | .gt =>
        SyncM.bind (SyncM.call (RemoteCall.updateAnn saved_ann) (c.updateAnn saved_ann))
          (fun updated_ann => SyncM.lift (fun s => DB.save_ann s updated_ann entry_id))
    | none => SyncM.lift (fun s => DB.save_ann s ann entry_id))

/-- `Backend::pull_entry`: save the row, bidirectionally sync the embedded
annotations, then drop and rebuild the tag links. -/
def pull_entry (c : Client) (entry : Entry) : SyncM Unit :=
  SyncM.bind (SyncM.lift (fun s => DB.save_entry s entry)) (fun _ =>
  SyncM.bind (iterM (fun ann => sync_ann c ann entry.id) (entry.annotations.getD []))
    (fun _ =>
  SyncM.bind (SyncM.lift (fun s => DB.drop_tag_links_for_entry s entry.id)) (fun _ =>
  iterM (fun tag =>
      SyncM.bind (SyncM.lift (fun s => DB.save_tag s tag)) (fun _ =>
        SyncM.lift (fun s => DB.save_tag_link s entry.id tag)))
    entry.tags)))

/-- `Backend::sync_local_deletes`: push annotation deletes, then entry deletes;
each pending record is removed right after its remote delete succeeds. -/
def sync_local_deletes (c : Client) : SyncM Unit :=
  SyncM.bind (SyncM.read DB.get_ann_deletes) (fun annIds =>
  SyncM.bind (iterM (fun id =>
      SyncM.bind (SyncM.call (RemoteCall.deleteAnn id) (c.deleteAnn id)) (fun _ =>
        SyncM.lift (fun s => DB.remove_delete_ann s id))) annIds) (fun _ =>
  SyncM.bind (SyncM.read DB.get_entry_deletes) (fun entryIds =>
  iterM (fun id =>
      SyncM.bind (SyncM.call (RemoteCall.deleteEntry id) (c.deleteEntry id)) (fun _ =>
        SyncM.lift (fun s => DB.remove_delete_entry s id))) entryIds)))

/-- The per-remote-entry body of the pull loop: verbatim-identical code inside
both `Backend::sync` and `Backend::full_sync`, embedded once. -/
def sync_remote_entry (c : Client) (remote_entry : Entry) : SyncM Unit :=
  SyncM.bind (SyncM.read (fun s => DB.get_entry s remote_entry.id)) (fun saved =>
    match saved with
    | some saved_entry =>
      match Ts.cmp saved_entry.updated_at remote_entry.updated_at with
      | .lt => pull_entry c remote_entry
      | .eq => iterM (fun ann => sync_ann c ann remote_entry.id)
          (remote_entry.annotations.getD [])
      | .gt =>
        SyncM.bind
          (SyncM.call (RemoteCall.updateEntry saved_entry.id (PatchEntry.ofEntry saved_entry))
            (c.updateEntry saved_entry.id (PatchEntry.ofEntry saved_entry)))
          (fun updated_entry => pull_entry c updated_entry)
    | none => pull_entry c remote_entry)

/-- The pending-new-URL push loop (identical inline code in `sync` and
`full_sync`): create remotely, pull the result, then remove the record. -/
def sync_new_urls (c : Client) : SyncM Unit :=
  SyncM.bind (SyncM.read DB.get_new_urls) (fun urls =>
  iterM (fun u =>
    SyncM.bind (SyncM.call (RemoteCall.createEntry (NewEntry.new_with_url u.url))
        (c.createEntry (NewEntry.new_with_url u.url))) (fun entry =>
    SyncM.bind (pull_entry c entry) (fun _ =>
    SyncM.lift (fun s => DB.remove_new_url s u.id)))) urls)

/-- The pending-new-annotation push loop (identical inline code in `sync` and
`full_sync`): create remotely, save the response, then remove the record. -/
def sync_new_anns (c : Client) : SyncM Unit :=
  SyncM.bind (SyncM.read DB.get_new_anns) (fun rows =>
  iterM (fun r =>
    SyncM.bind (SyncM.call (RemoteCall.createAnn r.entry_id r.payload)
        (c.createAnn r.entry_id r.payload)) (fun ann =>
    SyncM.bind (SyncM.lift (fun s => DB.save_ann s ann r.entry_id)) (fun _ =>
    SyncM.lift (fun s => DB.remove_new_ann s r.id)))) rows)

/-- The set of entry ids of a pulled batch ("seen" entries). -/
def seenEntryIds (entries : List Entry) : List Int := entries.map (fun e => e.id)

/-- The set of ids of all annotations embedded in a pulled batch. -/
def seenAnnIds (entries : List Entry) : List Int :=
  (entries.map (fun e => (e.annotations.getD []).map (fun a => a.id))).flatten

/-- `Backend::sync` — incremental sync.  `now` is the wall-clock instant
`touch_last_sync` would read at the end of the run. -/
def sync (c : Client) (now : Ts) : SyncM Unit :=
  SyncM.bind (sync_local_deletes c) (fun _ =>
  SyncM.bind (SyncM.read DB.get_last_sync) (fun since =>
  SyncM.bind (SyncM.call (RemoteCall.getEntriesWithFilter since)
      (c.getEntriesWithFilter since)) (fun entries =>
  SyncM.bind (iterM (sync_remote_entry c) entries) (fun _ =>
  SyncM.bind (SyncM.read (fun s => DB.get_entries_since s since)) (fun localEntries =>
  SyncM.bind (iterM (fun entry =>
      if (seenEntryIds entries).contains entry.id then SyncM.pure ()
      else
        SyncM.bind (SyncM.call (RemoteCall.updateEntry entry.id (PatchEntry.ofEntry entry))
            (c.updateEntry entry.id (PatchEntry.ofEntry entry)))
          (fun _ => SyncM.pure ())) localEntries) (fun _ =>
  SyncM.bind (SyncM.read (fun s => DB.get_anns_since s since)) (fun localAnns =>
  SyncM.bind (iterM (fun ann =>
      if (seenAnnIds entries).contains ann.id then SyncM.pure ()
      else
        SyncM.bind (SyncM.call (RemoteCall.updateAnn ann) (c.updateAnn ann))
          (fun _ => SyncM.pure ())) localAnns) (fun _ =>
  SyncM.bind (sync_new_urls c) (fun _ =>
  SyncM.bind (sync_new_anns c) (fun _ =>
  SyncM.bind (SyncM.lift DB.delete_unused_tags) (fun _ =>
  SyncM.lift (fun s => DB.touch_last_sync s now))))))))))))

/-- `Backend::full_sync` — full sync: complete enumeration, the same pull loop,
remote-deletion detection, pending pushes, garbage collection, watermark. -/
def full_sync (c : Client) (now : Ts) : SyncM Unit :=
  SyncM.bind (sync_local_deletes c) (fun _ =>
  SyncM.bind (SyncM.call RemoteCall.getEntries c.getEntries) (fun server_entries =>
  SyncM.bind (iterM (sync_remote_entry c) server_entries) (fun _ =>
  SyncM.bind (SyncM.read DB.get_all_entry_ids) (fun local_entries =>
  SyncM.bind (iterM (fun id => SyncM.lift (fun s => DB.delete_entry s id))
      (local_entries.filter (fun id => !((seenEntryIds server_entries).contains id))))
    (fun _ =>
  SyncM.bind (SyncM.read DB.get_all_ann_ids) (fun local_anns =>
  SyncM.bind (iterM (fun id => SyncM.lift (fun s => DB.delete_ann s id))
      (local_anns.filter (fun id => !((seenAnnIds server_entries).contains id))))
    (fun _ =>
  SyncM.bind (sync_new_urls c) (fun _ =>
  SyncM.bind (sync_new_anns c) (fun _ =>
  SyncM.bind (SyncM.lift DB.delete_unused_tags) (fun _ =>
  SyncM.lift (fun s => DB.touch_last_sync s now)))))))))))

/-- `Backend::entries`. -/
def entries (s : Store) : List Entry := DB.get_all_entries s

/-- `Backend::export` (`export` is a Lean keyword): attach every stored
annotation row to the entry whose id equals its `entry_id`; rows whose entry is
missing are skipped (the `None` arm of the map lookup). -/
def export_data (s : Store) : List Entry :=
  let base := DB.get_all_entries s
  (DB.get_anns s).foldl (fun acc p =>
    acc.map (fun e =>
      if e.id == p.1 then
        { e with annotations := some ((e.annotations.getD []) ++ [p.2]) }
      else e)) base

end Backend

/-! ## Order facts about `Ts` -/

/-- The calendar fields as a list, for lexicographic reasoning. -/
def keyList (t : Ts) : List Nat :=
  [t.year, t.month, t.day, t.hour, t.minute, t.second, t.nano]

def listCmp : List Nat → List Nat → Ordering
  | [], [] => .eq
  | [], _ :: _ => .lt
  | _ :: _, [] => .gt
  | a :: as, b :: bs => (ncmp a b).then (listCmp as bs)

/-! ## Running and decomposing sync computations -/

/-- `m` leaves the projection `g` of the store unchanged on every input. -/
def Preserves {α γ : Type} (m : SyncM α) (g : Store → γ) : Prop :=
  ∀ s, g (m s).store = g s

/-! ## The database file layer

`DB` in `db.rs` holds only a path; every operation calls `DB::conn`, which
initializes the database first whenever the file does not exist.  `none` models a
missing file. -/

/-- Modelled from the spec: the snapshot is missing `sql/up.sql`; per spec §6 the
schema is the tables above plus a one-row `config` table holding `last_sync`,
freshly created empty (watermark at the epoch). -/
def emptyStore : Store :=
  { entries := [], anns := [], tags := [], taglinks := [], new_urls := []
    new_anns := [], entry_deletes := [], ann_deletes := []
    last_sync := ⟨1970, 1, 1, 0, 0, 0, 0⟩ }

def DBFile : Type := Option Store

inductive DBErr where
  | DBExists : DBErr
deriving Repr, DecidableEq

namespace DB

/-- `DB::up` — create the schema (creates the file in the process). -/
def up (_ : DBFile) : DBFile := some emptyStore

/-- `DB::init` — fails loudly with `DBExists` if the file already exists. -/
def init (d : DBFile) : Except DBErr DBFile :=
  match d with
  | some _ => .error .DBExists
  | none => .ok (up none)

/-- `DB::reset` — delete the file if present, then recreate the schema. -/
def reset (_ : DBFile) : DBFile := up none

/-- `DB::conn` — if the database file does not exist, initialize it first; then
open a connection (here: hand back the current contents). -/
def conn (d : DBFile) : Except DBErr (DBFile × Store) :=
  match d with
  | none =>
    match init none with
    | .error e => .error e
    | .ok d' => .ok (d', d'.getD emptyStore)
  | some s => .ok (some s, s)

/-- `DB::get_entry` at the file level (`let conn = self.conn()?; ...`). -/
def get_entry_f (d : DBFile) (id : Int) : Except DBErr (DBFile × Option Entry) :=
  match conn d with
  | .error e => .error e
  | .ok (d', s) => .ok (d', get_entry s id)

def get_all_entries_f (d : DBFile) : Except DBErr (DBFile × List Entry) :=
  match conn d with
  | .error e => .error e
  | .ok (d', s) => .ok (d', get_all_entries s)

def save_entry_f (d : DBFile) (entry : Entry) : Except DBErr DBFile :=
  match conn d with
  | .error e => .error e
  | .ok (_, s) => .ok (some (save_entry s entry))

def get_ann_f (d : DBFile) (id : Int) : Except DBErr (DBFile × Option Ann) :=
  match conn d with
  | .error e => .error e
  | .ok (d', s) => .ok (d', get_ann s id)

def save_ann_f (d : DBFile) (ann : Ann) (entry_id : Int) : Except DBErr DBFile :=
  match conn d with
  | .error e => .error e
  | .ok (_, s) => .ok (some (save_ann s ann entry_id))

def get_last_sync_f (d : DBFile) : Except DBErr (DBFile × Ts) :=
  match conn d with
  | .error e => .error e
  | .ok (d', s) => .ok (d', get_last_sync s)

def touch_last_sync_f (d : DBFile) (now : Ts) : Except DBErr DBFile :=
  match conn d with
  | .error e => .error e
  | .ok (_, s) => .ok (some (touch_last_sync s now))

def get_new_urls_f (d : DBFile) : Except DBErr (DBFile × List NewUrl) :=
  match conn d with
  | .error e => .error e
  | .ok (d', s) => .ok (d', get_new_urls s)

def add_new_url_f (d : DBFile) (url : String) : Except DBErr DBFile :=
  match conn d with
  | .error e => .error e
  | .ok (_, s) => .ok (some (add_new_url s url))

def get_tags_f (d : DBFile) : Except DBErr (DBFile × List Tag) :=
  match conn d with
  | .error e => .error e
  | .ok (d', s) => .ok (d', get_tags s)

end DB

/-! ## Reference definitions written from the spec's words (for C7) -/

/-- Reference semantics per the spec: entries whose `updated_at`, compared after
parsing the persisted string back to an instant, is `>= ts`. -/
def get_entries_since_ref (s : Store) (since : Ts) : List Entry :=
  (s.entries.filter (fun e => Ts.le since e.updated_at)).map
    (fun e => { e with annotations := none })

/-- Reference semantics per the spec, for annotations. -/
def get_anns_since_ref (s : Store) (since : Ts) : List Ann :=
  (s.anns.filter (fun r => Ts.le since r.ann.updated_at)).map (fun r => r.ann)

/-! ## Helpers for stating observable behaviour -/

/-- Attach a batch of annotations to an entry: no batch, no change (an entry that
never matches keeps `annotations = None`). -/
def appendAnns (e : Entry) (l : List Ann) : Entry :=
  match l with
  | [] => e
  | _ => { e with annotations := some ((e.annotations.getD []) ++ l) }

/-- `none` for an empty list, `some l` otherwise. -/
def attachOpt (l : List Ann) : Option (List Ann) :=
  match l with
  | [] => none
  | l => some l

/-! ## Concrete inputs for witnesses and counterexamples -/

def ts0 : Ts := ⟨2020, 1, 1, 0, 0, 0, 0⟩
def ts1 : Ts := ⟨2020, 6, 15, 12, 30, 45, 0⟩
def ts2 : Ts := ⟨2021, 3, 4, 5, 6, 7, 500000000⟩
def ts3 : Ts := ⟨2021, 12, 31, 23, 59, 59, 1⟩

/-- An entry with the given id and timestamps, other fields at their simplest. -/
def mkEntry (i : Int) (u : Ts) : Entry :=
  { annotations := none, content := none, created_at := u, domain_name := none
    headers := none, http_status := none, id := i, is_archived := false
    is_public := false, is_starred := false, language := none, mimetype := none
    origin_url := none, preview_picture := none, published_at := none
    published_by := none, reading_time := 0, starred_at := none, tags := []
    title := none, uid := none, updated_at := u, url := none, user_email := ""
    user_id := 0, user_name := "" }

/-- An annotation with the given id and timestamps. -/
def mkAnn (i : Int) (u : Ts) : Ann :=
  { id := i, annotator_schema_version := "v1.0", created_at := u, quote := none
    ranges := [], text := "", updated_at := u, user := none }

/-- A small store: one entry (with content) owning one annotation. -/
def exStore : Store :=
  { entries := [{ mkEntry 1 ts1 with content := some "body" }]
    anns := [⟨mkAnn 7 ts1, 1⟩], tags := [], taglinks := [], new_urls := []
    new_anns := [], entry_deletes := [], ann_deletes := [], last_sync := ts0 }

/-- One orchestrator invocation: `true` selects `sync`, `false` `full_sync`. -/
def runStep : (Bool × Client × Ts) → Store → Store
  | (true, c, now), s => (Backend.sync c now s).store
  | (false, c, now), s => (Backend.full_sync c now s).store

/-- A sequence of orchestrator invocations. -/
def runSeq (steps : List (Bool × Client × Ts)) (s : Store) : Store :=
  steps.foldl (fun st step => runStep step st) s

/-- Real time moves forward: each invocation's wall clock is at or after the
watermark it starts from. -/
def WellClocked : Store → List (Bool × Client × Ts) → Prop
  | _, [] => True
  | s, step :: rest => Ts.le s.last_sync step.2.2 = true ∧ WellClocked (runStep step s) rest

/-- `m` is the tail of a run that ends by committing the watermark `now`: if it
succeeds the watermark is exactly `now`, and if it aborts the watermark is
untouched. -/
def SetsWatermark (now : Ts) (m : SyncM Unit) : Prop :=
  ∀ s, ((m s).result = .ok () → (m s).store.last_sync = now) ∧
    (∀ e, (m s).result = .error e → (m s).store.last_sync = s.last_sync)

/-- The projection every pre-commit phase preserves. -/
def lastProj : Store → Ts := fun st => st.last_sync

/-- A remote that answers every list with an empty page and fails all writes. -/
def okClient : Client :=
  { getEntries := some [], getEntriesWithFilter := fun _ => some []
    createEntry := fun _ => none, updateEntry := fun _ _ => none
    deleteEntry := fun _ => none, createAnn := fun _ _ => none
    updateAnn := fun _ => none, deleteAnn := fun _ => none }

/-- A remote on which every call fails. -/
def failClient : Client :=
  { getEntries := none, getEntriesWithFilter := fun _ => none
    createEntry := fun _ => none, updateEntry := fun _ _ => none
    deleteEntry := fun _ => none, createAnn := fun _ _ => none
    updateAnn := fun _ => none, deleteAnn := fun _ => none }

/-- An otherwise-empty store with one pending annotation delete. -/
def sDel : Store := { emptyStore with ann_deletes := [5] }

/-- A store with a stale tag link for entry 1 (tag 7). -/
def s6 : Store := { emptyStore with taglinks := [(1, 7)] }

/-- Entry 1 whose denormalized tag list holds only tag 8. -/
def e6 : Entry := { mkEntry 1 ts1 with tags := [⟨8, "rust", "rust"⟩] }

/-- A remote that echoes updates back (ids preserved). -/
def pushClient : Client :=
  { okClient with
    updateEntry := fun i _ => some (mkEntry i ts2)
    updateAnn := fun a => some a }

/-- Local entries 1, 2, 3 at `ts1` (the spec's remote-deletion example). -/
def sC4 : Store := { emptyStore with
  entries := [mkEntry 1 ts1, mkEntry 2 ts1, mkEntry 3 ts1], last_sync := ts0 }

/-- The complete remote enumeration of the example: only entries 1 and 3. -/
def remotesC4 : List Entry := [mkEntry 1 ts1, mkEntry 3 ts1]

/-- A remote whose full enumeration returns entries 1 and 3. -/
def cC4 : Client := { okClient with getEntries := some remotesC4 }

/-- A store holding one locally-edited entry (id 5) newer than the watermark. -/
def sC5 : Store := { emptyStore with entries := [mkEntry 5 ts1], last_sync := ts0 }

/-- The entry the remote mints for the queued URL in the C3 scenario: id 99
with one embedded annotation (id 7) older than the local copy. -/
def eC3 : Entry := { mkEntry 99 ts1 with annotations := some [mkAnn 7 ts1] }

/-- One pending URL plus a local annotation 7 newer than the embedded copy;
the `ts3` watermark keeps the push phase away from it. -/
def sC3 : Store := { emptyStore with
  anns := [⟨mkAnn 7 ts2, 99⟩], new_urls := [⟨1, "https://example.com"⟩]
  last_sync := ts3 }

/-- A remote that accepts the create but fails the annotation update that the
follow-up pull then needs. -/
def cC3 : Client := { okClient with createEntry := fun _ => some eC3 }

/-! ## Lemmas and claim theorems -/

theorem ncmp_eq_lt {a b : Nat} : ncmp a b = .lt ↔ a < b := by
  unfold ncmp
  by_cases h1 : a < b
  · simp [h1]
  · by_cases h2 : a = b
    · simp [h1, h2]
    · simp [h1, h2]

theorem ncmp_eq_eq {a b : Nat} : ncmp a b = .eq ↔ a = b := by
  unfold ncmp
  by_cases h1 : a < b
  · have : a ≠ b := by omega
    simp [h1, this]
  · by_cases h2 : a = b
    · simp [h1, h2]
    · simp [h1, h2]

theorem ncmp_eq_gt {a b : Nat} : ncmp a b = .gt ↔ b < a := by
  unfold ncmp
  by_cases h1 : a < b
  · have : ¬ b < a := by omega
    simp [h1, this]
  · by_cases h2 : a = b
    · have : ¬ b < a := by omega
      simp [h1, h2, this]
    · have : b < a := by omega
      simp [h1, h2, this]

theorem ncmp_self (a : Nat) : ncmp a a = .eq := ncmp_eq_eq.mpr rfl

theorem then_assoc (a b c : Ordering) : (a.then b).then c = a.then (b.then c) := by
  cases a <;> cases b <;> cases c <;> rfl

theorem then_eq_right (a : Ordering) : a.then .eq = a := by
  cases a <;> rfl

theorem eq_then (a : Ordering) : Ordering.eq.then a = a := rfl

theorem then_eq_eq {a b : Ordering} : a.then b = .eq ↔ a = .eq ∧ b = .eq := by
  cases a <;> cases b <;> simp [Ordering.then]

theorem ncmp_div_lt (m a b : Nat) (h : a / m < b / m) : a < b := by
  by_contra hc
  have h2 : b / m ≤ a / m := Nat.div_le_div_right (Nat.le_of_not_lt hc)
  omega

/-- Splitting a natural by divide-and-remainder is compatible with comparison. -/
theorem ncmp_div_mod (m a b : Nat) :
    ncmp a b = (ncmp (a / m) (b / m)).then (ncmp (a % m) (b % m)) := by
  rcases Nat.lt_trichotomy (a / m) (b / m) with h | h | h
  · rw [ncmp_eq_lt.mpr (ncmp_div_lt m a b h), ncmp_eq_lt.mpr h]; rfl
  · rw [ncmp_eq_eq.mpr h, eq_then]
    have e1 : m * (a / m) + a % m = a := Nat.div_add_mod a m
    have e2 : m * (a / m) + b % m = b := by rw [h]; exact Nat.div_add_mod b m
    generalize hP : m * (a / m) = P at e1 e2
    rcases Nat.lt_trichotomy (a % m) (b % m) with h2 | h2 | h2
    · rw [ncmp_eq_lt.mpr h2, ncmp_eq_lt.mpr (show a < b by omega)]
    · rw [ncmp_eq_eq.mpr h2, ncmp_eq_eq.mpr (show a = b by omega)]
    · rw [ncmp_eq_gt.mpr h2, ncmp_eq_gt.mpr (show b < a by omega)]
  · rw [ncmp_eq_gt.mpr (ncmp_div_lt m b a h), ncmp_eq_gt.mpr h]; rfl

theorem ncmp_div_of_dvd (m a b : Nat) (hm : 0 < m) (ha : m ∣ a) (hb : m ∣ b) :
    ncmp (a / m) (b / m) = ncmp a b := by
  obtain ⟨x, rfl⟩ := ha
  obtain ⟨y, rfl⟩ := hb
  rw [Nat.mul_div_cancel_left x hm, Nat.mul_div_cancel_left y hm]
  rcases Nat.lt_trichotomy x y with h | h | h
  · rw [ncmp_eq_lt.mpr h, ncmp_eq_lt.mpr (mul_lt_mul_of_pos_left h hm)]
  · subst h; rw [ncmp_self, ncmp_self]
  · rw [ncmp_eq_gt.mpr h, ncmp_eq_gt.mpr (mul_lt_mul_of_pos_left h hm)]

/-- If the quotients differ, they decide the comparison. -/
theorem ncmp_eq_of_div_ne (m a b : Nat) (h : ncmp (a / m) (b / m) ≠ .eq) :
    ncmp a b = ncmp (a / m) (b / m) := by
  rcases Nat.lt_trichotomy (a / m) (b / m) with h2 | h2 | h2
  · rw [ncmp_eq_lt.mpr h2, ncmp_eq_lt.mpr (ncmp_div_lt m a b h2)]
  · exact absurd (ncmp_eq_eq.mpr h2) h
  · rw [ncmp_eq_gt.mpr h2, ncmp_eq_gt.mpr (ncmp_div_lt m b a h2)]

/-- Equal quotients, dividend divisible on the left only: strictly smaller. -/
theorem lt_of_div_eq_dvd_left (m a b : Nat) (h : a / m = b / m)
    (ha : a % m = 0) (hb : b % m ≠ 0) : a < b := by
  have e1 : m * (a / m) + a % m = a := Nat.div_add_mod a m
  have e2 : m * (a / m) + b % m = b := by rw [h]; exact Nat.div_add_mod b m
  generalize hP : m * (a / m) = P at e1 e2
  omega

theorem Ts.cmp_self (t : Ts) : Ts.cmp t t = .eq := by
  simp [Ts.cmp, ncmp_self, eq_then]

theorem Ts.cmp_eq_eq {a b : Ts} : Ts.cmp a b = .eq ↔ a = b := by
  constructor
  · intro h
    unfold Ts.cmp at h
    cases a; cases b
    simp only [then_eq_eq] at h
    obtain ⟨h1, h2, h3, h4, h5, h6, h7⟩ := h
    simp only [ncmp_eq_eq] at h1 h2 h3 h4 h5 h6 h7
    simp_all
  · intro h; subst h; exact Ts.cmp_self a

theorem pad_length (k n : Nat) : (pad k n).length = k := by
  induction k generalizing n with
  | zero => rfl
  | succ k ih => simp [pad, ih]

theorem pad_split (j k n : Nat) :
    pad (j + k) n = pad j (n / 10 ^ k) ++ pad k (n % 10 ^ k) := by
  induction k generalizing n with
  | zero => simp [pad, Nat.mod_one]
  | succ k ih =>
    have h1 : j + (k + 1) = (j + k) + 1 := by omega
    rw [h1]
    show pad ((j + k) + 1) n = _
    rw [pad, ih (n / 10)]
    have h2 : n / 10 / 10 ^ k = n / 10 ^ (k + 1) := by
      rw [Nat.div_div_eq_div_mul]; ring_nf
    have h3 : n / 10 % 10 ^ k = n % 10 ^ (k + 1) / 10 := by
      have : (10 : Nat) ^ (k + 1) = 10 * 10 ^ k := by ring
      rw [this]
      exact (Nat.mod_mul_right_div_self n 10 (10 ^ k)).symm
    have h4 : n % 10 = n % 10 ^ (k + 1) % 10 := by
      have hd : (10 : Nat) ∣ 10 ^ (k + 1) := ⟨10 ^ k, by ring⟩
      exact (Nat.mod_mod_of_dvd n hd).symm
    rw [h2, h3, h4, pad, List.append_assoc]

theorem textCmp_append (xs xs' ys ys' : List Char)
    (h : xs.length = xs'.length) :
    textCmp (xs ++ ys) (xs' ++ ys') = (textCmp xs xs').then (textCmp ys ys') := by
  induction xs generalizing xs' with
  | nil =>
    cases xs' with
    | nil => simp [textCmp, eq_then]
    | cons _ _ => simp at h
  | cons c cs ih =>
    cases xs' with
    | nil => simp at h
    | cons d ds =>
      simp only [List.length_cons, Nat.succ_inj] at h
      rw [List.cons_append, List.cons_append]
      show (ncmp c.toNat d.toNat).then (textCmp (cs ++ ys) (ds ++ ys'))
        = (textCmp (c :: cs) (d :: ds)).then (textCmp ys ys')
      rw [ih ds h]
      show _ = ((ncmp c.toNat d.toNat).then (textCmp cs ds)).then (textCmp ys ys')
      rw [then_assoc]

theorem textCmp_cons_same (c : Char) (ys ys' : List Char) :
    textCmp (c :: ys) (c :: ys') = textCmp ys ys' := by
  simp [textCmp, ncmp_self, eq_then]

theorem digitChar_cmp : ∀ x < 10, ∀ y < 10,
    ncmp (Nat.digitChar x).toNat (Nat.digitChar y).toNat = ncmp x y := by decide

theorem pad_cmp : ∀ (k a b : Nat), a < 10 ^ k → b < 10 ^ k →
    textCmp (pad k a) (pad k b) = ncmp a b := by
  intro k
  induction k with
  | zero =>
    intro a b ha hb
    simp only [pow_zero, Nat.lt_one_iff] at ha hb
    subst ha; subst hb
    simp [pad, textCmp, ncmp_self]
  | succ k ih =>
    intro a b ha hb
    rw [pad, pad, textCmp_append _ _ _ _ (by simp [pad_length])]
    have hda : a / 10 < 10 ^ k := by
      rw [Nat.div_lt_iff_lt_mul (by norm_num)]
      calc a < 10 ^ (k + 1) := ha
        _ = 10 ^ k * 10 := by ring
    have hdb : b / 10 < 10 ^ k := by
      rw [Nat.div_lt_iff_lt_mul (by norm_num)]
      calc b < 10 ^ (k + 1) := hb
        _ = 10 ^ k * 10 := by ring
    rw [ih (a / 10) (b / 10) hda hdb]
    have h1 : textCmp [Nat.digitChar (a % 10)] [Nat.digitChar (b % 10)]
        = ncmp (a % 10) (b % 10) := by
      simp only [textCmp]
      rw [digitChar_cmp _ (Nat.mod_lt a (by norm_num)) _ (Nat.mod_lt b (by norm_num)),
        then_eq_right]
    rw [h1, ← ncmp_div_mod 10 a b]

/-- The head of a non-trivial pad is a decimal digit, which compares above `'+'`
and below any other digit-or-dot boundary we need. -/
theorem pad_head (k n : Nat) : ∃ d rest, pad (k + 1) n = Nat.digitChar d :: rest ∧ d < 10 := by
  induction k generalizing n with
  | zero => exact ⟨n % 10, [], by simp [pad], Nat.mod_lt n (by norm_num)⟩
  | succ k ih =>
    obtain ⟨d, rest, hpad, hd⟩ := ih (n / 10)
    exact ⟨d, rest ++ [Nat.digitChar (n % 10)], by rw [pad, hpad]; simp, hd⟩

theorem plus_lt_digit : ∀ d < 10, ncmp ('+'.toNat) ((Nat.digitChar d).toNat) = .lt := by
  decide

/-- Comparing the offset tail against a longer fractional rest: the `'+'` of
`+00:00` is below every decimal digit. -/
theorem textCmp_offset_pad (k n : Nat) (tail : List Char) :
    textCmp offsetChars (pad (k + 1) n ++ tail) = .lt := by
  obtain ⟨d, rest, hpad, hd⟩ := pad_head k n
  rw [hpad]
  show textCmp ('+' :: _) (Nat.digitChar d :: _) = .lt
  simp only [textCmp]
  rw [plus_lt_digit d hd]; rfl

theorem textCmp_self (xs : List Char) : textCmp xs xs = .eq := by
  induction xs with
  | nil => rfl
  | cons c cs ih => simp [textCmp, ncmp_self, eq_then, ih]

theorem digit_gt_plus : ∀ d < 10, ncmp ((Nat.digitChar d).toNat) ('+'.toNat) = .gt := by
  decide

/-- Mirror of `textCmp_offset_pad`. -/
theorem textCmp_pad_offset (k n : Nat) (tail : List Char) :
    textCmp (pad (k + 1) n ++ tail) offsetChars = .gt := by
  obtain ⟨d, rest, hpad, hd⟩ := pad_head k n
  rw [hpad]
  show textCmp (Nat.digitChar d :: _) ('+' :: _) = .gt
  simp only [textCmp]
  rw [digit_gt_plus d hd]; rfl

theorem off_lt_dot (r : List Char) : textCmp offsetChars ('.' :: r) = .lt := by
  show textCmp ('+' :: _) ('.' :: r) = .lt
  simp only [textCmp]
  rw [show ncmp ('+'.toNat) ('.'.toNat) = .lt by decide]; rfl

theorem dot_gt_off (r : List Char) : textCmp ('.' :: r) offsetChars = .gt := by
  show textCmp ('.' :: r) ('+' :: _) = .gt
  simp only [textCmp]
  rw [show ncmp ('.'.toNat) ('+'.toNat) = .gt by decide]; rfl

/-- `pad_cmp` with the power bound given as a plain numeral. -/
theorem pad_cmp' (k a b B : Nat) (hB : 10 ^ k = B) (ha : a < B) (hb : b < B) :
    textCmp (pad k a) (pad k b) = ncmp a b :=
  pad_cmp k a b (hB ▸ ha) (hB ▸ hb)

theorem pad6_split (n : Nat) : pad 6 n = pad 3 (n / 1000) ++ pad 3 (n % 1000) := by
  have h := pad_split 3 3 n
  norm_num at h
  exact h

theorem pad9_split6 (n : Nat) : pad 9 n = pad 6 (n / 1000) ++ pad 3 (n % 1000) := by
  have h := pad_split 6 3 n
  norm_num at h
  exact h

theorem pad9_split3 (n : Nat) : pad 9 n = pad 3 (n / 1000000) ++ pad 6 (n % 1000000) := by
  have h := pad_split 3 6 n
  norm_num at h
  exact h

/-- A strictly-shorter canonical fraction on the divisible side decides `<`. -/
theorem cmp_prefix_lt (m a b : Nat) (ha : a % m = 0) (hb : b % m ≠ 0) :
    (ncmp (a / m) (b / m)).then .lt = ncmp a b := by
  rcases Nat.lt_trichotomy (a / m) (b / m) with h | h | h
  · rw [ncmp_eq_lt.mpr h, ncmp_eq_lt.mpr (ncmp_div_lt m a b h)]; rfl
  · rw [ncmp_eq_eq.mpr h, ncmp_eq_lt.mpr (lt_of_div_eq_dvd_left m a b h ha hb)]; rfl
  · rw [ncmp_eq_gt.mpr h, ncmp_eq_gt.mpr (ncmp_div_lt m b a h)]; rfl

theorem cmp_prefix_gt (m a b : Nat) (ha : a % m ≠ 0) (hb : b % m = 0) :
    (ncmp (a / m) (b / m)).then .gt = ncmp a b := by
  rcases Nat.lt_trichotomy (a / m) (b / m) with h | h | h
  · rw [ncmp_eq_lt.mpr h, ncmp_eq_lt.mpr (ncmp_div_lt m a b h)]; rfl
  · rw [ncmp_eq_eq.mpr h, ncmp_eq_gt.mpr (lt_of_div_eq_dvd_left m b a h.symm hb ha)]; rfl
  · rw [ncmp_eq_gt.mpr h, ncmp_eq_gt.mpr (ncmp_div_lt m b a h)]; rfl

theorem textCmp_offset_pad' (k n : Nat) (hk : k ≠ 0) (tail : List Char) :
    textCmp offsetChars (pad k n ++ tail) = .lt := by
  obtain ⟨j, rfl⟩ : ∃ j, k = j + 1 := ⟨k - 1, by omega⟩
  exact textCmp_offset_pad j n tail

theorem textCmp_pad_offset' (k n : Nat) (hk : k ≠ 0) (tail : List Char) :
    textCmp (pad k n ++ tail) offsetChars = .gt := by
  obtain ⟨j, rfl⟩ : ∃ j, k = j + 1 := ⟨k - 1, by omega⟩
  exact textCmp_pad_offset j n tail

/-- Bytewise comparison of two canonical chrono fractional-second fragments
(each followed by the `+00:00` offset) agrees with comparing the nanosecond
counts themselves. -/
theorem frac_cmp (a b : Nat) (ha : a ≤ 999999999) (hb : b ≤ 999999999) :
    textCmp (fracPart a ++ offsetChars) (fracPart b ++ offsetChars) = ncmp a b := by
  unfold fracPart
  by_cases a0 : a = 0 <;> by_cases b0 : b = 0
  · subst a0; subst b0
    simp only [if_pos rfl, List.nil_append, textCmp_self, ncmp_self]
  · subst a0
    rw [if_pos rfl, ncmp_eq_lt.mpr (Nat.pos_of_ne_zero b0), if_neg b0]
    split
    · rw [List.nil_append, List.cons_append]; exact off_lt_dot _
    · split
      · rw [List.nil_append, List.cons_append]; exact off_lt_dot _
      · rw [List.nil_append, List.cons_append]; exact off_lt_dot _
  · subst b0
    rw [if_pos rfl, ncmp_eq_gt.mpr (Nat.pos_of_ne_zero a0), if_neg a0]
    split
    · rw [List.nil_append, List.cons_append]; exact dot_gt_off _
    · split
      · rw [List.nil_append, List.cons_append]; exact dot_gt_off _
      · rw [List.nil_append, List.cons_append]; exact dot_gt_off _
  · rw [if_neg a0, if_neg b0]
    by_cases am : a % 1000000 = 0 <;> by_cases bm : b % 1000000 = 0
    · -- both millisecond-precision fragments
      rw [if_pos am, if_pos bm, List.cons_append, List.cons_append, textCmp_cons_same,
        textCmp_append _ _ _ _ (by simp [pad_length]),
        pad_cmp' 3 _ _ 1000 (by norm_num) (by omega) (by omega),
        textCmp_self, then_eq_right]
      exact ncmp_div_of_dvd 1000000 a b (by norm_num)
        (Nat.dvd_of_mod_eq_zero am) (Nat.dvd_of_mod_eq_zero bm)
    · by_cases bq : b % 1000 = 0
      · -- milli vs micro
        rw [if_pos am, if_neg bm, if_pos bq, List.cons_append, List.cons_append,
          textCmp_cons_same]
        have hb6 : pad 6 (b / 1000) = pad 3 (b / 1000000) ++ pad 3 (b / 1000 % 1000) := by
          rw [pad6_split (b / 1000), Nat.div_div_eq_div_mul]
        rw [hb6, List.append_assoc, textCmp_append _ _ _ _ (by simp [pad_length]),
          pad_cmp' 3 _ _ 1000 (by norm_num) (by omega) (by omega),
          textCmp_offset_pad' 3 _ (by norm_num) _]
        exact cmp_prefix_lt 1000000 a b am bm
      · -- milli vs nano
        rw [if_pos am, if_neg bm, if_neg bq, List.cons_append, List.cons_append,
          textCmp_cons_same, pad9_split3 b, List.append_assoc,
          textCmp_append _ _ _ _ (by simp [pad_length]),
          pad_cmp' 3 _ _ 1000 (by norm_num) (by omega) (by omega),
          textCmp_offset_pad' 6 _ (by norm_num) _]
        exact cmp_prefix_lt 1000000 a b am bm
    · by_cases aq : a % 1000 = 0
      · -- micro vs milli
        rw [if_neg am, if_pos aq, if_pos bm, List.cons_append, List.cons_append,
          textCmp_cons_same]
        have ha6 : pad 6 (a / 1000) = pad 3 (a / 1000000) ++ pad 3 (a / 1000 % 1000) := by
          rw [pad6_split (a / 1000), Nat.div_div_eq_div_mul]
        rw [ha6, List.append_assoc, textCmp_append _ _ _ _ (by simp [pad_length]),
          pad_cmp' 3 _ _ 1000 (by norm_num) (by omega) (by omega),
          textCmp_pad_offset' 3 _ (by norm_num) _]
        exact cmp_prefix_gt 1000000 a b am bm
      · -- nano vs milli
        rw [if_neg am, if_neg aq, if_pos bm, List.cons_append, List.cons_append,
          textCmp_cons_same, pad9_split3 a, List.append_assoc,
          textCmp_append _ _ _ _ (by simp [pad_length]),
          pad_cmp' 3 _ _ 1000 (by norm_num) (by omega) (by omega),
          textCmp_pad_offset' 6 _ (by norm_num) _]
        exact cmp_prefix_gt 1000000 a b am bm
    · by_cases aq : a % 1000 = 0 <;> by_cases bq : b % 1000 = 0
      · -- both microsecond-precision fragments
        rw [if_neg am, if_pos aq, if_neg bm, if_pos bq, List.cons_append,
          List.cons_append, textCmp_cons_same,
          textCmp_append _ _ _ _ (by simp [pad_length]),
          pad_cmp' 6 _ _ 1000000 (by norm_num) (by omega) (by omega),
          textCmp_self, then_eq_right]
        exact ncmp_div_of_dvd 1000 a b (by norm_num)
          (Nat.dvd_of_mod_eq_zero aq) (Nat.dvd_of_mod_eq_zero bq)
      · -- micro vs nano
        rw [if_neg am, if_pos aq, if_neg bm, if_neg bq, List.cons_append,
          List.cons_append, textCmp_cons_same, pad9_split6 b, List.append_assoc,
          textCmp_append _ _ _ _ (by simp [pad_length]),
          pad_cmp' 6 _ _ 1000000 (by norm_num) (by omega) (by omega),
          textCmp_offset_pad' 3 _ (by norm_num) _]
        exact cmp_prefix_lt 1000 a b aq bq
      · -- nano vs micro
        rw [if_neg am, if_neg aq, if_neg bm, if_pos bq, List.cons_append,
          List.cons_append, textCmp_cons_same, pad9_split6 a, List.append_assoc,
          textCmp_append _ _ _ _ (by simp [pad_length]),
          pad_cmp' 6 _ _ 1000000 (by norm_num) (by omega) (by omega),
          textCmp_pad_offset' 3 _ (by norm_num) _]
        exact cmp_prefix_gt 1000 a b aq bq
      · -- both nanosecond-precision fragments
        rw [if_neg am, if_neg aq, if_neg bm, if_neg bq, List.cons_append,
          List.cons_append, textCmp_cons_same,
          textCmp_append _ _ _ _ (by simp [pad_length]),
          pad_cmp' 9 _ _ 1000000000 (by norm_num) (by omega) (by omega),
          textCmp_self, then_eq_right]

/-- Bytewise (SQLite BINARY) comparison of the persisted RFC-3339 strings of two
valid UTC timestamps agrees with the instant comparison `Ord::cmp` performs on the
parsed `DateTime<Utc>` values. -/
theorem rfc3339_cmp (a b : Ts) (ha : a.valid) (hb : b.valid) :
    textCmp (Ts.rfc3339 a) (Ts.rfc3339 b) = Ts.cmp a b := by
  obtain ⟨ha1, ha2, ha3, ha4, ha5, ha6, ha7⟩ := ha
  obtain ⟨hb1, hb2, hb3, hb4, hb5, hb6, hb7⟩ := hb
  unfold Ts.rfc3339 Ts.cmp
  rw [textCmp_append _ _ _ _ (by simp [pad_length]),
    pad_cmp' 4 _ _ 10000 (by norm_num) (by omega) (by omega), textCmp_cons_same,
    textCmp_append _ _ _ _ (by simp [pad_length]),
    pad_cmp' 2 _ _ 100 (by norm_num) (by omega) (by omega), textCmp_cons_same,
    textCmp_append _ _ _ _ (by simp [pad_length]),
    pad_cmp' 2 _ _ 100 (by norm_num) (by omega) (by omega), textCmp_cons_same,
    textCmp_append _ _ _ _ (by simp [pad_length]),
    pad_cmp' 2 _ _ 100 (by norm_num) (by omega) (by omega), textCmp_cons_same,
    textCmp_append _ _ _ _ (by simp [pad_length]),
    pad_cmp' 2 _ _ 100 (by norm_num) (by omega) (by omega), textCmp_cons_same,
    textCmp_append _ _ _ _ (by simp [pad_length]),
    pad_cmp' 2 _ _ 100 (by norm_num) (by omega) (by omega),
    frac_cmp _ _ ha7 hb7]

theorem ncmp_swap (a b : Nat) : ncmp a b = (ncmp b a).swap := by
  rcases Nat.lt_trichotomy a b with h | h | h
  · rw [ncmp_eq_lt.mpr h, ncmp_eq_gt.mpr h]; rfl
  · subst h; rw [ncmp_self]; rfl
  · rw [ncmp_eq_gt.mpr h, ncmp_eq_lt.mpr h]; rfl

theorem then_swap (a b : Ordering) : (a.then b).swap = a.swap.then b.swap := by
  cases a <;> cases b <;> rfl

theorem Ts.cmp_swap (a b : Ts) : Ts.cmp a b = (Ts.cmp b a).swap := by
  unfold Ts.cmp
  rw [ncmp_swap a.year, ncmp_swap a.month, ncmp_swap a.day, ncmp_swap a.hour,
    ncmp_swap a.minute, ncmp_swap a.second, ncmp_swap a.nano]
  simp only [then_swap]

theorem Ts.cmp_eq_listCmp (a b : Ts) : Ts.cmp a b = listCmp (keyList a) (keyList b) := by
  simp only [Ts.cmp, keyList, listCmp, then_eq_right]

theorem listCmp_le_trans : ∀ (a b c : List Nat),
    listCmp a b ≠ .gt → listCmp b c ≠ .gt → listCmp a c ≠ .gt := by
  intro a
  induction a with
  | nil =>
    intro b c _ _
    cases c <;> simp [listCmp]
  | cons x xs ih =>
    intro b c hab hbc
    cases b with
    | nil => cases x <;> simp [listCmp] at hab
    | cons y ys =>
      cases c with
      | nil => cases y <;> simp [listCmp] at hbc
      | cons z zs =>
        simp only [listCmp] at hab hbc ⊢
        rcases Nat.lt_trichotomy x y with h1 | h1 | h1
        · rcases Nat.lt_trichotomy y z with h2 | h2 | h2
          · rw [ncmp_eq_lt.mpr (by omega)]; simp [Ordering.then]
          · subst h2; rw [ncmp_eq_lt.mpr h1]; simp [Ordering.then]
          · rcases Nat.lt_trichotomy x z with h3 | h3 | h3
            · rw [ncmp_eq_lt.mpr h3]; simp [Ordering.then]
            · subst h3
              rw [ncmp_eq_gt.mpr h2] at hbc; simp [Ordering.then] at hbc
            · rw [ncmp_eq_gt.mpr h2] at hbc; simp [Ordering.then] at hbc
        · subst h1
          rw [ncmp_self, eq_then] at hab
          rcases Nat.lt_trichotomy x z with h2 | h2 | h2
          · rw [ncmp_eq_lt.mpr h2]; simp [Ordering.then]
          · subst h2
            rw [ncmp_self, eq_then] at hbc
            rw [ncmp_self, eq_then]
            exact ih _ _ hab hbc
          · rw [ncmp_eq_gt.mpr h2] at hbc; simp [Ordering.then] at hbc
        · rw [ncmp_eq_gt.mpr h1] at hab; simp [Ordering.then] at hab

theorem Ts.le_refl (t : Ts) : Ts.le t t = true := by
  unfold Ts.le; rw [Ts.cmp_self]

theorem Ts.le_iff {a b : Ts} : Ts.le a b = true ↔ Ts.cmp a b ≠ .gt := by
  unfold Ts.le
  rcases h : Ts.cmp a b <;> simp [h]

theorem Ts.le_trans {a b c : Ts} (h1 : Ts.le a b = true) (h2 : Ts.le b c = true) :
    Ts.le a c = true := by
  rw [Ts.le_iff] at h1 h2 ⊢
  rw [Ts.cmp_eq_listCmp] at h1 h2 ⊢
  exact listCmp_le_trans _ _ _ h1 h2

theorem SyncM.lift_run (f : Store → Store) (s : Store) :
    SyncM.lift f s = ⟨f s, [], .ok ()⟩ := rfl

theorem SyncM.read_run {α : Type} (f : Store → α) (s : Store) :
    SyncM.read f s = ⟨s, [], .ok (f s)⟩ := rfl

theorem SyncM.pure_run {α : Type} (a : α) (s : Store) :
    SyncM.pure a s = ⟨s, [], .ok a⟩ := rfl

theorem SyncM.call_some {α : Type} (c : RemoteCall) {resp : Option α} {a : α}
    (h : resp = some a) (s : Store) : SyncM.call c resp s = ⟨s, [c], .ok a⟩ := by
  subst h; rfl

theorem SyncM.call_none {α : Type} (c : RemoteCall) {resp : Option α}
    (h : resp = none) (s : Store) : SyncM.call c resp s = ⟨s, [c], .error c⟩ := by
  subst h; rfl

theorem SyncM.bind_err {α β : Type} {m : SyncM α} (f : α → SyncM β) {s s' : Store}
    {tr : List RemoteCall} {e : RemoteCall} (h : m s = ⟨s', tr, .error e⟩) :
    SyncM.bind m f s = ⟨s', tr, .error e⟩ := by
  unfold SyncM.bind; rw [h]

theorem SyncM.bind_ok {α β : Type} {m : SyncM α} (f : α → SyncM β) {s s' : Store}
    {tr : List RemoteCall} {a : α} (h : m s = ⟨s', tr, .ok a⟩) :
    SyncM.bind m f s
      = ⟨(f a s').store, tr ++ (f a s').trace, (f a s').result⟩ := by
  unfold SyncM.bind; rw [h]

/-- Inversion: the composite succeeded, so both parts did. -/
theorem SyncM.bind_ok_inv {α β : Type} {m : SyncM α} {f : α → SyncM β} {s : Store}
    {b : β} (h : (SyncM.bind m f s).result = .ok b) :
    ∃ a, (m s).result = .ok a ∧ (f a (m s).store).result = .ok b ∧
      (SyncM.bind m f s).store = (f a (m s).store).store ∧
      (SyncM.bind m f s).trace = (m s).trace ++ (f a (m s).store).trace := by
  rcases hm : m s with ⟨s', tr, r⟩
  cases r with
  | error e =>
    rw [SyncM.bind_err f hm] at h
    simp at h
  | ok a =>
    rw [SyncM.bind_ok f hm] at h ⊢
    exact ⟨a, rfl, h, rfl, rfl⟩

/-- Inversion: the composite failed either in the first or the second part. -/
theorem SyncM.bind_err_inv {α β : Type} {m : SyncM α} {f : α → SyncM β} {s : Store}
    {e : RemoteCall} (h : (SyncM.bind m f s).result = .error e) :
    ((m s).result = .error e ∧ (SyncM.bind m f s).store = (m s).store ∧
      (SyncM.bind m f s).trace = (m s).trace) ∨
    (∃ a, (m s).result = .ok a ∧ (f a (m s).store).result = .error e ∧
      (SyncM.bind m f s).store = (f a (m s).store).store ∧
      (SyncM.bind m f s).trace = (m s).trace ++ (f a (m s).store).trace) := by
  rcases hm : m s with ⟨s', tr, r⟩
  cases r with
  | error e' =>
    rw [SyncM.bind_err f hm] at h
    simp only [Except.error.injEq] at h
    subst h
    rw [SyncM.bind_err f hm]
    exact Or.inl ⟨rfl, rfl, rfl⟩
  | ok a =>
    rw [SyncM.bind_ok f hm] at h ⊢
    exact Or.inr ⟨a, rfl, h, rfl, rfl⟩

theorem Preserves.pure {α γ : Type} (a : α) (g : Store → γ) :
    Preserves (SyncM.pure a) g := fun _ => rfl

theorem Preserves.read {α γ : Type} (f : Store → α) (g : Store → γ) :
    Preserves (SyncM.read f) g := fun _ => rfl

theorem Preserves.call {α γ : Type} (c : RemoteCall) (resp : Option α) (g : Store → γ) :
    Preserves (SyncM.call c resp) g := fun _ => rfl

theorem Preserves.lift {γ : Type} (f : Store → Store) (g : Store → γ)
    (h : ∀ s, g (f s) = g s) : Preserves (SyncM.lift f) g := h

theorem Preserves.bind {α β γ : Type} {m : SyncM α} {f : α → SyncM β} {g : Store → γ}
    (hm : Preserves m g) (hf : ∀ a, Preserves (f a) g) :
    Preserves (SyncM.bind m f) g := by
  intro s
  rcases hms : m s with ⟨s', tr, r⟩
  have hg : g s' = g s := by
    have := hm s; rw [hms] at this; exact this
  cases r with
  | error e => rw [SyncM.bind_err f hms]; exact hg
  | ok a =>
    rw [SyncM.bind_ok f hms]
    simpa [hf a s'] using hg

theorem Preserves.iterM {α γ : Type} {f : α → SyncM Unit} {g : Store → γ}
    (h : ∀ x, Preserves (f x) g) : ∀ l, Preserves (iterM f l) g := by
  intro l
  induction l with
  | nil => exact Preserves.pure () g
  | cons x xs ih => exact Preserves.bind (h x) (fun _ => ih)

theorem filter_congr_bool {α : Type} {p q : α → Bool} :
    ∀ l : List α, (∀ x ∈ l, p x = q x) → l.filter p = l.filter q := by
  intro l
  induction l with
  | nil => intro _; rfl
  | cons x xs ih =>
    intro h
    have hx := h x (by simp)
    simp only [List.filter_cons, hx, ih (fun y hy => h y (by simp [hy]))]

/-- SQL `updated_at >= ?` over the persisted RFC-3339 TEXT equals the instant
comparison, for valid timestamps. -/
theorem textGe_rfc3339 (x y : Ts) (hx : x.valid) (hy : y.valid) :
    textGe (Ts.rfc3339 x) (Ts.rfc3339 y) = Ts.le y x := by
  unfold textGe Ts.le
  rw [rfc3339_cmp x y hx hy, Ts.cmp_swap x y]
  cases Ts.cmp y x <;> rfl

/-- C7: for every timestamp `ts`, `get_entries_since ts` returns exactly the
stored entries whose `updated_at`, compared after parsing the persisted RFC-3339
string back to an instant, is `>= ts`, and `get_annotations_since` does the same
for annotations: the store's TEXT comparison over persisted timestamp strings is
equivalent to the reference comparison over parsed instants (all timestamps
in the RFC-3339-representable range). -/
theorem c7_since_string_cmp_equiv (s : Store) (since : Ts) (hs : since.valid)
    (he : ∀ e ∈ s.entries, Entry.updated_at e |>.valid)
    (ha : ∀ r ∈ s.anns, Ann.updated_at r.ann |>.valid) :
    DB.get_entries_since s since = get_entries_since_ref s since ∧
    DB.get_anns_since s since = get_anns_since_ref s since := by
  constructor
  · unfold DB.get_entries_since get_entries_since_ref
    rw [filter_congr_bool s.entries
      (fun e hmem => textGe_rfc3339 e.updated_at since (he e hmem) hs)]
  · unfold DB.get_anns_since get_anns_since_ref
    rw [filter_congr_bool s.anns
      (fun r hmem => textGe_rfc3339 r.ann.updated_at since (ha r hmem) hs)]

theorem c7_since_string_cmp_equiv_witness :
    DB.get_entries_since exStore ts0 = get_entries_since_ref exStore ts0 ∧
    DB.get_anns_since exStore ts0 = get_anns_since_ref exStore ts0 :=
  c7_since_string_cmp_equiv exStore ts0 (by decide) (by decide) (by decide)

/-! ## C8 — `get_all_entries` blanks out the content column -/

theorem appendAnns_id (e : Entry) (l : List Ann) : (appendAnns e l).id = e.id := by
  cases l <;> rfl

theorem appendAnns_content (e : Entry) (l : List Ann) :
    (appendAnns e l).content = e.content := by
  cases l <;> rfl

/-- Helper: every entry produced by the export fold keeps the content of the
`get_all_entries` base, i.e. the literal empty string. -/
theorem export_content (s : Store) :
    ∀ e' ∈ Backend.export_data s, e'.content = some "" := by
  unfold Backend.export_data
  generalize DB.get_anns s = L
  have hbase : ∀ e' ∈ DB.get_all_entries s, Entry.content e' = some "" := by
    unfold DB.get_all_entries
    intro e' he'
    rcases List.mem_map.mp he' with ⟨row, _, rfl⟩
    rfl
  generalize hacc : DB.get_all_entries s = acc at hbase
  clear hacc
  induction L generalizing acc with
  | nil => exact hbase
  | cons p L ih =>
    rw [List.foldl_cons]
    apply ih
    intro e' he'
    rcases List.mem_map.mp he' with ⟨row, hrow, rfl⟩
    have hc := hbase row hrow
    by_cases h : (row.id == p.1) = true
    · rw [if_pos h]
      exact hc
    · rw [if_neg h]
      exact hc

/-- C8: every Entry returned by `get_all_entries` (hence by `Backend::entries`
and by `export`) carries the literal empty string as content, regardless of the
stored content, whereas `get_entry` and `get_entries_since` hand back the stored
content of the row. -/
theorem c8_all_entries_blank_content (s : Store) :
    (∀ e ∈ DB.get_all_entries s, Entry.content e = some "") ∧
    (∀ e ∈ Backend.entries s, Entry.content e = some "") ∧
    (∀ e ∈ Backend.export_data s, Entry.content e = some "") ∧
    (∀ id e, DB.get_entry s id = some e →
      ∃ row ∈ s.entries, row.id = id ∧ Entry.content e = row.content) ∧
    (∀ since e, e ∈ DB.get_entries_since s since →
      ∃ row ∈ s.entries, Entry.content e = row.content ∧ e.id = row.id) := by
  refine ⟨?_, ?_, export_content s, ?_, ?_⟩
  · intro e he
    rcases List.mem_map.mp he with ⟨row, _, rfl⟩
    rfl
  · intro e he
    rcases List.mem_map.mp he with ⟨row, _, rfl⟩
    rfl
  · intro id e h
    unfold DB.get_entry at h
    rcases hf : s.entries.find? (fun e => e.id == id) with _ | row
    · rw [hf] at h; simp at h
    · rw [hf] at h
      simp only [Option.map_some', Option.some.injEq] at h
      have hmem := List.mem_of_find?_eq_some hf
      have hid := List.find?_some hf
      simp only [beq_iff_eq] at hid
      exact ⟨row, hmem, hid, by rw [← h]⟩
  · intro since e he
    unfold DB.get_entries_since at he
    rcases List.mem_map.mp he with ⟨row, hrow, rfl⟩
    exact ⟨row, List.mem_of_mem_filter hrow, rfl, rfl⟩

theorem c8_all_entries_blank_content_witness :
    (∃ e, e ∈ DB.get_all_entries exStore ∧ Entry.content e = some "") ∧
    DB.get_entry exStore 1
      = some { mkEntry 1 ts1 with content := some "body", annotations := none } := by
  constructor
  · exact ⟨{ mkEntry 1 ts1 with content := some "", annotations := none }, by decide,
      (c8_all_entries_blank_content exStore).1
        ({ mkEntry 1 ts1 with content := some "", annotations := none }) (by decide)⟩
  · decide

/-! ## C9 — every store operation auto-initializes a missing database file -/

/-- C9: `DB::conn` initializes the schema when the file is missing, so every
store operation succeeds on an uninitialized store (operating on the fresh empty
schema), while an explicit `init()` on an existing store fails with `DBExists`. -/
theorem c9_conn_auto_init :
    (∀ s : Store, DB.init (some s) = .error .DBExists) ∧
    (DB.init none = .ok (some emptyStore)) ∧
    (DB.conn none = .ok (some emptyStore, emptyStore)) ∧
    (∀ s : Store, DB.conn (some s) = .ok (some s, s)) ∧
    (∀ i, DB.get_entry_f none i = .ok (some emptyStore, none)) ∧
    (DB.get_all_entries_f none = .ok (some emptyStore, [])) ∧
    (∀ e, DB.save_entry_f none e = .ok (some (DB.save_entry emptyStore e))) ∧
    (∀ i, DB.get_ann_f none i = .ok (some emptyStore, none)) ∧
    (∀ a i, DB.save_ann_f none a i = .ok (some (DB.save_ann emptyStore a i))) ∧
    (DB.get_last_sync_f none = .ok (some emptyStore, emptyStore.last_sync)) ∧
    (∀ t, DB.touch_last_sync_f none t = .ok (some (DB.touch_last_sync emptyStore t))) ∧
    (DB.get_new_urls_f none = .ok (some emptyStore, [])) ∧
    (∀ u, DB.add_new_url_f none u = .ok (some (DB.add_new_url emptyStore u))) ∧
    (DB.get_tags_f none = .ok (some emptyStore, [])) :=
  ⟨fun _ => rfl, rfl, rfl, fun _ => rfl, fun _ => rfl, rfl, fun _ => rfl,
    fun _ => rfl, fun _ _ => rfl, rfl, fun _ => rfl, rfl, fun _ => rfl, rfl⟩

/-! ## C10 — export attaches each stored annotation to its entry -/

theorem filter_cons_pos {α : Type} (p : α → Bool) (x : α) (l : List α)
    (h : p x = true) : (x :: l).filter p = x :: l.filter p := by
  simp [List.filter, h]

theorem filter_cons_neg {α : Type} (p : α → Bool) (x : α) (l : List α)
    (h : p x = false) : (x :: l).filter p = l.filter p := by
  simp [List.filter, h]

theorem appendAnns_snoc (e : Entry) (a : Ann) (l : List Ann) :
    appendAnns { e with annotations := some ((e.annotations.getD []) ++ [a]) } l
      = appendAnns e (a :: l) := by
  cases l with
  | nil => simp [appendAnns]
  | cons b bs => simp [appendAnns, List.append_assoc]

/-- The export fold, characterized: each accumulator entry picks up exactly the
annotation rows keyed by its id, in row order. -/
theorem export_fold (L : List (Int × Ann)) :
    ∀ acc : List Entry,
      L.foldl (fun acc p => acc.map (fun e =>
          if e.id == p.1 then
            { e with annotations := some ((e.annotations.getD []) ++ [p.2]) }
          else e)) acc
        = acc.map (fun e =>
            appendAnns e ((L.filter (fun p => p.1 == e.id)).map (fun p => p.2))) := by
  induction L with
  | nil =>
    intro acc
    simp [appendAnns]
  | cons p L ih =>
    intro acc
    rw [List.foldl_cons, ih, List.map_map]
    congr 1
    funext e
    by_cases h : (e.id == p.1) = true
    · have hb' : (p.1 == e.id) = true := by
        simp only [beq_iff_eq] at h ⊢
        exact h.symm
      simp only [Function.comp, if_pos h]
      rw [filter_cons_pos (fun q => q.1 == e.id) p L (by exact hb'), List.map_cons]
      show appendAnns { e with annotations := some ((e.annotations.getD []) ++ [p.2]) }
          ((L.filter (fun q => q.1 == e.id)).map (fun q => q.2))
        = appendAnns e (p.2 :: (L.filter (fun q => q.1 == e.id)).map (fun q => q.2))
      exact appendAnns_snoc e p.2 _
    · have hb' : (p.1 == e.id) = false := by
        rcases hx : (p.1 == e.id) with _ | _
        · rfl
        · exfalso
          apply h
          simp only [beq_iff_eq] at hx ⊢
          exact hx.symm
      simp only [Function.comp, if_neg h]
      rw [filter_cons_neg (fun q => q.1 == e.id) p L (by exact hb')]

theorem filter_map_get_anns (l : List AnnRow) (i : Int) :
    (((l.map (fun r => (r.entry_id, r.ann))).filter (fun p => p.1 == i)).map
        (fun p => p.2))
      = (l.filter (fun r => r.entry_id == i)).map (fun r => r.ann) := by
  induction l with
  | nil => rfl
  | cons r l ih =>
    rw [List.map_cons]
    by_cases h : (r.entry_id == i) = true
    · rw [filter_cons_pos (fun p => p.1 == i) (r.entry_id, r.ann) _ (by exact h),
        filter_cons_pos (fun r => r.entry_id == i) r l h,
        List.map_cons, List.map_cons, ih]
    · have h2 : (r.entry_id == i) = false := by
        rcases hx : (r.entry_id == i) with _ | _
        · rfl
        · exact absurd hx h
      rw [filter_cons_neg (fun p => p.1 == i) (r.entry_id, r.ann) _ (by exact h2),
        filter_cons_neg (fun r => r.entry_id == i) r l h2, ih]

/-- `Backend::export` fully characterized. -/
theorem export_data_eq (s : Store) :
    Backend.export_data s
      = (DB.get_all_entries s).map (fun e =>
          appendAnns e ((s.anns.filter (fun r => r.entry_id == e.id)).map
            (fun r => r.ann))) := by
  unfold Backend.export_data
  rw [export_fold]
  congr 1
  funext e
  congr 1
  unfold DB.get_anns
  exact filter_map_get_anns s.anns e.id

/-- C10: `export()` returns every stored entry (same ids, same order), with each
stored annotation attached to the entry whose id equals the annotation row's
`entry_id` (in row order); annotation rows whose `entry_id` matches no stored
entry are silently dropped — they appear on no exported entry and cause no
error. -/
theorem c10_export_attaches_anns (s : Store) :
    ((Backend.export_data s).map (fun e => e.id) = s.entries.map (fun e => e.id)) ∧
    (∀ e' ∈ Backend.export_data s,
      e'.annotations
        = attachOpt ((s.anns.filter (fun r => r.entry_id == e'.id)).map
            (fun r => r.ann))) := by
  constructor
  · rw [export_data_eq]
    unfold DB.get_all_entries
    rw [List.map_map, List.map_map]
    congr 1
    funext row
    show (appendAnns { row with content := some "", annotations := none } _).id = row.id
    rw [appendAnns_id]
  · intro e' he'
    rw [export_data_eq] at he'
    rcases List.mem_map.mp he' with ⟨e0, he0, rfl⟩
    have hid : (appendAnns e0 ((s.anns.filter (fun r => r.entry_id == e0.id)).map
        (fun r => r.ann))).id = e0.id := appendAnns_id _ _
    rw [hid]
    have hanns : e0.annotations = none := by
      unfold DB.get_all_entries at he0
      rcases List.mem_map.mp he0 with ⟨row, _, rfl⟩
      rfl
    rcases hl : (s.anns.filter (fun r => r.entry_id == e0.id)).map (fun r => r.ann) with
      _ | ⟨a, l⟩
    · rw [hl]
      exact hanns
    · rw [hl]
      show ({ e0 with annotations := some ((e0.annotations.getD []) ++ (a :: l)) }).annotations
        = attachOpt (a :: l)
      rw [hanns]
      rfl

/-! ## Phase-level frame lemmas (parametric in the preserved projection) -/

theorem sync_ann_pres {γ : Type} (c : Client) (a : Ann) (i : Int) (g : Store → γ)
    (h2 : ∀ s x j, g (DB.save_ann s x j) = g s) :
    Preserves (Backend.sync_ann c a i) g := by
  unfold Backend.sync_ann
  apply Preserves.bind (Preserves.read _ g)
  intro saved
  rcases saved with _ | sa
  · exact Preserves.lift _ g (fun s => h2 s a i)
  · dsimp only
    cases hc : Ts.cmp sa.updated_at a.updated_at with
    | lt => exact Preserves.lift _ g (fun s => h2 s a i)
    | eq => exact Preserves.pure () g
    | gt =>
      exact Preserves.bind (Preserves.call _ _ g)
        (fun u => Preserves.lift _ g (fun s => h2 s u i))

theorem pull_entry_pres {γ : Type} (c : Client) (e : Entry) (g : Store → γ)
    (h1 : ∀ s x, g (DB.save_entry s x) = g s)
    (h2 : ∀ s x j, g (DB.save_ann s x j) = g s)
    (h3 : ∀ s i, g (DB.drop_tag_links_for_entry s i) = g s)
    (h4 : ∀ s t, g (DB.save_tag s t) = g s)
    (h5 : ∀ s i t, g (DB.save_tag_link s i t) = g s) :
    Preserves (Backend.pull_entry c e) g := by
  unfold Backend.pull_entry
  apply Preserves.bind (Preserves.lift _ g (fun s => h1 s e))
  intro _
  apply Preserves.bind
    (Preserves.iterM (fun a => sync_ann_pres c a e.id g h2) _)
  intro _
  apply Preserves.bind (Preserves.lift _ g (fun s => h3 s e.id))
  intro _
  exact Preserves.iterM (fun t => Preserves.bind (Preserves.lift _ g (fun s => h4 s t))
    (fun _ => Preserves.lift _ g (fun s => h5 s e.id t))) _

theorem sync_remote_entry_pres {γ : Type} (c : Client) (re : Entry) (g : Store → γ)
    (h1 : ∀ s x, g (DB.save_entry s x) = g s)
    (h2 : ∀ s x j, g (DB.save_ann s x j) = g s)
    (h3 : ∀ s i, g (DB.drop_tag_links_for_entry s i) = g s)
    (h4 : ∀ s t, g (DB.save_tag s t) = g s)
    (h5 : ∀ s i t, g (DB.save_tag_link s i t) = g s) :
    Preserves (Backend.sync_remote_entry c re) g := by
  unfold Backend.sync_remote_entry
  apply Preserves.bind (Preserves.read _ g)
  intro saved
  rcases saved with _ | se
  · exact pull_entry_pres c re g h1 h2 h3 h4 h5
  · dsimp only
    cases hc : Ts.cmp se.updated_at re.updated_at with
    | lt => exact pull_entry_pres c re g h1 h2 h3 h4 h5
    | eq => exact Preserves.iterM (fun a => sync_ann_pres c a re.id g h2) _
    | gt =>
      exact Preserves.bind (Preserves.call _ _ g)
        (fun u => pull_entry_pres c u g h1 h2 h3 h4 h5)

theorem sync_local_deletes_pres {γ : Type} (c : Client) (g : Store → γ)
    (hda : ∀ s i, g (DB.remove_delete_ann s i) = g s)
    (hde : ∀ s i, g (DB.remove_delete_entry s i) = g s) :
    Preserves (Backend.sync_local_deletes c) g := by
  unfold Backend.sync_local_deletes
  apply Preserves.bind (Preserves.read _ g)
  intro annIds
  apply Preserves.bind (Preserves.iterM (fun i => Preserves.bind (Preserves.call _ _ g)
    (fun _ => Preserves.lift _ g (fun s => hda s i))) annIds)
  intro _
  apply Preserves.bind (Preserves.read _ g)
  intro entryIds
  exact Preserves.iterM (fun i => Preserves.bind (Preserves.call _ _ g)
    (fun _ => Preserves.lift _ g (fun s => hde s i))) entryIds

theorem sync_new_urls_pres {γ : Type} (c : Client) (g : Store → γ)
    (h1 : ∀ s x, g (DB.save_entry s x) = g s)
    (h2 : ∀ s x j, g (DB.save_ann s x j) = g s)
    (h3 : ∀ s i, g (DB.drop_tag_links_for_entry s i) = g s)
    (h4 : ∀ s t, g (DB.save_tag s t) = g s)
    (h5 : ∀ s i t, g (DB.save_tag_link s i t) = g s)
    (hnu : ∀ s i, g (DB.remove_new_url s i) = g s) :
    Preserves (Backend.sync_new_urls c) g := by
  unfold Backend.sync_new_urls
  apply Preserves.bind (Preserves.read _ g)
  intro urls
  exact Preserves.iterM (fun u => Preserves.bind (Preserves.call _ _ g)
    (fun entry => Preserves.bind (pull_entry_pres c entry g h1 h2 h3 h4 h5)
      (fun _ => Preserves.lift _ g (fun s => hnu s u.id)))) urls

theorem sync_new_anns_pres {γ : Type} (c : Client) (g : Store → γ)
    (h2 : ∀ s x j, g (DB.save_ann s x j) = g s)
    (hna : ∀ s i, g (DB.remove_new_ann s i) = g s) :
    Preserves (Backend.sync_new_anns c) g := by
  unfold Backend.sync_new_anns
  apply Preserves.bind (Preserves.read _ g)
  intro rows
  exact Preserves.iterM (fun r => Preserves.bind (Preserves.call _ _ g)
    (fun a => Preserves.bind (Preserves.lift _ g (fun s => h2 s a r.entry_id))
      (fun _ => Preserves.lift _ g (fun s => hna s r.id)))) rows

/-! ## C2 — the `last_sync` watermark -/

theorem setsW_bind {α : Type} {now : Ts} (m : SyncM α) (f : α → SyncM Unit)
    (hm : Preserves m (fun st => st.last_sync)) (hf : ∀ a, SetsWatermark now (f a)) :
    SetsWatermark now (SyncM.bind m f) := by
  intro s
  rcases hms : m s with ⟨s', tr, r⟩
  have hls : s'.last_sync = s.last_sync := by
    have := hm s; rw [hms] at this; exact this
  cases r with
  | error e =>
    rw [SyncM.bind_err f hms]
    exact ⟨(fun h => nomatch h), (fun e' _ => hls)⟩
  | ok a =>
    rw [SyncM.bind_ok f hms]
    refine ⟨fun h => (hf a s').1 h, fun e h => ?_⟩
    rw [(hf a s').2 e h, hls]

theorem setsW_touch (now : Ts) :
    SetsWatermark now (SyncM.lift (fun s => DB.touch_last_sync s now)) := by
  intro s
  exact ⟨(fun _ => rfl), (fun e h => nomatch h)⟩

theorem sync_sets_watermark (c : Client) (now : Ts) :
    SetsWatermark now (Backend.sync c now) := by
  unfold Backend.sync
  refine setsW_bind _ _
    (sync_local_deletes_pres c lastProj (fun _ _ => rfl) (fun _ _ => rfl)) (fun _ => ?_)
  refine setsW_bind _ _ (Preserves.read _ lastProj) (fun since => ?_)
  refine setsW_bind _ _ (Preserves.call _ _ lastProj) (fun entries => ?_)
  refine setsW_bind _ _ (Preserves.iterM (fun re => sync_remote_entry_pres c re lastProj
    (fun _ _ => rfl) (fun _ _ _ => rfl) (fun _ _ => rfl) (fun _ _ => rfl)
    (fun _ _ _ => rfl)) entries) (fun _ => ?_)
  refine setsW_bind _ _ (Preserves.read _ lastProj) (fun localEntries => ?_)
  refine setsW_bind _ _ (Preserves.iterM (fun e => ?_) localEntries) (fun _ => ?_)
  · by_cases hc : ((Backend.seenEntryIds entries).contains e.id) = true
    · rw [if_pos hc]; exact Preserves.pure () lastProj
    · rw [if_neg hc]
      exact Preserves.bind (Preserves.call _ _ lastProj) (fun _ => Preserves.pure () lastProj)
  refine setsW_bind _ _ (Preserves.read _ lastProj) (fun localAnns => ?_)
  refine setsW_bind _ _ (Preserves.iterM (fun a => ?_) localAnns) (fun _ => ?_)
  · by_cases hc : ((Backend.seenAnnIds entries).contains a.id) = true
    · rw [if_pos hc]; exact Preserves.pure () lastProj
    · rw [if_neg hc]
      exact Preserves.bind (Preserves.call _ _ lastProj) (fun _ => Preserves.pure () lastProj)
  refine setsW_bind _ _ (sync_new_urls_pres c lastProj (fun _ _ => rfl) (fun _ _ _ => rfl)
    (fun _ _ => rfl) (fun _ _ => rfl) (fun _ _ _ => rfl) (fun _ _ => rfl)) (fun _ => ?_)
  refine setsW_bind _ _
    (sync_new_anns_pres c lastProj (fun _ _ _ => rfl) (fun _ _ => rfl)) (fun _ => ?_)
  refine setsW_bind _ _ (Preserves.lift _ lastProj (fun _ => rfl)) (fun _ => ?_)
  exact setsW_touch now

theorem full_sync_sets_watermark (c : Client) (now : Ts) :
    SetsWatermark now (Backend.full_sync c now) := by
  unfold Backend.full_sync
  refine setsW_bind _ _
    (sync_local_deletes_pres c lastProj (fun _ _ => rfl) (fun _ _ => rfl)) (fun _ => ?_)
  refine setsW_bind _ _ (Preserves.call _ _ lastProj) (fun server_entries => ?_)
  refine setsW_bind _ _ (Preserves.iterM (fun re => sync_remote_entry_pres c re lastProj
    (fun _ _ => rfl) (fun _ _ _ => rfl) (fun _ _ => rfl) (fun _ _ => rfl)
    (fun _ _ _ => rfl)) server_entries) (fun _ => ?_)
  refine setsW_bind _ _ (Preserves.read _ lastProj) (fun local_entries => ?_)
  refine setsW_bind _ _
    (Preserves.iterM (fun i => Preserves.lift (fun s => DB.delete_entry s i) lastProj
      (fun _ => rfl)) _) (fun _ => ?_)
  refine setsW_bind _ _ (Preserves.read _ lastProj) (fun local_anns => ?_)
  refine setsW_bind _ _
    (Preserves.iterM (fun i => Preserves.lift (fun s => DB.delete_ann s i) lastProj
      (fun _ => rfl)) _) (fun _ => ?_)
  refine setsW_bind _ _ (sync_new_urls_pres c lastProj (fun _ _ => rfl) (fun _ _ _ => rfl)
    (fun _ _ => rfl) (fun _ _ => rfl) (fun _ _ _ => rfl) (fun _ _ => rfl)) (fun _ => ?_)
  refine setsW_bind _ _
    (sync_new_anns_pres c lastProj (fun _ _ _ => rfl) (fun _ _ => rfl)) (fun _ => ?_)
  refine setsW_bind _ _ (Preserves.lift _ lastProj (fun _ => rfl)) (fun _ => ?_)
  exact setsW_touch now

theorem runStep_mono (b : Bool) (c : Client) (now : Ts) (s : Store)
    (h : Ts.le s.last_sync now = true) :
    Ts.le s.last_sync (runStep (b, c, now) s).last_sync = true := by
  cases b with
  | true =>
    show Ts.le s.last_sync ((Backend.sync c now s).store).last_sync = true
    rcases hr : (Backend.sync c now s).result with e | u
    · rw [(sync_sets_watermark c now s).2 e hr]
      exact Ts.le_refl _
    · cases u
      rw [(sync_sets_watermark c now s).1 hr]
      exact h
  | false =>
    show Ts.le s.last_sync ((Backend.full_sync c now s).store).last_sync = true
    rcases hr : (Backend.full_sync c now s).result with e | u
    · rw [(full_sync_sets_watermark c now s).2 e hr]
      exact Ts.le_refl _
    · cases u
      rw [(full_sync_sets_watermark c now s).1 hr]
      exact h

theorem runSeq_mono : ∀ (steps : List (Bool × Client × Ts)) (s : Store),
    WellClocked s steps → Ts.le s.last_sync (runSeq steps s).last_sync = true := by
  intro steps
  induction steps with
  | nil => intro s _; exact Ts.le_refl _
  | cons st rest ih =>
    intro s h
    rcases h with ⟨h1, h2⟩
    rcases st with ⟨b, c, now⟩
    unfold runSeq
    rw [List.foldl_cons]
    exact Ts.le_trans (runStep_mono b c now s h1) (ih (runStep (b, c, now) s) h2)

/-- C2: the watermark is written only as the final step: a run of `sync` or
`full_sync` that fails anywhere before that final step leaves `get_last_sync`
unchanged, a successful run sets it to the run's wall-clock `now`, and across any
well-clocked sequence of `sync`/`full_sync` calls the watermark is
non-decreasing. -/
theorem c2_watermark_final_and_monotone (c : Client) (now : Ts) (s : Store) :
    ((Backend.sync c now s).result = .ok () →
      DB.get_last_sync ((Backend.sync c now s).store) = now) ∧
    (∀ e, (Backend.sync c now s).result = .error e →
      DB.get_last_sync ((Backend.sync c now s).store) = DB.get_last_sync s) ∧
    ((Backend.full_sync c now s).result = .ok () →
      DB.get_last_sync ((Backend.full_sync c now s).store) = now) ∧
    (∀ e, (Backend.full_sync c now s).result = .error e →
      DB.get_last_sync ((Backend.full_sync c now s).store) = DB.get_last_sync s) ∧
    (∀ steps s₀, WellClocked s₀ steps →
      Ts.le (DB.get_last_sync s₀) (DB.get_last_sync (runSeq steps s₀)) = true) :=
  ⟨(sync_sets_watermark c now s).1, (sync_sets_watermark c now s).2,
    (full_sync_sets_watermark c now s).1, (full_sync_sets_watermark c now s).2,
    fun steps s₀ h => runSeq_mono steps s₀ h⟩

theorem c2_watermark_final_and_monotone_witness :
    DB.get_last_sync ((Backend.sync okClient ts1 emptyStore).store) = ts1 ∧
    DB.get_last_sync ((Backend.sync failClient ts1 sDel).store) = DB.get_last_sync sDel ∧
    DB.get_last_sync ((Backend.full_sync okClient ts1 emptyStore).store) = ts1 ∧
    DB.get_last_sync ((Backend.full_sync failClient ts1 sDel).store)
      = DB.get_last_sync sDel ∧
    Ts.le (DB.get_last_sync emptyStore)
      (DB.get_last_sync (runSeq [(true, okClient, ts1)] emptyStore)) = true :=
  ⟨(c2_watermark_final_and_monotone okClient ts1 emptyStore).1 (by rfl),
    (c2_watermark_final_and_monotone failClient ts1 sDel).2.1
      (RemoteCall.deleteAnn 5) (by rfl),
    (c2_watermark_final_and_monotone okClient ts1 emptyStore).2.2.1 (by rfl),
    (c2_watermark_final_and_monotone failClient ts1 sDel).2.2.2.1
      (RemoteCall.deleteAnn 5) (by rfl),
    (c2_watermark_final_and_monotone okClient ts1 emptyStore).2.2.2.2
      [(true, okClient, ts1)] emptyStore ⟨by decide, trivial⟩⟩

theorem c10_export_attaches_anns_witness :
    (Backend.export_data exStore).map (fun e => e.id)
        = exStore.entries.map (fun e => e.id) ∧
      ∃ e', e' ∈ Backend.export_data exStore ∧
        e'.annotations
          = attachOpt ((exStore.anns.filter (fun r => r.entry_id == e'.id)).map
              (fun r => r.ann)) := by
  refine ⟨(c10_export_attaches_anns exStore).1, ?_⟩
  refine ⟨{ mkEntry 1 ts1 with content := some "", annotations := some [mkAnn 7 ts1] },
    by decide, ?_⟩
  exact (c10_export_attaches_anns exStore).2 _ (by decide)

/-! ## C1 — the per-entity three-way conflict decision -/

theorem Ts.lt_iff {a b : Ts} : Ts.lt a b = true ↔ Ts.cmp a b = .lt := by
  unfold Ts.lt
  rcases h : Ts.cmp a b <;> simp

theorem find?_append_last {α : Type} (p : α → Bool) (l : List α) (x : α)
    (hl : ∀ y ∈ l, p y = false) (hx : p x = true) :
    (l ++ [x]).find? p = some x := by
  induction l with
  | nil => simp [List.find?, hx]
  | cons y ys ih =>
    rw [List.cons_append]
    have hy := hl y (by simp)
    rw [List.find?_cons_of_neg _ (by rw [hy]; simp)]
    exact ih (fun z hz => hl z (by simp [hz]))

theorem get_entry_eq_of_entries {s1 s2 : Store} (h : s1.entries = s2.entries) (i : Int) :
    DB.get_entry s1 i = DB.get_entry s2 i := by
  unfold DB.get_entry; rw [h]

theorem get_ann_eq_of_anns {s1 s2 : Store} (h : s1.anns = s2.anns) (i : Int) :
    DB.get_ann s1 i = DB.get_ann s2 i := by
  unfold DB.get_ann; rw [h]

theorem get_entry_save_entry (s : Store) (e : Entry) :
    DB.get_entry (DB.save_entry s e) e.id = some { e with annotations := none } := by
  unfold DB.get_entry DB.save_entry
  rw [find?_append_last _ _ _ ?hl (by simp)]
  · rfl
  case hl =>
    intro y hy
    have := (List.mem_filter.mp hy).2
    rw [Bool.not_eq_true'] at this
    exact this

theorem get_ann_save_ann (s : Store) (x : Ann) (j : Int) :
    DB.get_ann (DB.save_ann s x j) x.id = some x := by
  unfold DB.get_ann DB.save_ann
  rw [find?_append_last _ _ _ ?hl (by simp)]
  · rfl
  case hl =>
    intro y hy
    have := (List.mem_filter.mp hy).2
    rw [Bool.not_eq_true'] at this
    exact this

theorem pull_entry_entries_eq (c : Client) (e : Entry) (s : Store) :
    ((Backend.pull_entry c e) s).store.entries = (DB.save_entry s e).entries := by
  unfold Backend.pull_entry
  rw [SyncM.bind_ok _ (SyncM.lift_run (fun s => DB.save_entry s e) s)]
  exact Preserves.bind
    (Preserves.iterM
      (fun a => sync_ann_pres c a e.id (fun st => st.entries) (fun _ _ _ => rfl)) _)
    (fun _ => Preserves.bind
      (Preserves.lift (fun s => DB.drop_tag_links_for_entry s e.id)
        (fun st => st.entries) (fun _ => rfl))
      (fun _ => Preserves.iterM
        (fun t => Preserves.bind
          (Preserves.lift (fun s => DB.save_tag s t) (fun st => st.entries)
            (fun _ => rfl))
          (fun _ => Preserves.lift (fun s => DB.save_tag_link s e.id t)
            (fun st => st.entries) (fun _ => rfl))) _))
    (DB.save_entry s e)

/-- After a pull, the entry row holds exactly the remote version. -/
theorem pull_entry_get (c : Client) (e : Entry) (s : Store) :
    DB.get_entry ((Backend.pull_entry c e) s).store e.id
      = some { e with annotations := none } := by
  rw [get_entry_eq_of_entries (pull_entry_entries_eq c e s)]
  exact get_entry_save_entry s e

/-- `Backend::sync_annotation`, fully characterized: the three-way decision. -/
theorem sync_ann_spec (c : Client) (a : Ann) (j : Int) (s : Store) :
    (DB.get_ann s a.id = none →
      Backend.sync_ann c a j s = ⟨DB.save_ann s a j, [], .ok ()⟩) ∧
    (∀ sa, DB.get_ann s a.id = some sa →
      (Ts.cmp sa.updated_at a.updated_at = .lt →
        Backend.sync_ann c a j s = ⟨DB.save_ann s a j, [], .ok ()⟩) ∧
      (Ts.cmp sa.updated_at a.updated_at = .eq →
        Backend.sync_ann c a j s = ⟨s, [], .ok ()⟩) ∧
      (Ts.cmp sa.updated_at a.updated_at = .gt →
        (∀ resp, c.updateAnn sa = some resp →
          Backend.sync_ann c a j s
            = ⟨DB.save_ann s resp j, [RemoteCall.updateAnn sa], .ok ()⟩) ∧
        (c.updateAnn sa = none →
          Backend.sync_ann c a j s
            = ⟨s, [RemoteCall.updateAnn sa], .error (RemoteCall.updateAnn sa)⟩))) := by
  unfold Backend.sync_ann
  rw [SyncM.bind_ok _ (SyncM.read_run (fun s => DB.get_ann s a.id) s)]
  constructor
  · intro h
    rw [h]
    rfl
  · intro sa h
    rw [h]
    refine ⟨fun hc => ?_, fun hc => ?_, fun hc => ⟨fun resp hr => ?_, fun hr => ?_⟩⟩
    · dsimp only
      rw [hc]
      rfl
    · dsimp only
      rw [hc]
      rfl
    · dsimp only
      rw [hc]
      dsimp only
      rw [SyncM.bind_ok _ (SyncM.call_some (RemoteCall.updateAnn sa) hr s)]
      rfl
    · dsimp only
      rw [hc]
      dsimp only
      rw [SyncM.bind_err _ (SyncM.call_none (RemoteCall.updateAnn sa) hr s)]
      rfl

/-- C1: the three-way `updated_at` decision of the pull loop shared verbatim by
`sync` and `full_sync` — no local copy or a strictly older one: the remote
version is written into the store; equal timestamps: the entry row is untouched
and the run reduces to reconciling each embedded annotation with
`sync_annotation`; strictly newer local copy: the local version is pushed via
`update_entry` and the server's response is written back — together with the
same three-way decision per annotation inside `sync_annotation`. -/
theorem c1_three_way_resolution (c : Client) (re : Entry) (a : Ann) (j : Int) (s : Store) :
    ((DB.get_entry s re.id = none →
      DB.get_entry ((Backend.sync_remote_entry c re) s).store re.id
        = some { re with annotations := none }) ∧
    (∀ le, DB.get_entry s re.id = some le →
      (Ts.cmp le.updated_at re.updated_at = .lt →
        DB.get_entry ((Backend.sync_remote_entry c re) s).store re.id
          = some { re with annotations := none }) ∧
      (Ts.cmp le.updated_at re.updated_at = .eq →
        Backend.sync_remote_entry c re s
          = iterM (fun x => Backend.sync_ann c x re.id) (re.annotations.getD []) s ∧
        ((Backend.sync_remote_entry c re) s).store.entries = s.entries) ∧
      (Ts.cmp le.updated_at re.updated_at = .gt →
        ((Backend.sync_remote_entry c re) s).trace.head?
            = some (RemoteCall.updateEntry le.id (PatchEntry.ofEntry le)) ∧
        (∀ resp, c.updateEntry le.id (PatchEntry.ofEntry le) = some resp →
          DB.get_entry ((Backend.sync_remote_entry c re) s).store resp.id
            = some { resp with annotations := none }) ∧
        (c.updateEntry le.id (PatchEntry.ofEntry le) = none →
          (Backend.sync_remote_entry c re) s
            = ⟨s, [RemoteCall.updateEntry le.id (PatchEntry.ofEntry le)],
                .error (RemoteCall.updateEntry le.id (PatchEntry.ofEntry le))⟩)))) ∧
    ((DB.get_ann s a.id = none →
      Backend.sync_ann c a j s = ⟨DB.save_ann s a j, [], .ok ()⟩) ∧
    (∀ sa, DB.get_ann s a.id = some sa →
      (Ts.cmp sa.updated_at a.updated_at = .lt →
        Backend.sync_ann c a j s = ⟨DB.save_ann s a j, [], .ok ()⟩) ∧
      (Ts.cmp sa.updated_at a.updated_at = .eq →
        Backend.sync_ann c a j s = ⟨s, [], .ok ()⟩) ∧
      (Ts.cmp sa.updated_at a.updated_at = .gt →
        (∀ resp, c.updateAnn sa = some resp →
          Backend.sync_ann c a j s
            = ⟨DB.save_ann s resp j, [RemoteCall.updateAnn sa], .ok ()⟩) ∧
        (c.updateAnn sa = none →
          Backend.sync_ann c a j s
            = ⟨s, [RemoteCall.updateAnn sa], .error (RemoteCall.updateAnn sa)⟩)))) := by
  refine ⟨?_, sync_ann_spec c a j s⟩
  unfold Backend.sync_remote_entry
  rw [SyncM.bind_ok _ (SyncM.read_run (fun s => DB.get_entry s re.id) s)]
  constructor
  · intro h
    rw [h]
    exact pull_entry_get c re s
  · intro le h
    rw [h]
    refine ⟨fun hc => ?_, fun hc => ⟨?_, ?_⟩, fun hc => ⟨?_, fun resp hr => ?_, fun hr => ?_⟩⟩
    · dsimp only
      rw [hc]
      exact pull_entry_get c re s
    · dsimp only
      rw [hc]
      rfl
    · dsimp only
      rw [hc]
      exact Preserves.iterM
        (fun x => sync_ann_pres c x re.id (fun st => st.entries) (fun _ _ _ => rfl)) _ s
    · dsimp only
      rw [hc]
      dsimp only
      rcases ho : c.updateEntry le.id (PatchEntry.ofEntry le) with _ | resp
      · rfl
      · rfl
    · dsimp only
      rw [hc]
      dsimp only
      rw [SyncM.bind_ok _ (SyncM.call_some
        (RemoteCall.updateEntry le.id (PatchEntry.ofEntry le)) hr s)]
      exact pull_entry_get c resp s
    · dsimp only
      rw [hc]
      dsimp only
      rw [SyncM.bind_err _ (SyncM.call_none
        (RemoteCall.updateEntry le.id (PatchEntry.ofEntry le)) hr s)]
      rfl
theorem c1_three_way_resolution_witness :
    DB.get_entry ((Backend.sync_remote_entry okClient (mkEntry 5 ts1)) exStore).store 5
        = some { mkEntry 5 ts1 with annotations := none } ∧
    DB.get_entry ((Backend.sync_remote_entry okClient (mkEntry 1 ts2)) exStore).store 1
        = some { mkEntry 1 ts2 with annotations := none } ∧
    ((Backend.sync_remote_entry okClient (mkEntry 1 ts1)) exStore).store.entries
        = exStore.entries ∧
    ((Backend.sync_remote_entry pushClient (mkEntry 1 ts0)) exStore).trace.head?
        = some (RemoteCall.updateEntry 1 (PatchEntry.ofEntry
            { mkEntry 1 ts1 with content := some "body", annotations := none })) ∧
    Backend.sync_ann okClient (mkAnn 9 ts1) 1 exStore
        = ⟨DB.save_ann exStore (mkAnn 9 ts1) 1, [], .ok ()⟩ ∧
    Backend.sync_ann okClient (mkAnn 7 ts1) 1 exStore = ⟨exStore, [], .ok ()⟩ ∧
    Backend.sync_ann pushClient (mkAnn 7 ts0) 1 exStore
        = ⟨DB.save_ann exStore (mkAnn 7 ts1) 1, [RemoteCall.updateAnn (mkAnn 7 ts1)], .ok ()⟩ :=
  ⟨(c1_three_way_resolution okClient (mkEntry 5 ts1) (mkAnn 9 ts1) 1 exStore).1.1 (by rfl),
    ((c1_three_way_resolution okClient (mkEntry 1 ts2) (mkAnn 9 ts1) 1 exStore).1.2
      _ (by rfl)).1 (by rfl),
    (((c1_three_way_resolution okClient (mkEntry 1 ts1) (mkAnn 9 ts1) 1 exStore).1.2
      _ (by rfl)).2.1 (by rfl)).2,
    (((c1_three_way_resolution pushClient (mkEntry 1 ts0) (mkAnn 9 ts1) 1 exStore).1.2
      _ (by rfl)).2.2 (by rfl)).1,
    (c1_three_way_resolution okClient (mkEntry 5 ts1) (mkAnn 9 ts1) 1 exStore).2.1 (by rfl),
    (((c1_three_way_resolution okClient (mkEntry 5 ts1) (mkAnn 7 ts1) 1 exStore).2.2
      _ (by rfl)).2.1 (by rfl)),
    ((((c1_three_way_resolution pushClient (mkEntry 5 ts1) (mkAnn 7 ts0) 1 exStore).2.2
      _ (by rfl)).2.2 (by rfl)).1 _ (by rfl))⟩

/-! ## C6 — tag-link consistency: `save_entry` versus `pull_entry` -/

theorem mem_upsert_pair (x v : Int × Int) (l : List (Int × Int)) :
    x ∈ l.filter (fun y => !(y == v)) ++ [v] ↔ x ∈ l ∨ x = v := by
  simp only [List.mem_append, List.mem_filter, List.mem_singleton]
  constructor
  · rintro (⟨h1, _⟩ | h2)
    · exact Or.inl h1
    · exact Or.inr h2
  · rintro (h1 | h2)
    · by_cases hv : x = v
      · exact Or.inr hv
      · refine Or.inl ⟨h1, ?_⟩
        simp only [Bool.not_eq_true', beq_eq_false_iff_ne, ne_eq]
        exact hv
    · exact Or.inr h2

/-- The tag-rebuild loop of `pull_entry`: afterwards, a link `(i, t)` exists iff
it existed before or `t` is one of the entry's tag ids. -/
theorem tag_loop_links (i : Int) : ∀ (tags : List Tag) (st : Store) (t : Int),
    ((i, t) ∈ ((iterM (fun tag =>
        SyncM.bind (SyncM.lift (fun s => DB.save_tag s tag))
          (fun _ => SyncM.lift (fun s => DB.save_tag_link s i tag))) tags) st).store.taglinks)
      ↔ ((i, t) ∈ st.taglinks ∨ t ∈ tags.map (fun tg => tg.id)) := by
  intro tags
  induction tags with
  | nil =>
    intro st t
    rw [iterM]
    simp [SyncM.pure]
  | cons tg tags ih =>
    intro st t
    rw [iterM]
    have hbody : (SyncM.bind (SyncM.lift (fun s => DB.save_tag s tg))
        (fun _ => SyncM.lift (fun s => DB.save_tag_link s i tg))) st
        = ⟨DB.save_tag_link (DB.save_tag st tg) i tg, [], .ok ()⟩ := rfl
    rw [SyncM.bind_ok _ hbody]
    show ((i, t) ∈ ((iterM _ tags) (DB.save_tag_link (DB.save_tag st tg) i tg)).store.taglinks) ↔ _
    rw [ih (DB.save_tag_link (DB.save_tag st tg) i tg) t]
    have hlinks : (DB.save_tag_link (DB.save_tag st tg) i tg).taglinks
        = st.taglinks.filter (fun y => !(y == (i, tg.id))) ++ [(i, tg.id)] := rfl
    rw [hlinks, List.map_cons]
    constructor
    · rintro (h1 | h2)
      · rcases (mem_upsert_pair _ _ _).mp h1 with h3 | h3
        · exact Or.inl h3
        · refine Or.inr ?_
          rw [List.mem_cons]
          exact Or.inl (congrArg Prod.snd h3)
      · refine Or.inr ?_
        rw [List.mem_cons]
        exact Or.inr h2
    · rintro (h1 | h2)
      · exact Or.inl ((mem_upsert_pair _ _ _).mpr (Or.inl h1))
      · rw [List.mem_cons] at h2
        rcases h2 with h3 | h3
        · exact Or.inl ((mem_upsert_pair _ _ _).mpr (Or.inr (by rw [h3])))
        · exact Or.inr h3

theorem drop_links_no_mem (s : Store) (i t : Int) :
    ¬ ((i, t) ∈ (DB.drop_tag_links_for_entry s i).taglinks) := by
  intro h
  unfold DB.drop_tag_links_for_entry at h
  have := (List.mem_filter.mp h).2
  simp at this

/-- After a successful `pull_entry`, the normalized tag links of the entry are
exactly the ids of its denormalized tag list. -/
theorem pull_entry_links (c : Client) (e : Entry) (s : Store)
    (h : ((Backend.pull_entry c e) s).result = .ok ()) :
    ∀ t : Int, ((e.id, t) ∈ ((Backend.pull_entry c e) s).store.taglinks)
      ↔ t ∈ e.tags.map (fun tg => tg.id) := by
  intro t
  unfold Backend.pull_entry at h ⊢
  rw [SyncM.bind_ok _ (SyncM.lift_run (fun s => DB.save_entry s e) s)] at h ⊢
  obtain ⟨u, h1, h2, hstore, _⟩ := SyncM.bind_ok_inv (show (SyncM.bind _ _ (DB.save_entry s e)).result = .ok () from h)
  show (e.id, t) ∈ (SyncM.bind _ _ (DB.save_entry s e)).store.taglinks ↔ _
  rw [hstore]
  rcases u
  rw [SyncM.bind_ok _ (SyncM.lift_run (fun s => DB.drop_tag_links_for_entry s e.id) _)]
  show (e.id, t) ∈ ((iterM _ e.tags) (DB.drop_tag_links_for_entry _ e.id)).store.taglinks ↔ _
  rw [tag_loop_links e.id e.tags _ t]
  constructor
  · rintro (h3 | h3)
    · exact absurd h3 (drop_links_no_mem _ e.id t)
    · exact h3
  · intro h3
    exact Or.inr h3

/-- C6 as stated is refuted: `save_entry` itself rewrites only the entry row
(with its denormalized tag blob); the normalized link rows are left stale. -/
theorem c6_counterexample :
    (DB.save_entry s6 e6).taglinks = [(1, 7)] ∧
    DB.get_entry (DB.save_entry s6 e6) 1 = some { e6 with annotations := none } ∧
    ¬ (∀ t : Int, ((1, t) ∈ (DB.save_entry s6 e6).taglinks)
        ↔ t ∈ e6.tags.map (fun tg => tg.id)) := by
  refine ⟨rfl, by decide, fun h => ?_⟩
  exact absurd ((h 7).mp (by decide)) (by decide)

/-- C6 (amended): after every call to `Backend::pull_entry(entry)` that returns
success — the function that both saves the entry row (rewriting the denormalized
tag blob) and drops-and-rebuilds the normalized tag/link rows — the link rows
for `entry.id` agree exactly with the entry's denormalized tag list; a bare
`DB::save_entry` gives no such guarantee (see the counterexample). -/
theorem c6_tag_consistency_after_pull (c : Client) (e : Entry) (s : Store)
    (h : ((Backend.pull_entry c e) s).result = .ok ()) :
    (∀ t : Int, ((e.id, t) ∈ ((Backend.pull_entry c e) s).store.taglinks)
        ↔ t ∈ e.tags.map (fun tg => tg.id)) ∧
    DB.get_entry ((Backend.pull_entry c e) s).store e.id
      = some { e with annotations := none } :=
  ⟨pull_entry_links c e s h, pull_entry_get c e s⟩

theorem c6_tag_consistency_after_pull_witness :
    (∀ t : Int, ((1, t) ∈ ((Backend.pull_entry okClient e6) s6).store.taglinks)
        ↔ t ∈ e6.tags.map (fun tg => tg.id)) ∧
    DB.get_entry ((Backend.pull_entry okClient e6) s6).store 1
      = some { e6 with annotations := none } :=
  c6_tag_consistency_after_pull okClient e6 s6 (by rfl)

/-! ## Frame lemmas keyed by entity id -/

theorem get_entry_id {s : Store} {i : Int} {le : Entry} (h : DB.get_entry s i = some le) :
    le.id = i := by
  unfold DB.get_entry at h
  rcases hf : s.entries.find? (fun e => e.id == i) with _ | r
  · rw [hf] at h; simp at h
  · rw [hf] at h
    simp only [Option.map_some', Option.some.injEq] at h
    have hid := List.find?_some hf
    simp only [beq_iff_eq] at hid
    rw [← h]
    exact hid

theorem get_ann_id {s : Store} {i : Int} {sa : Ann} (h : DB.get_ann s i = some sa) :
    sa.id = i := by
  unfold DB.get_ann at h
  rcases hf : s.anns.find? (fun r => r.ann.id == i) with _ | r
  · rw [hf] at h; simp at h
  · rw [hf] at h
    simp only [Option.map_some', Option.some.injEq] at h
    have hid := List.find?_some hf
    simp only [beq_iff_eq] at hid
    rw [← h]
    exact hid

theorem find?_filter {α : Type} (p q : α → Bool) (l : List α)
    (h : ∀ y, p y = true → q y = true) : (l.filter q).find? p = l.find? p := by
  induction l with
  | nil => rfl
  | cons y ys ih =>
    rcases hp : p y with _ | _
    · rcases hq : q y with _ | _
      · rw [filter_cons_neg q y ys hq, ih, List.find?_cons_of_neg _ (by rw [hp]; simp)]
      · rw [filter_cons_pos q y ys hq, List.find?_cons_of_neg _ (by rw [hp]; simp),
          List.find?_cons_of_neg _ (by rw [hp]; simp), ih]
    · rw [h y hp |> filter_cons_pos q y ys, List.find?_cons_of_pos _ (by rw [hp]),
        List.find?_cons_of_pos _ (by rw [hp])]

theorem find?_append_none {α : Type} (p : α → Bool) (l : List α) (x : α)
    (hx : p x = false) : (l ++ [x]).find? p = l.find? p := by
  induction l with
  | nil => simp [List.find?, hx]
  | cons y ys ih =>
    rw [List.cons_append]
    rcases hp : p y with _ | _
    · rw [List.find?_cons_of_neg _ (by rw [hp]; simp),
        List.find?_cons_of_neg _ (by rw [hp]; simp), ih]
    · rw [List.find?_cons_of_pos _ (by rw [hp]), List.find?_cons_of_pos _ (by rw [hp])]

/-- `INSERT OR REPLACE` of one entry leaves lookups of other ids unchanged. -/
theorem get_entry_save_entry_other (s : Store) (w : Entry) (i : Int) (hne : w.id ≠ i) :
    DB.get_entry (DB.save_entry s w) i = DB.get_entry s i := by
  unfold DB.get_entry DB.save_entry
  rw [find?_append_none _ _ _ (by simp; exact hne), find?_filter]
  intro y hy
  simp only [beq_iff_eq] at hy
  simp only [Bool.not_eq_true', beq_eq_false_iff_ne, ne_eq]
  rw [hy]
  exact fun hc => hne hc.symm

theorem get_ann_save_ann_other (s : Store) (x : Ann) (j i : Int) (hne : x.id ≠ i) :
    DB.get_ann (DB.save_ann s x j) i = DB.get_ann s i := by
  unfold DB.get_ann DB.save_ann
  rw [find?_append_none _ _ _ (by simp; exact hne), find?_filter]
  intro y hy
  simp only [beq_iff_eq] at hy
  simp only [Bool.not_eq_true', beq_eq_false_iff_ne, ne_eq]
  rw [hy]
  exact fun hc => hne hc.symm

theorem SyncM.bind_assoc {α β γ : Type} (m : SyncM α) (f : α → SyncM β) (g : β → SyncM γ)
    (s : Store) :
    SyncM.bind (SyncM.bind m f) g s = SyncM.bind m (fun a => SyncM.bind (f a) g) s := by
  rcases hm : m s with ⟨s1, tr1, r1⟩
  cases r1 with
  | error e =>
    rw [SyncM.bind_err g (SyncM.bind_err f hm),
      SyncM.bind_err (fun x => SyncM.bind (f x) g) hm]
  | ok a =>
    rcases hf : f a s1 with ⟨s2, tr2, r2⟩
    have hin : SyncM.bind m f s = ⟨s2, tr1 ++ tr2, r2⟩ := by
      rw [SyncM.bind_ok f hm, hf]
    rw [SyncM.bind_ok (fun x => SyncM.bind (f x) g) hm]
    cases r2 with
    | error e2 =>
      rw [SyncM.bind_err g hin, SyncM.bind_err g hf]
    | ok b =>
      rw [SyncM.bind_ok g hin, SyncM.bind_ok g hf]
      simp [List.append_assoc]

/-- `sync_annotation` only ever writes the annotation id it was given (assuming
the remote echoes ids back on update). -/
theorem sync_ann_get_ann_other (c : Client) (a : Ann) (j i : Int) (s : Store)
    (hrespA : ∀ x r, c.updateAnn x = some r → r.id = x.id) (hne : a.id ≠ i) :
    DB.get_ann ((Backend.sync_ann c a j) s).store i = DB.get_ann s i := by
  unfold Backend.sync_ann
  rw [SyncM.bind_ok _ (SyncM.read_run (fun s => DB.get_ann s a.id) s)]
  rcases hg : DB.get_ann s a.id with _ | sa
  · show DB.get_ann ((SyncM.lift (fun s => DB.save_ann s a j)) s).store i = _
    exact get_ann_save_ann_other s a j i hne
  · have hsa : sa.id = a.id := get_ann_id hg
    show DB.get_ann ((match Ts.cmp sa.updated_at a.updated_at with
      | Ordering.lt => SyncM.lift (fun s => DB.save_ann s a j)
      | Ordering.eq => SyncM.pure ()
      | Ordering.gt => SyncM.bind
          (SyncM.call (RemoteCall.updateAnn sa) (c.updateAnn sa))
          (fun u => SyncM.lift (fun s => DB.save_ann s u j))) s).store i = _
    cases hc : Ts.cmp sa.updated_at a.updated_at with
    | lt => exact get_ann_save_ann_other s a j i hne
    | eq => rfl
    | gt =>
      dsimp only
      rcases ho : c.updateAnn sa with _ | resp
      · rw [SyncM.bind_err _ (SyncM.call_none (RemoteCall.updateAnn sa) rfl s)]
      · rw [SyncM.bind_ok _ (SyncM.call_some (RemoteCall.updateAnn sa) rfl s)]
        have hri : resp.id = a.id := by rw [hrespA sa resp ho, hsa]
        exact get_ann_save_ann_other s resp j i (by rw [hri]; exact hne)

/-- `pull_entry` only writes annotation ids embedded in the pulled entry. -/
theorem pull_entry_get_ann_other (c : Client) (e : Entry) (i : Int) (s : Store)
    (hrespA : ∀ x r, c.updateAnn x = some r → r.id = x.id)
    (hemb : ∀ a ∈ e.annotations.getD [], a.id ≠ i) :
    DB.get_ann ((Backend.pull_entry c e) s).store i = DB.get_ann s i := by
  unfold Backend.pull_entry
  rw [SyncM.bind_ok _ (SyncM.lift_run (fun s => DB.save_entry s e) s)]
  show DB.get_ann ((SyncM.bind (iterM _ (e.annotations.getD [])) _) (DB.save_entry s e)).store i = _
  have hsave : DB.get_ann (DB.save_entry s e) i = DB.get_ann s i := rfl
  rw [← hsave]
  generalize DB.save_entry s e = s0
  generalize hl : e.annotations.getD [] = l
  rw [hl] at hemb
  clear hl
  -- the tail after the annotation loop does not touch `anns`
  have htail : ∀ (st : Store), DB.get_ann ((SyncM.bind (SyncM.lift (fun s => DB.drop_tag_links_for_entry s e.id))
      (fun _ => iterM (fun tag => SyncM.bind (SyncM.lift (fun s => DB.save_tag s tag))
        (fun _ => SyncM.lift (fun s => DB.save_tag_link s e.id tag))) e.tags)) st).store i
      = DB.get_ann st i := by
    intro st
    apply get_ann_eq_of_anns
    exact Preserves.bind
      (Preserves.lift (fun s => DB.drop_tag_links_for_entry s e.id) (fun st => st.anns)
        (fun _ => rfl))
      (fun _ => Preserves.iterM (fun t => Preserves.bind
        (Preserves.lift (fun s => DB.save_tag s t) (fun st => st.anns) (fun _ => rfl))
        (fun _ => Preserves.lift (fun s => DB.save_tag_link s e.id t) (fun st => st.anns)
          (fun _ => rfl))) _) st
  induction l generalizing s0 with
  | nil =>
    rw [iterM]
    rw [SyncM.bind_ok _ (SyncM.pure_run () s0)]
    exact htail s0
  | cons a l ih =>
    rw [iterM, SyncM.bind_assoc]
    rcases hrun : Backend.sync_ann c a e.id s0 with ⟨s1, tr1, r1⟩
    have hstep : DB.get_ann s1 i = DB.get_ann s0 i := by
      have h2 := sync_ann_get_ann_other c a e.id i s0 hrespA (hemb a (by simp))
      rw [hrun] at h2
      exact h2
    cases r1 with
    | error er =>
      rw [SyncM.bind_err _ hrun]
      exact hstep
    | ok u =>
      rw [SyncM.bind_ok _ hrun]
      rw [← hstep]
      exact ih s1 (fun x hx => hemb x (List.mem_cons_of_mem a hx))

/-! ## C4 — remote-deletion detection in `full_sync` -/

/-- The entry-deletion loop of `full_sync`, run to completion: it never calls
the remote and filters out exactly the listed ids. -/
theorem del_entry_loop_run : ∀ (l : List Int) (s : Store),
    (iterM (fun id => SyncM.lift (fun s => DB.delete_entry s id)) l) s
      = ⟨{ s with entries := s.entries.filter (fun e => !(l.contains e.id)) }, [], .ok ()⟩ := by
  intro l
  induction l with
  | nil =>
    intro s
    rw [iterM]
    show (⟨s, [], .ok ()⟩ : RunRes Unit) = _
    have he : s.entries.filter (fun e => !(([] : List Int).contains e.id)) = s.entries := by
      simp
    rw [he]
  | cons a l ih =>
    intro s
    rw [iterM]
    rw [SyncM.bind_ok _ (SyncM.lift_run (fun s => DB.delete_entry s a) s)]
    rw [ih (DB.delete_entry s a)]
    show (⟨_, [], .ok ()⟩ : RunRes Unit) = _
    have he : (DB.delete_entry s a).entries.filter (fun e => !(l.contains e.id))
        = s.entries.filter (fun e => !((a :: l).contains e.id)) := by
      unfold DB.delete_entry
      rw [List.filter_filter]
      exact filter_congr_bool _ (fun (e : Entry) _ => by
        show (!l.contains e.id && !(e.id == a)) = !((a :: l).contains e.id)
        show _ = !(e.id == a || l.contains e.id)
        cases h1 : e.id == a <;> cases h2 : l.contains e.id <;> rfl)
    rw [he]
    rfl

/-- The annotation-deletion loop of `full_sync`, run to completion. -/
theorem del_ann_loop_run : ∀ (l : List Int) (s : Store),
    (iterM (fun id => SyncM.lift (fun s => DB.delete_ann s id)) l) s
      = ⟨{ s with anns := s.anns.filter (fun r => !(l.contains r.ann.id)) }, [], .ok ()⟩ := by
  intro l
  induction l with
  | nil =>
    intro s
    rw [iterM]
    show (⟨s, [], .ok ()⟩ : RunRes Unit) = _
    have he : s.anns.filter (fun r => !(([] : List Int).contains r.ann.id)) = s.anns := by
      simp
    rw [he]
  | cons a l ih =>
    intro s
    rw [iterM]
    rw [SyncM.bind_ok _ (SyncM.lift_run (fun s => DB.delete_ann s a) s)]
    rw [ih (DB.delete_ann s a)]
    show (⟨_, [], .ok ()⟩ : RunRes Unit) = _
    have he : (DB.delete_ann s a).anns.filter (fun r => !(l.contains r.ann.id))
        = s.anns.filter (fun r => !((a :: l).contains r.ann.id)) := by
      unfold DB.delete_ann
      rw [List.filter_filter]
      exact filter_congr_bool _ (fun (r : AnnRow) _ => by
        show (!l.contains r.ann.id && !(r.ann.id == a)) = !((a :: l).contains r.ann.id)
        show _ = !(r.ann.id == a || l.contains r.ann.id)
        cases h1 : r.ann.id == a <;> cases h2 : l.contains r.ann.id <;> rfl)
    rw [he]
    rfl

/-- After the entry-deletion loop, every id outside the seen set is gone. -/
theorem get_entry_none_after_del (s2 : Store) (seen : List Int) (i : Int)
    (h : seen.contains i = false) :
    DB.get_entry { s2 with entries := s2.entries.filter (fun e =>
        !(((DB.get_all_entry_ids s2).filter (fun id => !(seen.contains id))).contains e.id)) } i
      = none := by
  unfold DB.get_entry
  rw [List.find?_eq_none.2]
  · rfl
  intro e he hp
  simp only [beq_iff_eq] at hp
  have he2 := List.mem_filter.1 he
  have hmem : e.id ∈ (DB.get_all_entry_ids s2).filter (fun id => !(seen.contains id)) := by
    apply List.mem_filter.2
    refine ⟨List.mem_map_of_mem (fun e => e.id) he2.1, ?_⟩
    rw [hp, h]
    rfl
  have hc : ((DB.get_all_entry_ids s2).filter (fun id => !(seen.contains id))).contains e.id
      = true := List.elem_iff.2 hmem
  have := he2.2
  rw [hc] at this
  simp at this

/-- After the annotation-deletion loop, every id outside the seen set is gone. -/
theorem get_ann_none_after_del (s3 : Store) (seen : List Int) (j : Int)
    (h : seen.contains j = false) :
    DB.get_ann { s3 with anns := s3.anns.filter (fun r =>
        !(((DB.get_all_ann_ids s3).filter (fun id => !(seen.contains id))).contains r.ann.id)) } j
      = none := by
  unfold DB.get_ann
  rw [List.find?_eq_none.2]
  · rfl
  intro r hr hp
  simp only [beq_iff_eq] at hp
  have hr2 := List.mem_filter.1 hr
  have hmem : r.ann.id ∈ (DB.get_all_ann_ids s3).filter (fun id => !(seen.contains id)) := by
    apply List.mem_filter.2
    refine ⟨List.mem_map_of_mem (fun r => r.ann.id) hr2.1, ?_⟩
    rw [hp, h]
    rfl
  have hc : ((DB.get_all_ann_ids s3).filter (fun id => !(seen.contains id))).contains r.ann.id
      = true := List.elem_iff.2 hmem
  have := hr2.2
  rw [hc] at this
  simp at this

/-- The entry-deletion loop leaves lookups of seen ids unchanged. -/
theorem get_entry_del_keep (s2 : Store) (seen : List Int) (i : Int)
    (h : seen.contains i = true) :
    DB.get_entry { s2 with entries := s2.entries.filter (fun e =>
        !(((DB.get_all_entry_ids s2).filter (fun id => !(seen.contains id))).contains e.id)) } i
      = DB.get_entry s2 i := by
  unfold DB.get_entry
  rw [find?_filter]
  intro e hp
  simp only [beq_iff_eq] at hp
  simp only [Bool.not_eq_true']
  rcases hc : ((DB.get_all_entry_ids s2).filter (fun id => !(seen.contains id))).contains e.id
  · rfl
  · exfalso
    have hmem := List.elem_iff.1 hc
    have := (List.mem_filter.1 hmem).2
    rw [hp, h] at this
    simp at this

/-- One step of the pull loop leaves `get_entry · i` unchanged whenever the
remote entry either has a different id or ties with the current local row
(assuming the remote echoes the id back on update). -/
theorem sre_get_entry_pres (c : Client) (re : Entry) (i : Int) (s0 : Store)
    (hrespE : ∀ k p e', c.updateEntry k p = some e' → e'.id = k)
    (hcond : re.id ≠ i ∨
      (∃ le, DB.get_entry s0 i = some le ∧ Ts.cmp le.updated_at re.updated_at = .eq)) :
    DB.get_entry ((Backend.sync_remote_entry c re) s0).store i = DB.get_entry s0 i := by
  have hpull : ∀ (w : Entry), w.id ≠ i →
      DB.get_entry ((Backend.pull_entry c w) s0).store i = DB.get_entry s0 i := by
    intro w hw
    rw [get_entry_eq_of_entries (pull_entry_entries_eq c w s0)]
    exact get_entry_save_entry_other s0 w i hw
  unfold Backend.sync_remote_entry
  rw [SyncM.bind_ok _ (SyncM.read_run (fun s => DB.get_entry s re.id) s0)]
  rcases hg : DB.get_entry s0 re.id with _ | se
  · -- no local copy: if re.id = i the tie branch of hcond is contradictory
    have hne : re.id ≠ i := by
      rcases hcond with hne | ⟨le, hle, _⟩
      · exact hne
      · intro he
        rw [he] at hg
        rw [hg] at hle
        exact (Option.some_ne_none le) hle.symm
    exact hpull re hne
  · have hse : se.id = re.id := get_entry_id hg
    show DB.get_entry ((match Ts.cmp se.updated_at re.updated_at with
      | Ordering.lt => Backend.pull_entry c re
      | Ordering.eq => iterM (fun ann => Backend.sync_ann c ann re.id)
          (re.annotations.getD [])
      | Ordering.gt =>
        SyncM.bind
          (SyncM.call (RemoteCall.updateEntry se.id (PatchEntry.ofEntry se))
            (c.updateEntry se.id (PatchEntry.ofEntry se)))
          (fun updated_entry => Backend.pull_entry c updated_entry)) s0).store i = _
    cases hc : Ts.cmp se.updated_at re.updated_at with
    | lt =>
      have hne : re.id ≠ i := by
        rcases hcond with hne | ⟨le, hle, heq⟩
        · exact hne
        · intro he
          rw [he] at hg
          rw [hg] at hle
          simp only [Option.some.injEq] at hle
          rw [← hle] at heq
          rw [heq] at hc
          exact Ordering.noConfusion hc
      exact hpull re hne
    | eq =>
      apply get_entry_eq_of_entries
      exact Preserves.iterM
        (fun a => sync_ann_pres c a re.id (fun st => st.entries) (fun _ _ _ => rfl)) _ s0
    | gt =>
      have hne : re.id ≠ i := by
        rcases hcond with hne | ⟨le, hle, heq⟩
        · exact hne
        · intro he
          rw [he] at hg
          rw [hg] at hle
          simp only [Option.some.injEq] at hle
          rw [← hle] at heq
          rw [heq] at hc
          exact Ordering.noConfusion hc
      dsimp only
      rcases ho : c.updateEntry se.id (PatchEntry.ofEntry se) with _ | resp
      · rw [SyncM.bind_err _
          (SyncM.call_none (RemoteCall.updateEntry se.id (PatchEntry.ofEntry se)) rfl s0)]
      · rw [SyncM.bind_ok _
          (SyncM.call_some (RemoteCall.updateEntry se.id (PatchEntry.ofEntry se)) rfl s0)]
        have hri : resp.id = re.id := by rw [hrespE se.id (PatchEntry.ofEntry se) resp ho, hse]
        exact hpull resp (by rw [hri]; exact hne)

/-- The whole pull loop leaves `get_entry · i` unchanged when every remote
entry with id `i` ties with the original local row. -/
theorem iter_sre_get_entry (c : Client) (i : Int)
    (hrespE : ∀ k p e', c.updateEntry k p = some e' → e'.id = k) :
    ∀ (l : List Entry) (s0 : Store),
    (∀ re ∈ l, re.id ≠ i ∨
      (∃ le, DB.get_entry s0 i = some le ∧ Ts.cmp le.updated_at re.updated_at = .eq)) →
    DB.get_entry ((iterM (Backend.sync_remote_entry c) l) s0).store i = DB.get_entry s0 i := by
  intro l
  induction l with
  | nil => intro s0 _; rfl
  | cons re l ih =>
    intro s0 hcond
    rw [iterM]
    rcases hrun : Backend.sync_remote_entry c re s0 with ⟨s1, tr1, r1⟩
    have hstep : DB.get_entry s1 i = DB.get_entry s0 i := by
      have h2 := sre_get_entry_pres c re i s0 hrespE (hcond re (List.mem_cons_self re l))
      rw [hrun] at h2
      exact h2
    cases r1 with
    | error er =>
      rw [SyncM.bind_err _ hrun]
      exact hstep
    | ok u =>
      rw [SyncM.bind_ok _ hrun]
      rw [← hstep]
      apply ih s1
      intro re' hre'
      rcases hcond re' (List.mem_cons_of_mem re hre') with hne | ⟨le, hle, heq⟩
      · exact Or.inl hne
      · exact Or.inr ⟨le, by rw [hstep]; exact hle, heq⟩

/-- With an empty pending-URL queue the push loop is a no-op. -/
theorem sync_new_urls_empty (c : Client) (st : Store) (h : st.new_urls = []) :
    (Backend.sync_new_urls c) st = ⟨st, [], .ok ()⟩ := by
  unfold Backend.sync_new_urls
  rw [SyncM.bind_ok _ (SyncM.read_run DB.get_new_urls st)]
  have h2 : DB.get_new_urls st = [] := h
  rw [h2]
  rfl

/-- With an empty pending-annotation queue the push loop is a no-op. -/
theorem sync_new_anns_empty (c : Client) (st : Store) (h : st.new_anns = []) :
    (Backend.sync_new_anns c) st = ⟨st, [], .ok ()⟩ := by
  unfold Backend.sync_new_anns
  rw [SyncM.bind_ok _ (SyncM.read_run DB.get_new_anns st)]
  have h2 : DB.get_new_anns st = [] := h
  rw [h2]
  rfl

/-- With both pending-create queues empty, the tail of `full_sync` after the
deletion phases just garbage-collects tags and commits the watermark. -/
theorem full_sync_tail_run (c : Client) (now : Ts) (st : Store)
    (h1 : st.new_urls = []) (h2 : st.new_anns = []) :
    (SyncM.bind (Backend.sync_new_urls c) (fun _ =>
      SyncM.bind (Backend.sync_new_anns c) (fun _ =>
      SyncM.bind (SyncM.lift DB.delete_unused_tags) (fun _ =>
      SyncM.lift (fun s => DB.touch_last_sync s now))))) st
    = ⟨DB.touch_last_sync (DB.delete_unused_tags st) now, [], .ok ()⟩ := by
  rw [SyncM.bind_ok _ (sync_new_urls_empty c st h1)]
  rw [SyncM.bind_ok _ (sync_new_anns_empty c st h2)]
  rfl

/-- **C4.** When `full_sync` succeeds against a complete remote enumeration —
with empty pending-create queues, distinct remote ids, and a remote that echoes
ids back on update — every entry id absent from the enumeration reads back as
`none` afterwards, every annotation id absent from the embedded annotation sets
reads back as `none`, and a local entry that ties (equal `updated_at`) with its
remote counterpart is left untouched. -/
theorem c4_remote_deletion_detection (c : Client) (now : Ts) (s : Store)
    (remotes : List Entry)
    (hok : ((Backend.full_sync c now) s).result = .ok ())
    (hget : c.getEntries = some remotes)
    (hq1 : s.new_urls = [])
    (hq2 : s.new_anns = [])
    (hrespE : ∀ k p e', c.updateEntry k p = some e' → e'.id = k)
    (hnodup : (remotes.map (fun e => e.id)).Nodup) :
    (∀ i : Int, (Backend.seenEntryIds remotes).contains i = false →
        DB.get_entry ((Backend.full_sync c now) s).store i = none) ∧
    (∀ j : Int, (Backend.seenAnnIds remotes).contains j = false →
        DB.get_ann ((Backend.full_sync c now) s).store j = none) ∧
    (∀ (i : Int) (le re : Entry), DB.get_entry s i = some le → re ∈ remotes →
        re.id = i → Ts.cmp le.updated_at re.updated_at = .eq →
        DB.get_entry ((Backend.full_sync c now) s).store i = DB.get_entry s i) := by
  unfold Backend.full_sync at hok ⊢
  rcases h1 : Backend.sync_local_deletes c s with ⟨s1, t1, r1⟩
  cases r1 with
  | error e1 =>
    rw [SyncM.bind_err _ h1] at hok
    exact absurd hok (by simp)
  | ok u1 =>
  rw [SyncM.bind_ok _ h1] at hok ⊢
  dsimp only at hok ⊢
  rw [hget] at hok ⊢
  rw [SyncM.bind_ok _ (SyncM.call_some RemoteCall.getEntries rfl s1)] at hok ⊢
  dsimp only at hok ⊢
  rcases h3 : iterM (Backend.sync_remote_entry c) remotes s1 with ⟨s2, t3, r3⟩
  cases r3 with
  | error e3 =>
    rw [SyncM.bind_err _ h3] at hok
    exact absurd hok (by simp)
  | ok u3 =>
  rw [SyncM.bind_ok _ h3] at hok ⊢
  dsimp only at hok ⊢
  rw [SyncM.bind_ok _ (SyncM.read_run DB.get_all_entry_ids s2)] at hok ⊢
  dsimp only at hok ⊢
  rcases h5 : iterM (fun id => SyncM.lift (fun s => DB.delete_entry s id))
      ((DB.get_all_entry_ids s2).filter
        (fun id => !((Backend.seenEntryIds remotes).contains id))) s2
    with ⟨s3, t5, r5⟩
  have h5c := del_entry_loop_run
    ((DB.get_all_entry_ids s2).filter
      (fun id => !((Backend.seenEntryIds remotes).contains id))) s2
  rw [h5] at h5c
  injection h5c with hs3 ht5 hr5
  subst hr5
  rw [SyncM.bind_ok _ h5] at hok ⊢
  dsimp only at hok ⊢
  rw [SyncM.bind_ok _ (SyncM.read_run DB.get_all_ann_ids s3)] at hok ⊢
  dsimp only at hok ⊢
  rcases h7 : iterM (fun id => SyncM.lift (fun s => DB.delete_ann s id))
      ((DB.get_all_ann_ids s3).filter
        (fun id => !((Backend.seenAnnIds remotes).contains id))) s3
    with ⟨s4, t7, r7⟩
  have h7c := del_ann_loop_run
    ((DB.get_all_ann_ids s3).filter
      (fun id => !((Backend.seenAnnIds remotes).contains id))) s3
  rw [h7] at h7c
  injection h7c with hs4 ht7 hr7
  subst hr7
  rw [SyncM.bind_ok _ h7] at hok ⊢
  dsimp only at hok ⊢
  -- queue projections through the phases run so far
  have hqu1 : s1.new_urls = s.new_urls := by
    have hp : ∀ st, ((Backend.sync_local_deletes c) st).store.new_urls = st.new_urls :=
      sync_local_deletes_pres c (fun st => st.new_urls) (fun _ _ => rfl) (fun _ _ => rfl)
    have h2 := hp s
    rw [h1] at h2
    exact h2
  have hqa1 : s1.new_anns = s.new_anns := by
    have hp : ∀ st, ((Backend.sync_local_deletes c) st).store.new_anns = st.new_anns :=
      sync_local_deletes_pres c (fun st => st.new_anns) (fun _ _ => rfl) (fun _ _ => rfl)
    have h2 := hp s
    rw [h1] at h2
    exact h2
  have hqu2 : s2.new_urls = s1.new_urls := by
    have hp : ∀ st, ((iterM (Backend.sync_remote_entry c) remotes) st).store.new_urls
        = st.new_urls :=
      Preserves.iterM (fun re => sync_remote_entry_pres c re (fun st => st.new_urls)
        (fun _ _ => rfl) (fun _ _ _ => rfl) (fun _ _ => rfl) (fun _ _ => rfl)
        (fun _ _ _ => rfl)) remotes
    have h2 := hp s1
    rw [h3] at h2
    exact h2
  have hqa2 : s2.new_anns = s1.new_anns := by
    have hp : ∀ st, ((iterM (Backend.sync_remote_entry c) remotes) st).store.new_anns
        = st.new_anns :=
      Preserves.iterM (fun re => sync_remote_entry_pres c re (fun st => st.new_anns)
        (fun _ _ => rfl) (fun _ _ _ => rfl) (fun _ _ => rfl) (fun _ _ => rfl)
        (fun _ _ _ => rfl)) remotes
    have h2 := hp s1
    rw [h3] at h2
    exact h2
  have hnu : s2.new_urls = [] := by rw [hqu2, hqu1]; exact hq1
  have hna : s2.new_anns = [] := by rw [hqa2, hqa1]; exact hq2
  have hnu4 : s4.new_urls = [] := by
    rw [hs4]
    show s3.new_urls = []
    rw [hs3]
    show s2.new_urls = []
    exact hnu
  have hna4 : s4.new_anns = [] := by
    rw [hs4]
    show s3.new_anns = []
    rw [hs3]
    show s2.new_anns = []
    exact hna
  rw [full_sync_tail_run c now s4 hnu4 hna4]
  dsimp only
  -- lookup facts established by the two deletion loops
  have hents1 : DB.get_entry s1 = DB.get_entry s := by
    have hp : ∀ st, ((Backend.sync_local_deletes c) st).store.entries = st.entries :=
      sync_local_deletes_pres c (fun st => st.entries) (fun _ _ => rfl) (fun _ _ => rfl)
    have h2 := hp s
    rw [h1] at h2
    funext i
    exact get_entry_eq_of_entries h2 i
  refine ⟨?_, ?_, ?_⟩
  · intro i hi
    have he1 : DB.get_entry (DB.touch_last_sync (DB.delete_unused_tags s4) now) i
        = DB.get_entry s4 i := get_entry_eq_of_entries rfl i
    rw [he1, hs4]
    have he2 : DB.get_entry { s3 with anns := s3.anns.filter (fun r =>
        !(((DB.get_all_ann_ids s3).filter
          (fun id => !((Backend.seenAnnIds remotes).contains id))).contains r.ann.id)) } i
        = DB.get_entry s3 i := get_entry_eq_of_entries rfl i
    rw [he2, hs3]
    exact get_entry_none_after_del s2 (Backend.seenEntryIds remotes) i hi
  · intro j hj
    have he1 : DB.get_ann (DB.touch_last_sync (DB.delete_unused_tags s4) now) j
        = DB.get_ann s4 j := get_ann_eq_of_anns rfl j
    rw [he1, hs4]
    exact get_ann_none_after_del s3 (Backend.seenAnnIds remotes) j hj
  · intro i le re hle hre hid heq
    have he1 : DB.get_entry (DB.touch_last_sync (DB.delete_unused_tags s4) now) i
        = DB.get_entry s4 i := get_entry_eq_of_entries rfl i
    rw [he1, hs4]
    have he2 : DB.get_entry { s3 with anns := s3.anns.filter (fun r =>
        !(((DB.get_all_ann_ids s3).filter
          (fun id => !((Backend.seenAnnIds remotes).contains id))).contains r.ann.id)) } i
        = DB.get_entry s3 i := get_entry_eq_of_entries rfl i
    rw [he2, hs3]
    have hkeep := get_entry_del_keep s2 (Backend.seenEntryIds remotes) i
      (List.elem_iff.2 (by
        show i ∈ remotes.map (fun e => e.id)
        exact List.mem_map.2 ⟨re, hre, hid⟩))
    rw [hkeep]
    have hcond : ∀ re' ∈ remotes, re'.id ≠ i ∨
        (∃ le', DB.get_entry s1 i = some le' ∧ Ts.cmp le'.updated_at re'.updated_at = .eq) := by
      intro re' hre'
      by_cases hcase : re'.id = i
      · right
        have hsame : re' = re :=
          List.inj_on_of_nodup_map hnodup hre' hre (by rw [hcase, hid])
        refine ⟨le, ?_, by rw [hsame]; exact heq⟩
        rw [hents1]
        exact hle
      · exact Or.inl hcase
    have h4 := iter_sre_get_entry c i hrespE remotes s1 hcond
    rw [h3] at h4
    rw [h4, hents1]

/-- C4 witness: local ids {1,2,3}, remote enumeration {1,3} with equal
timestamps — entry 2 is deleted, entries 1 and 3 are untouched. -/
theorem c4_remote_deletion_detection_witness :
    ((Backend.full_sync cC4 ts2) sC4).result = .ok () ∧
    DB.get_entry ((Backend.full_sync cC4 ts2) sC4).store 2 = none ∧
    DB.get_entry ((Backend.full_sync cC4 ts2) sC4).store 1 = DB.get_entry sC4 1 ∧
    DB.get_entry ((Backend.full_sync cC4 ts2) sC4).store 3 = DB.get_entry sC4 3 := by
  have h := c4_remote_deletion_detection cC4 ts2 sC4 remotesC4 rfl rfl rfl rfl
    (fun k p e' hx => Option.noConfusion hx) (by decide)
  refine ⟨rfl, h.1 2 (by decide), ?_, ?_⟩
  · exact h.2.2 1 (mkEntry 1 ts1) (mkEntry 1 ts1) rfl (List.mem_cons_self _ _) rfl (by decide)
  · exact h.2.2 3 (mkEntry 3 ts1) (mkEntry 3 ts1) rfl
      (List.mem_cons_of_mem _ (List.mem_cons_self _ _)) rfl (by decide)

/-! ## C5 — pushing unseen local changes -/

theorem save_entry_mem_other {x : Entry} (s : Store) (w : Entry) (hne : w.id ≠ x.id)
    (hx : x ∈ s.entries) : x ∈ (DB.save_entry s w).entries := by
  unfold DB.save_entry
  apply List.mem_append_left
  refine List.mem_filter.2 ⟨hx, ?_⟩
  simp only [Bool.not_eq_true', beq_eq_false_iff_ne, ne_eq]
  exact fun h => hne h.symm

theorem save_ann_mem_other {r : AnnRow} (s : Store) (a : Ann) (j : Int)
    (hne : a.id ≠ r.ann.id) (hr : r ∈ s.anns) : r ∈ (DB.save_ann s a j).anns := by
  unfold DB.save_ann
  apply List.mem_append_left
  refine List.mem_filter.2 ⟨hr, ?_⟩
  simp only [Bool.not_eq_true', beq_eq_false_iff_ne, ne_eq]
  exact fun h => hne h.symm

theorem pull_entry_mem_entries {x : Entry} (c : Client) (w : Entry) (s0 : Store)
    (hne : w.id ≠ x.id) (hx : x ∈ s0.entries) :
    x ∈ ((Backend.pull_entry c w) s0).store.entries := by
  rw [pull_entry_entries_eq c w s0]
  exact save_entry_mem_other s0 w hne hx

/-- One pull-loop step keeps every local entry row whose id differs from the
remote entry's (with an id-echoing remote). -/
theorem sre_mem_entries {x : Entry} (c : Client) (re : Entry) (s0 : Store)
    (hrespE : ∀ k p e', c.updateEntry k p = some e' → e'.id = k)
    (hne : re.id ≠ x.id) (hx : x ∈ s0.entries) :
    x ∈ ((Backend.sync_remote_entry c re) s0).store.entries := by
  unfold Backend.sync_remote_entry
  rw [SyncM.bind_ok _ (SyncM.read_run (fun s => DB.get_entry s re.id) s0)]
  rcases hg : DB.get_entry s0 re.id with _ | se
  · exact pull_entry_mem_entries c re s0 hne hx
  · have hse : se.id = re.id := get_entry_id hg
    show x ∈ ((match Ts.cmp se.updated_at re.updated_at with
      | Ordering.lt => Backend.pull_entry c re
      | Ordering.eq => iterM (fun ann => Backend.sync_ann c ann re.id)
          (re.annotations.getD [])
      | Ordering.gt =>
        SyncM.bind
          (SyncM.call (RemoteCall.updateEntry se.id (PatchEntry.ofEntry se))
            (c.updateEntry se.id (PatchEntry.ofEntry se)))
          (fun updated_entry => Backend.pull_entry c updated_entry)) s0).store.entries
    cases hc : Ts.cmp se.updated_at re.updated_at with
    | lt => exact pull_entry_mem_entries c re s0 hne hx
    | eq =>
      show x ∈ ((iterM (fun ann => Backend.sync_ann c ann re.id)
          (re.annotations.getD [])) s0).store.entries
      have hp : ∀ st, ((iterM (fun ann => Backend.sync_ann c ann re.id)
          (re.annotations.getD [])) st).store.entries = st.entries :=
        Preserves.iterM (fun a => sync_ann_pres c a re.id (fun st => st.entries)
          (fun _ _ _ => rfl)) _
      rw [hp s0]
      exact hx
    | gt =>
      dsimp only
      rcases ho : c.updateEntry se.id (PatchEntry.ofEntry se) with _ | resp
      · rw [SyncM.bind_err _
          (SyncM.call_none (RemoteCall.updateEntry se.id (PatchEntry.ofEntry se)) rfl s0)]
        exact hx
      · rw [SyncM.bind_ok _
          (SyncM.call_some (RemoteCall.updateEntry se.id (PatchEntry.ofEntry se)) rfl s0)]
        have hri : resp.id = re.id := by
          rw [hrespE se.id (PatchEntry.ofEntry se) resp ho, hse]
        exact pull_entry_mem_entries c resp s0 (by rw [hri]; exact hne) hx

theorem iter_sre_mem_entries {x : Entry} (c : Client)
    (hrespE : ∀ k p e', c.updateEntry k p = some e' → e'.id = k) :
    ∀ (l : List Entry) (s0 : Store), (∀ re ∈ l, re.id ≠ x.id) → x ∈ s0.entries →
    x ∈ ((iterM (Backend.sync_remote_entry c) l) s0).store.entries := by
  intro l
  induction l with
  | nil => intro s0 _ hx; exact hx
  | cons re l ih =>
    intro s0 hne hx
    rw [iterM]
    rcases hrun : Backend.sync_remote_entry c re s0 with ⟨s1, tr1, r1⟩
    have hstep : x ∈ s1.entries := by
      have h2 := sre_mem_entries c re s0 hrespE (hne re (List.mem_cons_self re l)) hx
      rw [hrun] at h2
      exact h2
    cases r1 with
    | error er =>
      rw [SyncM.bind_err _ hrun]
      exact hstep
    | ok u =>
      rw [SyncM.bind_ok _ hrun]
      exact ih s1 (fun re' h' => hne re' (List.mem_cons_of_mem re h')) hstep

/-- `sync_annotation` keeps every annotation row with a different id. -/
theorem sync_ann_mem (c : Client) (a : Ann) (j : Int) {r : AnnRow} (s0 : Store)
    (hrespA : ∀ x u, c.updateAnn x = some u → u.id = x.id)
    (hne : a.id ≠ r.ann.id) (hr : r ∈ s0.anns) :
    r ∈ ((Backend.sync_ann c a j) s0).store.anns := by
  unfold Backend.sync_ann
  rw [SyncM.bind_ok _ (SyncM.read_run (fun s => DB.get_ann s a.id) s0)]
  rcases hg : DB.get_ann s0 a.id with _ | sa
  · exact save_ann_mem_other s0 a j hne hr
  · have hsa : sa.id = a.id := get_ann_id hg
    show r ∈ ((match Ts.cmp sa.updated_at a.updated_at with
      | Ordering.lt => SyncM.lift (fun s => DB.save_ann s a j)
      | Ordering.eq => SyncM.pure ()
      | Ordering.gt => SyncM.bind
          (SyncM.call (RemoteCall.updateAnn sa) (c.updateAnn sa))
          (fun u => SyncM.lift (fun s => DB.save_ann s u j))) s0).store.anns
    cases hc : Ts.cmp sa.updated_at a.updated_at with
    | lt => exact save_ann_mem_other s0 a j hne hr
    | eq => exact hr
    | gt =>
      dsimp only
      rcases ho : c.updateAnn sa with _ | resp
      · rw [SyncM.bind_err _ (SyncM.call_none (RemoteCall.updateAnn sa) rfl s0)]
        exact hr
      · rw [SyncM.bind_ok _ (SyncM.call_some (RemoteCall.updateAnn sa) rfl s0)]
        have hri : resp.id = a.id := by rw [hrespA sa resp ho, hsa]
        exact save_ann_mem_other s0 resp j (by rw [hri]; exact hne) hr

/-- `pull_entry` keeps every annotation row whose id is not embedded in the
pulled entry. -/
theorem pull_entry_mem_anns {r : AnnRow} (c : Client) (e : Entry) (s0 : Store)
    (hrespA : ∀ x u, c.updateAnn x = some u → u.id = x.id)
    (hemb : ∀ a ∈ e.annotations.getD [], a.id ≠ r.ann.id) (hr : r ∈ s0.anns) :
    r ∈ ((Backend.pull_entry c e) s0).store.anns := by
  unfold Backend.pull_entry
  rw [SyncM.bind_ok _ (SyncM.lift_run (fun s => DB.save_entry s e) s0)]
  show r ∈ ((SyncM.bind (iterM _ (e.annotations.getD [])) _) (DB.save_entry s0 e)).store.anns
  have hsave : r ∈ (DB.save_entry s0 e).anns := hr
  clear hr
  generalize DB.save_entry s0 e = t0 at hsave
  generalize hl : e.annotations.getD [] = l
  rw [hl] at hemb
  clear hl
  have htail : ∀ (st : Store), ((SyncM.bind (SyncM.lift (fun s => DB.drop_tag_links_for_entry s e.id))
      (fun _ => iterM (fun tag => SyncM.bind (SyncM.lift (fun s => DB.save_tag s tag))
        (fun _ => SyncM.lift (fun s => DB.save_tag_link s e.id tag))) e.tags)) st).store.anns
      = st.anns := by
    intro st
    exact Preserves.bind
      (Preserves.lift (fun s => DB.drop_tag_links_for_entry s e.id) (fun st => st.anns)
        (fun _ => rfl))
      (fun _ => Preserves.iterM (fun t => Preserves.bind
        (Preserves.lift (fun s => DB.save_tag s t) (fun st => st.anns) (fun _ => rfl))
        (fun _ => Preserves.lift (fun s => DB.save_tag_link s e.id t) (fun st => st.anns)
          (fun _ => rfl))) _) st
  induction l generalizing t0 with
  | nil =>
    rw [iterM]
    rw [SyncM.bind_ok _ (SyncM.pure_run () t0)]
    rw [htail t0]
    exact hsave
  | cons a l ih =>
    rw [iterM, SyncM.bind_assoc]
    rcases hrun : Backend.sync_ann c a e.id t0 with ⟨t1, tr1, r1⟩
    have hstep : r ∈ t1.anns := by
      have h2 := sync_ann_mem c a e.id t0 hrespA (hemb a (List.mem_cons_self a l)) hsave
      rw [hrun] at h2
      exact h2
    cases r1 with
    | error er =>
      rw [SyncM.bind_err _ hrun]
      exact hstep
    | ok u =>
      rw [SyncM.bind_ok _ hrun]
      exact ih t1 hstep (fun a' h' => hemb a' (List.mem_cons_of_mem a h'))

/-- One pull-loop step keeps every annotation row whose id is not embedded in
the processed remote entry (update responses echo ids and embed no
annotations). -/
theorem sre_mem_anns {r : AnnRow} (c : Client) (re : Entry) (s0 : Store)
    (hrespA : ∀ x u, c.updateAnn x = some u → u.id = x.id)
    (hrespEno : ∀ k p e', c.updateEntry k p = some e' → e'.annotations = none)
    (hemb : ∀ a ∈ re.annotations.getD [], a.id ≠ r.ann.id) (hr : r ∈ s0.anns) :
    r ∈ ((Backend.sync_remote_entry c re) s0).store.anns := by
  unfold Backend.sync_remote_entry
  rw [SyncM.bind_ok _ (SyncM.read_run (fun s => DB.get_entry s re.id) s0)]
  rcases hg : DB.get_entry s0 re.id with _ | se
  · exact pull_entry_mem_anns c re s0 hrespA hemb hr
  · show r ∈ ((match Ts.cmp se.updated_at re.updated_at with
      | Ordering.lt => Backend.pull_entry c re
      | Ordering.eq => iterM (fun ann => Backend.sync_ann c ann re.id)
          (re.annotations.getD [])
      | Ordering.gt =>
        SyncM.bind
          (SyncM.call (RemoteCall.updateEntry se.id (PatchEntry.ofEntry se))
            (c.updateEntry se.id (PatchEntry.ofEntry se)))
          (fun updated_entry => Backend.pull_entry c updated_entry)) s0).store.anns
    cases hc : Ts.cmp se.updated_at re.updated_at with
    | lt => exact pull_entry_mem_anns c re s0 hrespA hemb hr
    | eq =>
      show r ∈ ((iterM (fun ann => Backend.sync_ann c ann re.id)
          (re.annotations.getD [])) s0).store.anns
      generalize hl : re.annotations.getD [] = l
      rw [hl] at hemb
      clear hl hg hc
      induction l generalizing s0 with
      | nil => exact hr
      | cons a l ih =>
        rw [iterM]
        rcases hrun : Backend.sync_ann c a re.id s0 with ⟨t1, tr1, r1⟩
        have hstep : r ∈ t1.anns := by
          have h2 := sync_ann_mem c a re.id s0 hrespA (hemb a (List.mem_cons_self a l)) hr
          rw [hrun] at h2
          exact h2
        cases r1 with
        | error er =>
          rw [SyncM.bind_err _ hrun]
          exact hstep
        | ok u =>
          rw [SyncM.bind_ok _ hrun]
          exact ih t1 hstep (fun a' h' => hemb a' (List.mem_cons_of_mem a h'))
    | gt =>
      dsimp only
      rcases ho : c.updateEntry se.id (PatchEntry.ofEntry se) with _ | resp
      · rw [SyncM.bind_err _
          (SyncM.call_none (RemoteCall.updateEntry se.id (PatchEntry.ofEntry se)) rfl s0)]
        exact hr
      · rw [SyncM.bind_ok _
          (SyncM.call_some (RemoteCall.updateEntry se.id (PatchEntry.ofEntry se)) rfl s0)]
        apply pull_entry_mem_anns c resp s0 hrespA _ hr
        rw [hrespEno se.id (PatchEntry.ofEntry se) resp ho]
        intro a ha
        exact absurd ha (List.not_mem_nil a)

theorem iter_sre_mem_anns {r : AnnRow} (c : Client)
    (hrespA : ∀ x u, c.updateAnn x = some u → u.id = x.id)
    (hrespEno : ∀ k p e', c.updateEntry k p = some e' → e'.annotations = none) :
    ∀ (l : List Entry) (s0 : Store),
    (∀ re ∈ l, ∀ a ∈ re.annotations.getD [], a.id ≠ r.ann.id) → r ∈ s0.anns →
    r ∈ ((iterM (Backend.sync_remote_entry c) l) s0).store.anns := by
  intro l
  induction l with
  | nil => intro s0 _ hr; exact hr
  | cons re l ih =>
    intro s0 hemb hr
    rw [iterM]
    rcases hrun : Backend.sync_remote_entry c re s0 with ⟨s1, tr1, r1⟩
    have hstep : r ∈ s1.anns := by
      have h2 := sre_mem_anns c re s0 hrespA hrespEno (hemb re (List.mem_cons_self re l)) hr
      rw [hrun] at h2
      exact h2
    cases r1 with
    | error er =>
      rw [SyncM.bind_err _ hrun]
      exact hstep
    | ok u =>
      rw [SyncM.bind_ok _ hrun]
      exact ih s1 (fun re' h' => hemb re' (List.mem_cons_of_mem re h')) hstep

theorem pushE_step_store (c : Client) (seen : List Int) (a : Entry) (st : Store) :
    ((if seen.contains a.id then SyncM.pure ()
      else SyncM.bind (SyncM.call (RemoteCall.updateEntry a.id (PatchEntry.ofEntry a))
          (c.updateEntry a.id (PatchEntry.ofEntry a)))
        (fun _ => SyncM.pure ())) st).store = st := by
  by_cases hc : seen.contains a.id = true
  · rw [if_pos hc]
    rfl
  · rw [if_neg hc]
    rcases ho : c.updateEntry a.id (PatchEntry.ofEntry a) with _ | resp
    · rw [SyncM.bind_err _
        (SyncM.call_none (RemoteCall.updateEntry a.id (PatchEntry.ofEntry a)) rfl st)]
    · rw [SyncM.bind_ok _
        (SyncM.call_some (RemoteCall.updateEntry a.id (PatchEntry.ofEntry a)) rfl st)]
      rfl

/-- The entry push loop of `sync` only issues remote calls; the store is
untouched. -/
theorem pushE_loop_store (c : Client) (seen : List Int) : ∀ (l : List Entry) (st : Store),
    ((iterM (fun entry => if seen.contains entry.id then SyncM.pure ()
      else SyncM.bind (SyncM.call (RemoteCall.updateEntry entry.id (PatchEntry.ofEntry entry))
          (c.updateEntry entry.id (PatchEntry.ofEntry entry)))
        (fun _ => SyncM.pure ())) l) st).store = st := by
  intro l
  induction l with
  | nil => intro st; rfl
  | cons a l ih =>
    intro st
    rw [iterM]
    rcases hrun : (if seen.contains a.id then SyncM.pure ()
      else SyncM.bind (SyncM.call (RemoteCall.updateEntry a.id (PatchEntry.ofEntry a))
          (c.updateEntry a.id (PatchEntry.ofEntry a)))
        (fun _ => SyncM.pure ())) st with ⟨st1, tr1, r1⟩
    have hst : st1 = st := by
      have h2 := pushE_step_store c seen a st
      rw [hrun] at h2
      exact h2
    cases r1 with
    | error er =>
      rw [SyncM.bind_err _ hrun]
      exact hst
    | ok u =>
      rw [SyncM.bind_ok _ hrun]
      show ((iterM _ l) st1).store = st
      rw [ih st1]
      exact hst

/-- If the entry push loop of `sync` completes, it issued an `updateEntry` call
for every processed entry outside the seen set. -/
theorem pushE_loop_trace (c : Client) (seen : List Int) : ∀ (l : List Entry) (st : Store),
    ((iterM (fun entry => if seen.contains entry.id then SyncM.pure ()
      else SyncM.bind (SyncM.call (RemoteCall.updateEntry entry.id (PatchEntry.ofEntry entry))
          (c.updateEntry entry.id (PatchEntry.ofEntry entry)))
        (fun _ => SyncM.pure ())) l) st).result = .ok () →
    ∀ x ∈ l, seen.contains x.id = false →
    RemoteCall.updateEntry x.id (PatchEntry.ofEntry x)
      ∈ ((iterM (fun entry => if seen.contains entry.id then SyncM.pure ()
        else SyncM.bind (SyncM.call (RemoteCall.updateEntry entry.id (PatchEntry.ofEntry entry))
            (c.updateEntry entry.id (PatchEntry.ofEntry entry)))
          (fun _ => SyncM.pure ())) l) st).trace := by
  intro l
  induction l with
  | nil =>
    intro st _ x hx
    exact absurd hx (List.not_mem_nil x)
  | cons a l ih =>
    intro st hres x hx hxs
    rw [iterM] at hres ⊢
    rcases hrun : (if seen.contains a.id then SyncM.pure ()
      else SyncM.bind (SyncM.call (RemoteCall.updateEntry a.id (PatchEntry.ofEntry a))
          (c.updateEntry a.id (PatchEntry.ofEntry a)))
        (fun _ => SyncM.pure ())) st with ⟨st1, tr1, r1⟩
    cases r1 with
    | error er =>
      rw [SyncM.bind_err _ hrun] at hres
      exact absurd hres (by simp)
    | ok u =>
      rw [SyncM.bind_ok _ hrun] at hres ⊢
      rcases List.mem_cons.1 hx with hxa | hxl
      · subst hxa
        rw [if_neg (by rw [hxs]; exact Bool.false_ne_true)] at hrun
        rcases ho : c.updateEntry x.id (PatchEntry.ofEntry x) with _ | resp
        · rw [SyncM.bind_err _
            (SyncM.call_none (RemoteCall.updateEntry x.id (PatchEntry.ofEntry x)) ho st)] at hrun
          injection hrun with h1 h2 h3
          exact absurd h3.symm (by simp)
        · rw [SyncM.bind_ok _
            (SyncM.call_some (RemoteCall.updateEntry x.id (PatchEntry.ofEntry x)) ho st)] at hrun
          injection hrun with h1 h2 h3
          apply List.mem_append_left
          rw [← h2]
          exact List.mem_append_left _ (List.mem_cons_self _ _)
      · exact List.mem_append_right _ (ih st1 hres x hxl hxs)

/-- If the annotation push loop of `sync` completes, it issued an `updateAnn`
call for every processed annotation outside the seen set. -/
theorem pushA_loop_trace (c : Client) (seen : List Int) : ∀ (l : List Ann) (st : Store),
    ((iterM (fun ann => if seen.contains ann.id then SyncM.pure ()
      else SyncM.bind (SyncM.call (RemoteCall.updateAnn ann) (c.updateAnn ann))
        (fun _ => SyncM.pure ())) l) st).result = .ok () →
    ∀ x ∈ l, seen.contains x.id = false →
    RemoteCall.updateAnn x
      ∈ ((iterM (fun ann => if seen.contains ann.id then SyncM.pure ()
        else SyncM.bind (SyncM.call (RemoteCall.updateAnn ann) (c.updateAnn ann))
          (fun _ => SyncM.pure ())) l) st).trace := by
  intro l
  induction l with
  | nil =>
    intro st _ x hx
    exact absurd hx (List.not_mem_nil x)
  | cons a l ih =>
    intro st hres x hx hxs
    rw [iterM] at hres ⊢
    rcases hrun : (if seen.contains a.id then SyncM.pure ()
      else SyncM.bind (SyncM.call (RemoteCall.updateAnn a) (c.updateAnn a))
        (fun _ => SyncM.pure ())) st with ⟨st1, tr1, r1⟩
    cases r1 with
    | error er =>
      rw [SyncM.bind_err _ hrun] at hres
      exact absurd hres (by simp)
    | ok u =>
      rw [SyncM.bind_ok _ hrun] at hres ⊢
      rcases List.mem_cons.1 hx with hxa | hxl
      · subst hxa
        rw [if_neg (by rw [hxs]; exact Bool.false_ne_true)] at hrun
        rcases ho : c.updateAnn x with _ | resp
        · rw [SyncM.bind_err _ (SyncM.call_none (RemoteCall.updateAnn x) ho st)] at hrun
          injection hrun with h1 h2 h3
          exact absurd h3.symm (by simp)
        · rw [SyncM.bind_ok _ (SyncM.call_some (RemoteCall.updateAnn x) ho st)] at hrun
          injection hrun with h1 h2 h3
          apply List.mem_append_left
          rw [← h2]
          exact List.mem_append_left _ (List.mem_cons_self _ _)
      · exact List.mem_append_right _ (ih st1 hres x hxl hxs)

/-- **C5 (amended).** In `sync`, after the pull loop, every local entry whose
persisted `updated_at` string compares `>=` the watermark and whose id the
pulled batch did not contain is pushed via `updateEntry`, and likewise every
such local annotation via `updateAnn` — assuming an id-echoing remote whose
entry-update responses embed no annotations.  `full_sync` has no such phase;
see the counterexample. -/
theorem c5_sync_pushes_unseen (c : Client) (now : Ts) (s : Store)
    (hok : ((Backend.sync c now) s).result = .ok ())
    (hrespE : ∀ k p e', c.updateEntry k p = some e' → e'.id = k)
    (hrespEno : ∀ k p e', c.updateEntry k p = some e' → e'.annotations = none)
    (hrespA : ∀ x u, c.updateAnn x = some u → u.id = x.id) :
    ∀ entries, c.getEntriesWithFilter s.last_sync = some entries →
    ((∀ e ∈ s.entries,
        textGe (Ts.rfc3339 e.updated_at) (Ts.rfc3339 s.last_sync) = true →
        (Backend.seenEntryIds entries).contains e.id = false →
        RemoteCall.updateEntry e.id (PatchEntry.ofEntry { e with annotations := none })
          ∈ ((Backend.sync c now) s).trace) ∧
     (∀ r ∈ s.anns,
        textGe (Ts.rfc3339 r.ann.updated_at) (Ts.rfc3339 s.last_sync) = true →
        (Backend.seenAnnIds entries).contains r.ann.id = false →
        RemoteCall.updateAnn r.ann ∈ ((Backend.sync c now) s).trace)) := by
  intro entries hgetf
  unfold Backend.sync at hok ⊢
  rcases h1 : Backend.sync_local_deletes c s with ⟨s1, t1, r1⟩
  cases r1 with
  | error e1 =>
    rw [SyncM.bind_err _ h1] at hok
    exact absurd hok (by simp)
  | ok u1 =>
  rw [SyncM.bind_ok _ h1] at hok ⊢
  dsimp only at hok ⊢
  rw [SyncM.bind_ok _ (SyncM.read_run DB.get_last_sync s1)] at hok ⊢
  dsimp only at hok ⊢
  have hls : DB.get_last_sync s1 = s.last_sync := by
    have hp : ∀ st, ((Backend.sync_local_deletes c) st).store.last_sync = st.last_sync :=
      sync_local_deletes_pres c (fun st => st.last_sync) (fun _ _ => rfl) (fun _ _ => rfl)
    have h2 := hp s
    rw [h1] at h2
    exact h2
  rw [hls] at hok ⊢
  rw [hgetf] at hok ⊢
  rw [SyncM.bind_ok _
    (SyncM.call_some (RemoteCall.getEntriesWithFilter s.last_sync) rfl s1)] at hok ⊢
  dsimp only at hok ⊢
  rcases h4 : iterM (Backend.sync_remote_entry c) entries s1 with ⟨s2, t4, r4⟩
  cases r4 with
  | error e4 =>
    rw [SyncM.bind_err _ h4] at hok
    exact absurd hok (by simp)
  | ok u4 =>
  rw [SyncM.bind_ok _ h4] at hok ⊢
  dsimp only at hok ⊢
  rw [SyncM.bind_ok _
    (SyncM.read_run (fun st => DB.get_entries_since st s.last_sync) s2)] at hok ⊢
  dsimp only at hok ⊢
  rcases h6 : iterM (fun entry => if (Backend.seenEntryIds entries).contains entry.id
      then SyncM.pure ()
      else SyncM.bind (SyncM.call (RemoteCall.updateEntry entry.id (PatchEntry.ofEntry entry))
          (c.updateEntry entry.id (PatchEntry.ofEntry entry)))
        (fun _ => SyncM.pure ())) (DB.get_entries_since s2 s.last_sync) s2 with ⟨s2x, t6, r6⟩
  cases r6 with
  | error e6x =>
    rw [SyncM.bind_err _ h6] at hok
    exact absurd hok (by simp)
  | ok u6 =>
  cases u6
  have hs2x : s2x = s2 := by
    have h2 := pushE_loop_store c (Backend.seenEntryIds entries)
      (DB.get_entries_since s2 s.last_sync) s2
    rw [h6] at h2
    exact h2
  rw [hs2x] at h6
  rw [SyncM.bind_ok _ h6] at hok ⊢
  dsimp only at hok ⊢
  rw [SyncM.bind_ok _
    (SyncM.read_run (fun st => DB.get_anns_since st s.last_sync) s2)] at hok ⊢
  dsimp only at hok ⊢
  rcases h8 : iterM (fun ann => if (Backend.seenAnnIds entries).contains ann.id
      then SyncM.pure ()
      else SyncM.bind (SyncM.call (RemoteCall.updateAnn ann) (c.updateAnn ann))
        (fun _ => SyncM.pure ())) (DB.get_anns_since s2 s.last_sync) s2 with ⟨s3x, t8, r8⟩
  cases r8 with
  | error e8x =>
    rw [SyncM.bind_err _ h8] at hok
    exact absurd hok (by simp)
  | ok u8 =>
  cases u8
  rw [SyncM.bind_ok _ h8] at hok ⊢
  dsimp only at hok ⊢
  have hent1 : s1.entries = s.entries := by
    have hp : ∀ st, ((Backend.sync_local_deletes c) st).store.entries = st.entries :=
      sync_local_deletes_pres c (fun st => st.entries) (fun _ _ => rfl) (fun _ _ => rfl)
    have h2 := hp s
    rw [h1] at h2
    exact h2
  have hann1 : s1.anns = s.anns := by
    have hp : ∀ st, ((Backend.sync_local_deletes c) st).store.anns = st.anns :=
      sync_local_deletes_pres c (fun st => st.anns) (fun _ _ => rfl) (fun _ _ => rfl)
    have h2 := hp s
    rw [h1] at h2
    exact h2
  refine ⟨?_, ?_⟩
  · intro e he hts hseen
    have he2 : e ∈ s2.entries := by
      have hne : ∀ re ∈ entries, re.id ≠ e.id := by
        intro re hre hcontra
        have hmem : e.id ∈ Backend.seenEntryIds entries := by
          rw [← hcontra]
          exact List.mem_map_of_mem (fun x => x.id) hre
        have hcm : (Backend.seenEntryIds entries).contains e.id = true := List.elem_iff.2 hmem
        rw [hcm] at hseen
        exact Bool.noConfusion hseen
      have h2 := iter_sre_mem_entries c hrespE entries s1 hne (by rw [hent1]; exact he)
      rw [h4] at h2
      exact h2
    have hmasked : ({ e with annotations := none } : Entry)
        ∈ DB.get_entries_since s2 s.last_sync := by
      unfold DB.get_entries_since
      exact List.mem_map.2 ⟨e, List.mem_filter.2 ⟨he2, hts⟩, rfl⟩
    have hres6 : ((iterM (fun entry => if (Backend.seenEntryIds entries).contains entry.id
        then SyncM.pure ()
        else SyncM.bind (SyncM.call (RemoteCall.updateEntry entry.id (PatchEntry.ofEntry entry))
            (c.updateEntry entry.id (PatchEntry.ofEntry entry)))
          (fun _ => SyncM.pure ())) (DB.get_entries_since s2 s.last_sync)) s2).result
        = .ok () := by
      rw [h6]
    have hcall0 := pushE_loop_trace c (Backend.seenEntryIds entries)
      (DB.get_entries_since s2 s.last_sync) s2 hres6 { e with annotations := none } hmasked hseen
    rw [h6] at hcall0
    have hcall : RemoteCall.updateEntry e.id
        (PatchEntry.ofEntry { e with annotations := none }) ∈ t6 := hcall0
    simp only [List.mem_append, hcall, true_or, or_true]
  · intro r hr hts hseen
    have hr2 : r ∈ s2.anns := by
      have hemb : ∀ re ∈ entries, ∀ a ∈ re.annotations.getD [], a.id ≠ r.ann.id := by
        intro re hre a ha hcontra
        have hmem : r.ann.id ∈ Backend.seenAnnIds entries := by
          rw [← hcontra]
          exact List.mem_flatten.2 ⟨(re.annotations.getD []).map (fun a => a.id),
            List.mem_map_of_mem _ hre, List.mem_map_of_mem (fun a => a.id) ha⟩
        have hcm : (Backend.seenAnnIds entries).contains r.ann.id = true := List.elem_iff.2 hmem
        rw [hcm] at hseen
        exact Bool.noConfusion hseen
      have h2 := iter_sre_mem_anns c hrespA hrespEno entries s1 hemb (by rw [hann1]; exact hr)
      rw [h4] at h2
      exact h2
    have hmasked : r.ann ∈ DB.get_anns_since s2 s.last_sync := by
      unfold DB.get_anns_since
      exact List.mem_map.2 ⟨r, List.mem_filter.2 ⟨hr2, hts⟩, rfl⟩
    have hres8 : ((iterM (fun ann => if (Backend.seenAnnIds entries).contains ann.id
        then SyncM.pure ()
        else SyncM.bind (SyncM.call (RemoteCall.updateAnn ann) (c.updateAnn ann))
          (fun _ => SyncM.pure ())) (DB.get_anns_since s2 s.last_sync)) s2).result = .ok () := by
      rw [h8]
    have hcall0 := pushA_loop_trace c (Backend.seenAnnIds entries)
      (DB.get_anns_since s2 s.last_sync) s2 hres8 r.ann hmasked hseen
    rw [h8] at hcall0
    simp only [List.mem_append, hcall0, true_or, or_true]

/-- **C5 counterexample.** `full_sync` has no push-local-changes phase: a local
entry with `updated_at >= last_sync` whose id the full enumeration did not
return is deleted instead of pushed, and the run completes without issuing any
`updateEntry` call (the whole trace is the one `getEntries` call). -/
theorem c5_counterexample :
    textGe (Ts.rfc3339 (mkEntry 5 ts1).updated_at) (Ts.rfc3339 sC5.last_sync) = true ∧
    (Backend.seenEntryIds []).contains (mkEntry 5 ts1).id = false ∧
    (mkEntry 5 ts1) ∈ sC5.entries ∧
    okClient.getEntries = some [] ∧
    ((Backend.full_sync okClient ts2) sC5).result = .ok () ∧
    ((Backend.full_sync okClient ts2) sC5).trace = [RemoteCall.getEntries] ∧
    DB.get_entry ((Backend.full_sync okClient ts2) sC5).store 5 = none :=
  ⟨rfl, rfl, List.mem_cons_self _ _, rfl, rfl, rfl, rfl⟩

/-- C5 witness: entry 5 (edited at `ts1 >= ts0`), unseen by the incremental
pull, gets an `updateEntry` call during `sync`. -/
theorem c5_sync_pushes_unseen_witness :
    RemoteCall.updateEntry 5 (PatchEntry.ofEntry (mkEntry 5 ts1))
      ∈ ((Backend.sync pushClient ts3) sC5).trace := by
  have h := c5_sync_pushes_unseen pushClient ts3 sC5 rfl
    (fun k p e' hx => by injection hx with h2; rw [← h2]; rfl)
    (fun k p e' hx => by injection hx with h2; rw [← h2]; rfl)
    (fun x u hx => by injection hx with h2; rw [← h2])
    [] rfl
  exact h.1 (mkEntry 5 ts1) (List.mem_cons_self _ _) rfl rfl

/-! ## C3 — pending-record lifecycle -/

theorem delA_loop_keep (c : Client) (i : Int) (ho : c.deleteAnn i = none) :
    ∀ (l : List Int) (st : Store), i ∈ st.ann_deletes →
    i ∈ ((iterM (fun id =>
      SyncM.bind (SyncM.call (RemoteCall.deleteAnn id) (c.deleteAnn id)) (fun _ =>
        SyncM.lift (fun s => DB.remove_delete_ann s id))) l) st).store.ann_deletes := by
  intro l
  induction l with
  | nil => intro st hin; exact hin
  | cons a l ih =>
    intro st hin
    rw [iterM]
    rcases ha : c.deleteAnn a with _ | x
    · have hrun : (SyncM.bind (SyncM.call (RemoteCall.deleteAnn a) (none : Option Ann))
          (fun _ => SyncM.lift (fun s => DB.remove_delete_ann s a))) st
          = ⟨st, [RemoteCall.deleteAnn a], .error (RemoteCall.deleteAnn a)⟩ := by
        rw [SyncM.bind_err _ (SyncM.call_none (RemoteCall.deleteAnn a) rfl st)]
      rw [SyncM.bind_err _ hrun]
      exact hin
    · have hrun : (SyncM.bind (SyncM.call (RemoteCall.deleteAnn a) (some x))
          (fun _ => SyncM.lift (fun s => DB.remove_delete_ann s a))) st
          = ⟨DB.remove_delete_ann st a, [RemoteCall.deleteAnn a], .ok ()⟩ := by
        rw [SyncM.bind_ok _ (SyncM.call_some (RemoteCall.deleteAnn a) rfl st)]
        rfl
      rw [SyncM.bind_ok _ hrun]
      apply ih
      refine List.mem_filter.2 ⟨hin, ?_⟩
      simp only [Bool.not_eq_true', beq_eq_false_iff_ne, ne_eq]
      intro hia
      rw [hia] at ho
      rw [ho] at ha
      exact Option.noConfusion ha

theorem delA_loop_err (c : Client) (i : Int) (ho : c.deleteAnn i = none) :
    ∀ (l : List Int) (st : Store), i ∈ l →
    ∃ e, ((iterM (fun id =>
      SyncM.bind (SyncM.call (RemoteCall.deleteAnn id) (c.deleteAnn id)) (fun _ =>
        SyncM.lift (fun s => DB.remove_delete_ann s id))) l) st).result = .error e := by
  intro l
  induction l with
  | nil => intro st hin; exact absurd hin (List.not_mem_nil i)
  | cons a l ih =>
    intro st hin
    rw [iterM]
    rcases ha : c.deleteAnn a with _ | x
    · have hrun : (SyncM.bind (SyncM.call (RemoteCall.deleteAnn a) (none : Option Ann))
          (fun _ => SyncM.lift (fun s => DB.remove_delete_ann s a))) st
          = ⟨st, [RemoteCall.deleteAnn a], .error (RemoteCall.deleteAnn a)⟩ := by
        rw [SyncM.bind_err _ (SyncM.call_none (RemoteCall.deleteAnn a) rfl st)]
      rw [SyncM.bind_err _ hrun]
      exact ⟨RemoteCall.deleteAnn a, rfl⟩
    · have hrun : (SyncM.bind (SyncM.call (RemoteCall.deleteAnn a) (some x))
          (fun _ => SyncM.lift (fun s => DB.remove_delete_ann s a))) st
          = ⟨DB.remove_delete_ann st a, [RemoteCall.deleteAnn a], .ok ()⟩ := by
        rw [SyncM.bind_ok _ (SyncM.call_some (RemoteCall.deleteAnn a) rfl st)]
        rfl
      rw [SyncM.bind_ok _ hrun]
      rcases List.mem_cons.1 hin with hia | hil
      · rw [hia] at ho
        rw [ho] at ha
        exact Option.noConfusion ha
      · exact ih (DB.remove_delete_ann st a) hil

theorem delA_loop_removed (c : Client) (i : Int) :
    ∀ (l : List Int) (st : Store), i ∈ st.ann_deletes →
    i ∉ ((iterM (fun id =>
      SyncM.bind (SyncM.call (RemoteCall.deleteAnn id) (c.deleteAnn id)) (fun _ =>
        SyncM.lift (fun s => DB.remove_delete_ann s id))) l) st).store.ann_deletes →
    c.deleteAnn i ≠ none := by
  intro l
  induction l with
  | nil => intro st hin hnot; exact absurd hin hnot
  | cons a l ih =>
    intro st hin hnot
    rw [iterM] at hnot
    rcases ha : c.deleteAnn a with _ | x
    all_goals rw [ha] at hnot
    · have hrun : (SyncM.bind (SyncM.call (RemoteCall.deleteAnn a) (none : Option Ann))
          (fun _ => SyncM.lift (fun s => DB.remove_delete_ann s a))) st
          = ⟨st, [RemoteCall.deleteAnn a], .error (RemoteCall.deleteAnn a)⟩ := by
        rw [SyncM.bind_err _ (SyncM.call_none (RemoteCall.deleteAnn a) rfl st)]
      rw [SyncM.bind_err _ hrun] at hnot
      exact absurd hin hnot
    · have hrun : (SyncM.bind (SyncM.call (RemoteCall.deleteAnn a) (some x))
          (fun _ => SyncM.lift (fun s => DB.remove_delete_ann s a))) st
          = ⟨DB.remove_delete_ann st a, [RemoteCall.deleteAnn a], .ok ()⟩ := by
        rw [SyncM.bind_ok _ (SyncM.call_some (RemoteCall.deleteAnn a) rfl st)]
        rfl
      rw [SyncM.bind_ok _ hrun] at hnot
      by_cases hia : a = i
      · rw [← hia, ha]
        exact fun h => Option.noConfusion h
      · apply ih (DB.remove_delete_ann st a) ?hin2 hnot
        refine List.mem_filter.2 ⟨hin, ?_⟩
        simp only [Bool.not_eq_true', beq_eq_false_iff_ne, ne_eq]
        exact fun h => hia h.symm

theorem delE_loop_keep (c : Client) (i : Int) (ho : c.deleteEntry i = none) :
    ∀ (l : List Int) (st : Store), i ∈ st.entry_deletes →
    i ∈ ((iterM (fun id =>
      SyncM.bind (SyncM.call (RemoteCall.deleteEntry id) (c.deleteEntry id)) (fun _ =>
        SyncM.lift (fun s => DB.remove_delete_entry s id))) l) st).store.entry_deletes := by
  intro l
  induction l with
  | nil => intro st hin; exact hin
  | cons a l ih =>
    intro st hin
    rw [iterM]
    rcases ha : c.deleteEntry a with _ | x
    · have hrun : (SyncM.bind (SyncM.call (RemoteCall.deleteEntry a) (none : Option Entry))
          (fun _ => SyncM.lift (fun s => DB.remove_delete_entry s a))) st
          = ⟨st, [RemoteCall.deleteEntry a], .error (RemoteCall.deleteEntry a)⟩ := by
        rw [SyncM.bind_err _ (SyncM.call_none (RemoteCall.deleteEntry a) rfl st)]
      rw [SyncM.bind_err _ hrun]
      exact hin
    · have hrun : (SyncM.bind (SyncM.call (RemoteCall.deleteEntry a) (some x))
          (fun _ => SyncM.lift (fun s => DB.remove_delete_entry s a))) st
          = ⟨DB.remove_delete_entry st a, [RemoteCall.deleteEntry a], .ok ()⟩ := by
        rw [SyncM.bind_ok _ (SyncM.call_some (RemoteCall.deleteEntry a) rfl st)]
        rfl
      rw [SyncM.bind_ok _ hrun]
      apply ih
      refine List.mem_filter.2 ⟨hin, ?_⟩
      simp only [Bool.not_eq_true', beq_eq_false_iff_ne, ne_eq]
      intro hia
      rw [hia] at ho
      rw [ho] at ha
      exact Option.noConfusion ha

theorem delE_loop_err (c : Client) (i : Int) (ho : c.deleteEntry i = none) :
    ∀ (l : List Int) (st : Store), i ∈ l →
    ∃ e, ((iterM (fun id =>
      SyncM.bind (SyncM.call (RemoteCall.deleteEntry id) (c.deleteEntry id)) (fun _ =>
        SyncM.lift (fun s => DB.remove_delete_entry s id))) l) st).result = .error e := by
  intro l
  induction l with
  | nil => intro st hin; exact absurd hin (List.not_mem_nil i)
  | cons a l ih =>
    intro st hin
    rw [iterM]
    rcases ha : c.deleteEntry a with _ | x
    · have hrun : (SyncM.bind (SyncM.call (RemoteCall.deleteEntry a) (none : Option Entry))
          (fun _ => SyncM.lift (fun s => DB.remove_delete_entry s a))) st
          = ⟨st, [RemoteCall.deleteEntry a], .error (RemoteCall.deleteEntry a)⟩ := by
        rw [SyncM.bind_err _ (SyncM.call_none (RemoteCall.deleteEntry a) rfl st)]
      rw [SyncM.bind_err _ hrun]
      exact ⟨RemoteCall.deleteEntry a, rfl⟩
    · have hrun : (SyncM.bind (SyncM.call (RemoteCall.deleteEntry a) (some x))
          (fun _ => SyncM.lift (fun s => DB.remove_delete_entry s a))) st
          = ⟨DB.remove_delete_entry st a, [RemoteCall.deleteEntry a], .ok ()⟩ := by
        rw [SyncM.bind_ok _ (SyncM.call_some (RemoteCall.deleteEntry a) rfl st)]
        rfl
      rw [SyncM.bind_ok _ hrun]
      rcases List.mem_cons.1 hin with hia | hil
      · rw [hia] at ho
        rw [ho] at ha
        exact Option.noConfusion ha
      · exact ih (DB.remove_delete_entry st a) hil

theorem delE_loop_removed (c : Client) (i : Int) :
    ∀ (l : List Int) (st : Store), i ∈ st.entry_deletes →
    i ∉ ((iterM (fun id =>
      SyncM.bind (SyncM.call (RemoteCall.deleteEntry id) (c.deleteEntry id)) (fun _ =>
        SyncM.lift (fun s => DB.remove_delete_entry s id))) l) st).store.entry_deletes →
    c.deleteEntry i ≠ none := by
  intro l
  induction l with
  | nil => intro st hin hnot; exact absurd hin hnot
  | cons a l ih =>
    intro st hin hnot
    rw [iterM] at hnot
    rcases ha : c.deleteEntry a with _ | x
    all_goals rw [ha] at hnot
    · have hrun : (SyncM.bind (SyncM.call (RemoteCall.deleteEntry a) (none : Option Entry))
          (fun _ => SyncM.lift (fun s => DB.remove_delete_entry s a))) st
          = ⟨st, [RemoteCall.deleteEntry a], .error (RemoteCall.deleteEntry a)⟩ := by
        rw [SyncM.bind_err _ (SyncM.call_none (RemoteCall.deleteEntry a) rfl st)]
      rw [SyncM.bind_err _ hrun] at hnot
      exact absurd hin hnot
    · have hrun : (SyncM.bind (SyncM.call (RemoteCall.deleteEntry a) (some x))
          (fun _ => SyncM.lift (fun s => DB.remove_delete_entry s a))) st
          = ⟨DB.remove_delete_entry st a, [RemoteCall.deleteEntry a], .ok ()⟩ := by
        rw [SyncM.bind_ok _ (SyncM.call_some (RemoteCall.deleteEntry a) rfl st)]
        rfl
      rw [SyncM.bind_ok _ hrun] at hnot
      by_cases hia : a = i
      · rw [← hia, ha]
        exact fun h => Option.noConfusion h
      · apply ih (DB.remove_delete_entry st a) ?hin2 hnot
        refine List.mem_filter.2 ⟨hin, ?_⟩
        simp only [Bool.not_eq_true', beq_eq_false_iff_ne, ne_eq]
        exact fun h => hia h.symm

theorem na_loop_keep (c : Client) (r : NewAnnRow)
    (ho : c.createAnn r.entry_id r.payload = none) :
    ∀ (l : List NewAnnRow) (st : Store), (∀ r' ∈ l, r'.id = r.id → r' = r) →
    r ∈ st.new_anns →
    r ∈ ((iterM (fun q =>
      SyncM.bind (SyncM.call (RemoteCall.createAnn q.entry_id q.payload)
          (c.createAnn q.entry_id q.payload)) (fun ann =>
        SyncM.bind (SyncM.lift (fun s => DB.save_ann s ann q.entry_id)) (fun _ =>
          SyncM.lift (fun s => DB.remove_new_ann s q.id)))) l) st).store.new_anns := by
  intro l
  induction l with
  | nil => intro st _ hin; exact hin
  | cons a l ih =>
    intro st hinj hin
    rw [iterM]
    rcases ha : c.createAnn a.entry_id a.payload with _ | x
    · have hrun : (SyncM.bind (SyncM.call (RemoteCall.createAnn a.entry_id a.payload)
          (none : Option Ann)) (fun ann =>
          SyncM.bind (SyncM.lift (fun s => DB.save_ann s ann a.entry_id)) (fun _ =>
            SyncM.lift (fun s => DB.remove_new_ann s a.id)))) st
          = ⟨st, [RemoteCall.createAnn a.entry_id a.payload],
              .error (RemoteCall.createAnn a.entry_id a.payload)⟩ := by
        rw [SyncM.bind_err _
          (SyncM.call_none (RemoteCall.createAnn a.entry_id a.payload) rfl st)]
      rw [SyncM.bind_err _ hrun]
      exact hin
    · have hrun : (SyncM.bind (SyncM.call (RemoteCall.createAnn a.entry_id a.payload)
          (some x)) (fun ann =>
          SyncM.bind (SyncM.lift (fun s => DB.save_ann s ann a.entry_id)) (fun _ =>
            SyncM.lift (fun s => DB.remove_new_ann s a.id)))) st
          = ⟨DB.remove_new_ann (DB.save_ann st x a.entry_id) a.id,
              [RemoteCall.createAnn a.entry_id a.payload], .ok ()⟩ := by
        rw [SyncM.bind_ok _
          (SyncM.call_some (RemoteCall.createAnn a.entry_id a.payload) rfl st)]
        rfl
      rw [SyncM.bind_ok _ hrun]
      by_cases hid : a.id = r.id
      · have har : a = r := hinj a (List.mem_cons_self a l) hid
        rw [har] at ha
        rw [ha] at ho
        exact Option.noConfusion ho
      · apply ih (DB.remove_new_ann (DB.save_ann st x a.entry_id) a.id)
          (fun r' h' => hinj r' (List.mem_cons_of_mem a h'))
        refine List.mem_filter.2 ⟨hin, ?_⟩
        simp only [Bool.not_eq_true', beq_eq_false_iff_ne, ne_eq]
        exact fun h => hid h.symm

theorem na_loop_err (c : Client) (r : NewAnnRow)
    (ho : c.createAnn r.entry_id r.payload = none) :
    ∀ (l : List NewAnnRow) (st : Store), r ∈ l →
    ∃ e, ((iterM (fun q =>
      SyncM.bind (SyncM.call (RemoteCall.createAnn q.entry_id q.payload)
          (c.createAnn q.entry_id q.payload)) (fun ann =>
        SyncM.bind (SyncM.lift (fun s => DB.save_ann s ann q.entry_id)) (fun _ =>
          SyncM.lift (fun s => DB.remove_new_ann s q.id)))) l) st).result = .error e := by
  intro l
  induction l with
  | nil => intro st hin; exact absurd hin (List.not_mem_nil r)
  | cons a l ih =>
    intro st hin
    rw [iterM]
    rcases ha : c.createAnn a.entry_id a.payload with _ | x
    · have hrun : (SyncM.bind (SyncM.call (RemoteCall.createAnn a.entry_id a.payload)
          (none : Option Ann)) (fun ann =>
          SyncM.bind (SyncM.lift (fun s => DB.save_ann s ann a.entry_id)) (fun _ =>
            SyncM.lift (fun s => DB.remove_new_ann s a.id)))) st
          = ⟨st, [RemoteCall.createAnn a.entry_id a.payload],
              .error (RemoteCall.createAnn a.entry_id a.payload)⟩ := by
        rw [SyncM.bind_err _
          (SyncM.call_none (RemoteCall.createAnn a.entry_id a.payload) rfl st)]
      rw [SyncM.bind_err _ hrun]
      exact ⟨RemoteCall.createAnn a.entry_id a.payload, rfl⟩
    · have hrun : (SyncM.bind (SyncM.call (RemoteCall.createAnn a.entry_id a.payload)
          (some x)) (fun ann =>
          SyncM.bind (SyncM.lift (fun s => DB.save_ann s ann a.entry_id)) (fun _ =>
            SyncM.lift (fun s => DB.remove_new_ann s a.id)))) st
          = ⟨DB.remove_new_ann (DB.save_ann st x a.entry_id) a.id,
              [RemoteCall.createAnn a.entry_id a.payload], .ok ()⟩ := by
        rw [SyncM.bind_ok _
          (SyncM.call_some (RemoteCall.createAnn a.entry_id a.payload) rfl st)]
        rfl
      rw [SyncM.bind_ok _ hrun]
      rcases List.mem_cons.1 hin with hra | hrl
      · rw [hra] at ho
        rw [ho] at ha
        exact Option.noConfusion ha
      · exact ih (DB.remove_new_ann (DB.save_ann st x a.entry_id) a.id) hrl

theorem na_loop_removed (c : Client) (r : NewAnnRow) :
    ∀ (l : List NewAnnRow) (st : Store), (∀ r' ∈ l, r'.id = r.id → r' = r) →
    r ∈ st.new_anns →
    r ∉ ((iterM (fun q =>
      SyncM.bind (SyncM.call (RemoteCall.createAnn q.entry_id q.payload)
          (c.createAnn q.entry_id q.payload)) (fun ann =>
        SyncM.bind (SyncM.lift (fun s => DB.save_ann s ann q.entry_id)) (fun _ =>
          SyncM.lift (fun s => DB.remove_new_ann s q.id)))) l) st).store.new_anns →
    c.createAnn r.entry_id r.payload ≠ none := by
  intro l
  induction l with
  | nil => intro st _ hin hnot; exact absurd hin hnot
  | cons a l ih =>
    intro st hinj hin hnot
    rw [iterM] at hnot
    rcases ha : c.createAnn a.entry_id a.payload with _ | x
    all_goals rw [ha] at hnot
    · have hrun : (SyncM.bind (SyncM.call (RemoteCall.createAnn a.entry_id a.payload)
          (none : Option Ann)) (fun ann =>
          SyncM.bind (SyncM.lift (fun s => DB.save_ann s ann a.entry_id)) (fun _ =>
            SyncM.lift (fun s => DB.remove_new_ann s a.id)))) st
          = ⟨st, [RemoteCall.createAnn a.entry_id a.payload],
              .error (RemoteCall.createAnn a.entry_id a.payload)⟩ := by
        rw [SyncM.bind_err _
          (SyncM.call_none (RemoteCall.createAnn a.entry_id a.payload) rfl st)]
      rw [SyncM.bind_err _ hrun] at hnot
      exact absurd hin hnot
    · have hrun : (SyncM.bind (SyncM.call (RemoteCall.createAnn a.entry_id a.payload)
          (some x)) (fun ann =>
          SyncM.bind (SyncM.lift (fun s => DB.save_ann s ann a.entry_id)) (fun _ =>
            SyncM.lift (fun s => DB.remove_new_ann s a.id)))) st
          = ⟨DB.remove_new_ann (DB.save_ann st x a.entry_id) a.id,
              [RemoteCall.createAnn a.entry_id a.payload], .ok ()⟩ := by
        rw [SyncM.bind_ok _
          (SyncM.call_some (RemoteCall.createAnn a.entry_id a.payload) rfl st)]
        rfl
      rw [SyncM.bind_ok _ hrun] at hnot
      by_cases hid : a.id = r.id
      · have har : a = r := hinj a (List.mem_cons_self a l) hid
        rw [← har, ha]
        exact fun h => Option.noConfusion h
      · apply ih (DB.remove_new_ann (DB.save_ann st x a.entry_id) a.id)
          (fun r' h' => hinj r' (List.mem_cons_of_mem a h')) ?hin2 hnot
        refine List.mem_filter.2 ⟨hin, ?_⟩
        simp only [Bool.not_eq_true', beq_eq_false_iff_ne, ne_eq]
        exact fun h => hid h.symm

/-- `pull_entry` never touches the pending-URL queue. -/
theorem pull_entry_new_urls (c : Client) (entry : Entry) (st : Store) :
    ((Backend.pull_entry c entry) st).store.new_urls = st.new_urls :=
  pull_entry_pres c entry (fun st => st.new_urls) (fun _ _ => rfl) (fun _ _ _ => rfl)
    (fun _ _ => rfl) (fun _ _ => rfl) (fun _ _ _ => rfl) st

theorem nu_loop_keep (c : Client) (r : NewUrl)
    (ho : c.createEntry (NewEntry.new_with_url r.url) = none) :
    ∀ (l : List NewUrl) (st : Store), (∀ u' ∈ l, u'.id = r.id → u' = r) →
    r ∈ st.new_urls →
    r ∈ ((iterM (fun u =>
      SyncM.bind (SyncM.call (RemoteCall.createEntry (NewEntry.new_with_url u.url))
          (c.createEntry (NewEntry.new_with_url u.url))) (fun entry =>
        SyncM.bind (Backend.pull_entry c entry) (fun _ =>
          SyncM.lift (fun s => DB.remove_new_url s u.id)))) l) st).store.new_urls := by
  intro l
  induction l with
  | nil => intro st _ hin; exact hin
  | cons a l ih =>
    intro st hinj hin
    rw [iterM]
    rcases ha : c.createEntry (NewEntry.new_with_url a.url) with _ | entry
    · have hrun : (SyncM.bind (SyncM.call (RemoteCall.createEntry (NewEntry.new_with_url a.url))
          (none : Option Entry)) (fun entry =>
          SyncM.bind (Backend.pull_entry c entry) (fun _ =>
            SyncM.lift (fun s => DB.remove_new_url s a.id)))) st
          = ⟨st, [RemoteCall.createEntry (NewEntry.new_with_url a.url)],
              .error (RemoteCall.createEntry (NewEntry.new_with_url a.url))⟩ := by
        rw [SyncM.bind_err _
          (SyncM.call_none (RemoteCall.createEntry (NewEntry.new_with_url a.url)) rfl st)]
      rw [SyncM.bind_err _ hrun]
      exact hin
    · rcases hp : Backend.pull_entry c entry st with ⟨sp, tp, rp⟩
      have hpres : sp.new_urls = st.new_urls := by
        have h2 := pull_entry_new_urls c entry st
        rw [hp] at h2
        exact h2
      cases rp with
      | error er =>
        have hrun : (SyncM.bind (SyncM.call
            (RemoteCall.createEntry (NewEntry.new_with_url a.url)) (some entry)) (fun entry =>
            SyncM.bind (Backend.pull_entry c entry) (fun _ =>
              SyncM.lift (fun s => DB.remove_new_url s a.id)))) st
            = ⟨sp, [RemoteCall.createEntry (NewEntry.new_with_url a.url)] ++ tp,
                .error er⟩ := by
          rw [SyncM.bind_ok _
            (SyncM.call_some (RemoteCall.createEntry (NewEntry.new_with_url a.url)) rfl st)]
          rw [SyncM.bind_err _ hp]
        rw [SyncM.bind_err _ hrun]
        rw [hpres]
        exact hin
      | ok u =>
        have hrun : (SyncM.bind (SyncM.call
            (RemoteCall.createEntry (NewEntry.new_with_url a.url)) (some entry)) (fun entry =>
            SyncM.bind (Backend.pull_entry c entry) (fun _ =>
              SyncM.lift (fun s => DB.remove_new_url s a.id)))) st
            = ⟨DB.remove_new_url sp a.id,
                [RemoteCall.createEntry (NewEntry.new_with_url a.url)] ++ (tp ++ []),
                .ok ()⟩ := by
          rw [SyncM.bind_ok _
            (SyncM.call_some (RemoteCall.createEntry (NewEntry.new_with_url a.url)) rfl st)]
          rw [SyncM.bind_ok _ hp]
          rfl
        rw [SyncM.bind_ok _ hrun]
        by_cases hid : a.id = r.id
        · have har : a = r := hinj a (List.mem_cons_self a l) hid
          rw [har] at ha
          rw [ha] at ho
          exact Option.noConfusion ho
        · apply ih (DB.remove_new_url sp a.id)
            (fun u' h' => hinj u' (List.mem_cons_of_mem a h'))
          refine List.mem_filter.2 ⟨by rw [hpres]; exact hin, ?_⟩
          simp only [Bool.not_eq_true', beq_eq_false_iff_ne, ne_eq]
          exact fun h => hid h.symm

theorem nu_loop_err (c : Client) (r : NewUrl)
    (ho : c.createEntry (NewEntry.new_with_url r.url) = none) :
    ∀ (l : List NewUrl) (st : Store), r ∈ l →
    ∃ e, ((iterM (fun u =>
      SyncM.bind (SyncM.call (RemoteCall.createEntry (NewEntry.new_with_url u.url))
          (c.createEntry (NewEntry.new_with_url u.url))) (fun entry =>
        SyncM.bind (Backend.pull_entry c entry) (fun _ =>
          SyncM.lift (fun s => DB.remove_new_url s u.id)))) l) st).result = .error e := by
  intro l
  induction l with
  | nil => intro st hin; exact absurd hin (List.not_mem_nil r)
  | cons a l ih =>
    intro st hin
    rw [iterM]
    rcases ha : c.createEntry (NewEntry.new_with_url a.url) with _ | entry
    · have hrun : (SyncM.bind (SyncM.call (RemoteCall.createEntry (NewEntry.new_with_url a.url))
          (none : Option Entry)) (fun entry =>
          SyncM.bind (Backend.pull_entry c entry) (fun _ =>
            SyncM.lift (fun s => DB.remove_new_url s a.id)))) st
          = ⟨st, [RemoteCall.createEntry (NewEntry.new_with_url a.url)],
              .error (RemoteCall.createEntry (NewEntry.new_with_url a.url))⟩ := by
        rw [SyncM.bind_err _
          (SyncM.call_none (RemoteCall.createEntry (NewEntry.new_with_url a.url)) rfl st)]
      rw [SyncM.bind_err _ hrun]
      exact ⟨RemoteCall.createEntry (NewEntry.new_with_url a.url), rfl⟩
    · rcases List.mem_cons.1 hin with hra | hrl
      · rw [hra] at ho
        rw [ho] at ha
        exact Option.noConfusion ha
      · rcases hp : Backend.pull_entry c entry st with ⟨sp, tp, rp⟩
        cases rp with
        | error er =>
          have hrun : (SyncM.bind (SyncM.call
              (RemoteCall.createEntry (NewEntry.new_with_url a.url)) (some entry)) (fun entry =>
              SyncM.bind (Backend.pull_entry c entry) (fun _ =>
                SyncM.lift (fun s => DB.remove_new_url s a.id)))) st
              = ⟨sp, [RemoteCall.createEntry (NewEntry.new_with_url a.url)] ++ tp,
                  .error er⟩ := by
            rw [SyncM.bind_ok _
              (SyncM.call_some (RemoteCall.createEntry (NewEntry.new_with_url a.url)) rfl st)]
            rw [SyncM.bind_err _ hp]
          rw [SyncM.bind_err _ hrun]
          exact ⟨er, rfl⟩
        | ok u =>
          have hrun : (SyncM.bind (SyncM.call
              (RemoteCall.createEntry (NewEntry.new_with_url a.url)) (some entry)) (fun entry =>
              SyncM.bind (Backend.pull_entry c entry) (fun _ =>
                SyncM.lift (fun s => DB.remove_new_url s a.id)))) st
              = ⟨DB.remove_new_url sp a.id,
                  [RemoteCall.createEntry (NewEntry.new_with_url a.url)] ++ (tp ++ []),
                  .ok ()⟩ := by
            rw [SyncM.bind_ok _
              (SyncM.call_some (RemoteCall.createEntry (NewEntry.new_with_url a.url)) rfl st)]
            rw [SyncM.bind_ok _ hp]
            rfl
          rw [SyncM.bind_ok _ hrun]
          exact ih (DB.remove_new_url sp a.id) hrl

theorem nu_loop_removed (c : Client) (r : NewUrl) :
    ∀ (l : List NewUrl) (st : Store), (∀ u' ∈ l, u'.id = r.id → u' = r) →
    r ∈ st.new_urls →
    r ∉ ((iterM (fun u =>
      SyncM.bind (SyncM.call (RemoteCall.createEntry (NewEntry.new_with_url u.url))
          (c.createEntry (NewEntry.new_with_url u.url))) (fun entry =>
        SyncM.bind (Backend.pull_entry c entry) (fun _ =>
          SyncM.lift (fun s => DB.remove_new_url s u.id)))) l) st).store.new_urls →
    c.createEntry (NewEntry.new_with_url r.url) ≠ none := by
  intro l
  induction l with
  | nil => intro st _ hin hnot; exact absurd hin hnot
  | cons a l ih =>
    intro st hinj hin hnot
    rw [iterM] at hnot
    rcases ha : c.createEntry (NewEntry.new_with_url a.url) with _ | entry
    all_goals rw [ha] at hnot
    · have hrun : (SyncM.bind (SyncM.call (RemoteCall.createEntry (NewEntry.new_with_url a.url))
          (none : Option Entry)) (fun entry =>
          SyncM.bind (Backend.pull_entry c entry) (fun _ =>
            SyncM.lift (fun s => DB.remove_new_url s a.id)))) st
          = ⟨st, [RemoteCall.createEntry (NewEntry.new_with_url a.url)],
              .error (RemoteCall.createEntry (NewEntry.new_with_url a.url))⟩ := by
        rw [SyncM.bind_err _
          (SyncM.call_none (RemoteCall.createEntry (NewEntry.new_with_url a.url)) rfl st)]
      rw [SyncM.bind_err _ hrun] at hnot
      exact absurd hin hnot
    · rcases hp : Backend.pull_entry c entry st with ⟨sp, tp, rp⟩
      have hpres : sp.new_urls = st.new_urls := by
        have h2 := pull_entry_new_urls c entry st
        rw [hp] at h2
        exact h2
      cases rp with
      | error er =>
        have hrun : (SyncM.bind (SyncM.call
            (RemoteCall.createEntry (NewEntry.new_with_url a.url)) (some entry)) (fun entry =>
            SyncM.bind (Backend.pull_entry c entry) (fun _ =>
              SyncM.lift (fun s => DB.remove_new_url s a.id)))) st
            = ⟨sp, [RemoteCall.createEntry (NewEntry.new_with_url a.url)] ++ tp,
                .error er⟩ := by
          rw [SyncM.bind_ok _
            (SyncM.call_some (RemoteCall.createEntry (NewEntry.new_with_url a.url)) rfl st)]
          rw [SyncM.bind_err _ hp]
        rw [SyncM.bind_err _ hrun] at hnot
        rw [show ((⟨sp, [RemoteCall.createEntry (NewEntry.new_with_url a.url)] ++ tp,
          .error er⟩ : RunRes Unit)).store = sp from rfl, hpres] at hnot
        exact absurd hin hnot
      | ok u =>
        have hrun : (SyncM.bind (SyncM.call
            (RemoteCall.createEntry (NewEntry.new_with_url a.url)) (some entry)) (fun entry =>
            SyncM.bind (Backend.pull_entry c entry) (fun _ =>
              SyncM.lift (fun s => DB.remove_new_url s a.id)))) st
            = ⟨DB.remove_new_url sp a.id,
                [RemoteCall.createEntry (NewEntry.new_with_url a.url)] ++ (tp ++ []),
                .ok ()⟩ := by
          rw [SyncM.bind_ok _
            (SyncM.call_some (RemoteCall.createEntry (NewEntry.new_with_url a.url)) rfl st)]
          rw [SyncM.bind_ok _ hp]
          rfl
        rw [SyncM.bind_ok _ hrun] at hnot
        by_cases hid : a.id = r.id
        · have har : a = r := hinj a (List.mem_cons_self a l) hid
          rw [← har, ha]
          exact fun h => Option.noConfusion h
        · apply ih (DB.remove_new_url sp a.id)
            (fun u' h' => hinj u' (List.mem_cons_of_mem a h')) ?hin2 hnot
          refine List.mem_filter.2 ⟨by rw [hpres]; exact hin, ?_⟩
          simp only [Bool.not_eq_true', beq_eq_false_iff_ne, ne_eq]
          exact fun h => hid h.symm

theorem sna_run (c : Client) (s : Store) :
    (Backend.sync_new_anns c) s
      = (iterM (fun q =>
          SyncM.bind (SyncM.call (RemoteCall.createAnn q.entry_id q.payload)
              (c.createAnn q.entry_id q.payload)) (fun ann =>
            SyncM.bind (SyncM.lift (fun s => DB.save_ann s ann q.entry_id)) (fun _ =>
              SyncM.lift (fun s => DB.remove_new_ann s q.id)))) s.new_anns) s := by
  unfold Backend.sync_new_anns
  rw [SyncM.bind_ok _ (SyncM.read_run DB.get_new_anns s)]
  rfl

theorem snu_run (c : Client) (s : Store) :
    (Backend.sync_new_urls c) s
      = (iterM (fun u =>
          SyncM.bind (SyncM.call (RemoteCall.createEntry (NewEntry.new_with_url u.url))
              (c.createEntry (NewEntry.new_with_url u.url))) (fun entry =>
            SyncM.bind (Backend.pull_entry c entry) (fun _ =>
              SyncM.lift (fun s => DB.remove_new_url s u.id)))) s.new_urls) s := by
  unfold Backend.sync_new_urls
  rw [SyncM.bind_ok _ (SyncM.read_run DB.get_new_urls s)]
  rfl

theorem sna_removed (c : Client) (s : Store) (r : NewAnnRow)
    (hinj : ∀ r' ∈ s.new_anns, r'.id = r.id → r' = r) (hr : r ∈ s.new_anns)
    (hnot : r ∉ ((Backend.sync_new_anns c) s).store.new_anns) :
    c.createAnn r.entry_id r.payload ≠ none := by
  rw [sna_run] at hnot
  exact na_loop_removed c r s.new_anns s hinj hr hnot

theorem sna_keep (c : Client) (s : Store) (r : NewAnnRow)
    (hinj : ∀ r' ∈ s.new_anns, r'.id = r.id → r' = r)
    (ho : c.createAnn r.entry_id r.payload = none) (hr : r ∈ s.new_anns) :
    r ∈ ((Backend.sync_new_anns c) s).store.new_anns ∧
    ∃ e, ((Backend.sync_new_anns c) s).result = .error e := by
  constructor
  · rw [sna_run]
    exact na_loop_keep c r ho s.new_anns s hinj hr
  · obtain ⟨e, he⟩ := na_loop_err c r ho s.new_anns s hr
    exact ⟨e, by rw [sna_run]; exact he⟩

theorem snu_removed (c : Client) (s : Store) (u : NewUrl)
    (hinj : ∀ u' ∈ s.new_urls, u'.id = u.id → u' = u) (hu : u ∈ s.new_urls)
    (hnot : u ∉ ((Backend.sync_new_urls c) s).store.new_urls) :
    c.createEntry (NewEntry.new_with_url u.url) ≠ none := by
  rw [snu_run] at hnot
  exact nu_loop_removed c u s.new_urls s hinj hu hnot

theorem snu_keep (c : Client) (s : Store) (u : NewUrl)
    (hinj : ∀ u' ∈ s.new_urls, u'.id = u.id → u' = u)
    (ho : c.createEntry (NewEntry.new_with_url u.url) = none) (hu : u ∈ s.new_urls) :
    u ∈ ((Backend.sync_new_urls c) s).store.new_urls ∧
    ∃ e, ((Backend.sync_new_urls c) s).result = .error e := by
  constructor
  · rw [snu_run]
    exact nu_loop_keep c u ho s.new_urls s hinj hu
  · obtain ⟨e, he⟩ := nu_loop_err c u ho s.new_urls s hu
    exact ⟨e, by rw [snu_run]; exact he⟩

theorem sld_ann_removed (c : Client) (s : Store) (i : Int) (hin : i ∈ s.ann_deletes)
    (hnot : i ∉ ((Backend.sync_local_deletes c) s).store.ann_deletes) :
    c.deleteAnn i ≠ none := by
  unfold Backend.sync_local_deletes at hnot
  rw [SyncM.bind_ok _ (SyncM.read_run DB.get_ann_deletes s)] at hnot
  dsimp only at hnot
  rcases hA : iterM (fun id =>
      SyncM.bind (SyncM.call (RemoteCall.deleteAnn id) (c.deleteAnn id)) (fun _ =>
        SyncM.lift (fun s => DB.remove_delete_ann s id))) (DB.get_ann_deletes s) s
    with ⟨sa, ta, ra⟩
  cases ra with
  | error e =>
    rw [SyncM.bind_err _ hA] at hnot
    exact delA_loop_removed c i (DB.get_ann_deletes s) s hin (by rw [hA]; exact hnot)
  | ok u =>
    rw [SyncM.bind_ok _ hA] at hnot
    dsimp only at hnot
    rw [SyncM.bind_ok _ (SyncM.read_run DB.get_entry_deletes sa)] at hnot
    dsimp only at hnot
    have hpres : ∀ st', ((iterM (fun id =>
        SyncM.bind (SyncM.call (RemoteCall.deleteEntry id) (c.deleteEntry id)) (fun _ =>
          SyncM.lift (fun s => DB.remove_delete_entry s id))) (DB.get_entry_deletes sa))
          st').store.ann_deletes = st'.ann_deletes :=
      Preserves.iterM (fun id => Preserves.bind
        (Preserves.call (RemoteCall.deleteEntry id) (c.deleteEntry id)
          (fun st => st.ann_deletes))
        (fun _ => Preserves.lift (fun s => DB.remove_delete_entry s id)
          (fun st => st.ann_deletes) (fun _ => rfl))) _
    rw [hpres sa] at hnot
    exact delA_loop_removed c i (DB.get_ann_deletes s) s hin (by rw [hA]; exact hnot)

theorem sld_ann_keep (c : Client) (s : Store) (i : Int) (ho : c.deleteAnn i = none)
    (hin : i ∈ s.ann_deletes) :
    i ∈ ((Backend.sync_local_deletes c) s).store.ann_deletes ∧
    ∃ e, ((Backend.sync_local_deletes c) s).result = .error e := by
  obtain ⟨e, he⟩ := delA_loop_err c i ho (DB.get_ann_deletes s) s hin
  rcases hA : iterM (fun id =>
      SyncM.bind (SyncM.call (RemoteCall.deleteAnn id) (c.deleteAnn id)) (fun _ =>
        SyncM.lift (fun s => DB.remove_delete_ann s id))) (DB.get_ann_deletes s) s
    with ⟨sa, ta, ra⟩
  rw [hA] at he
  have hra : ra = .error e := he
  subst hra
  have hkeep := delA_loop_keep c i ho (DB.get_ann_deletes s) s hin
  rw [hA] at hkeep
  constructor
  · unfold Backend.sync_local_deletes
    rw [SyncM.bind_ok _ (SyncM.read_run DB.get_ann_deletes s)]
    dsimp only
    rw [SyncM.bind_err _ hA]
    exact hkeep
  · refine ⟨e, ?_⟩
    unfold Backend.sync_local_deletes
    rw [SyncM.bind_ok _ (SyncM.read_run DB.get_ann_deletes s)]
    dsimp only
    rw [SyncM.bind_err _ hA]

theorem sld_entry_removed (c : Client) (s : Store) (i : Int) (hin : i ∈ s.entry_deletes)
    (hnot : i ∉ ((Backend.sync_local_deletes c) s).store.entry_deletes) :
    c.deleteEntry i ≠ none := by
  unfold Backend.sync_local_deletes at hnot
  rw [SyncM.bind_ok _ (SyncM.read_run DB.get_ann_deletes s)] at hnot
  dsimp only at hnot
  rcases hA : iterM (fun id =>
      SyncM.bind (SyncM.call (RemoteCall.deleteAnn id) (c.deleteAnn id)) (fun _ =>
        SyncM.lift (fun s => DB.remove_delete_ann s id))) (DB.get_ann_deletes s) s
    with ⟨sa, ta, ra⟩
  have hpresA : sa.entry_deletes = s.entry_deletes := by
    have hp : ∀ st', ((iterM (fun id =>
        SyncM.bind (SyncM.call (RemoteCall.deleteAnn id) (c.deleteAnn id)) (fun _ =>
          SyncM.lift (fun s => DB.remove_delete_ann s id))) (DB.get_ann_deletes s))
          st').store.entry_deletes = st'.entry_deletes :=
      Preserves.iterM (fun id => Preserves.bind
        (Preserves.call (RemoteCall.deleteAnn id) (c.deleteAnn id)
          (fun st => st.entry_deletes))
        (fun _ => Preserves.lift (fun s => DB.remove_delete_ann s id)
          (fun st => st.entry_deletes) (fun _ => rfl))) _
    have h2 := hp s
    rw [hA] at h2
    exact h2
  cases ra with
  | error e =>
    rw [SyncM.bind_err _ hA] at hnot
    exact absurd (by rw [hpresA]; exact hin) hnot
  | ok u =>
    rw [SyncM.bind_ok _ hA] at hnot
    dsimp only at hnot
    rw [SyncM.bind_ok _ (SyncM.read_run DB.get_entry_deletes sa)] at hnot
    dsimp only at hnot
    exact delE_loop_removed c i (DB.get_entry_deletes sa) sa
      (by show i ∈ sa.entry_deletes; rw [hpresA]; exact hin) hnot

theorem sld_entry_keep (c : Client) (s : Store) (i : Int) (ho : c.deleteEntry i = none)
    (hin : i ∈ s.entry_deletes) :
    i ∈ ((Backend.sync_local_deletes c) s).store.entry_deletes ∧
    ∃ e, ((Backend.sync_local_deletes c) s).result = .error e := by
  rcases hA : iterM (fun id =>
      SyncM.bind (SyncM.call (RemoteCall.deleteAnn id) (c.deleteAnn id)) (fun _ =>
        SyncM.lift (fun s => DB.remove_delete_ann s id))) (DB.get_ann_deletes s) s
    with ⟨sa, ta, ra⟩
  have hpresA : sa.entry_deletes = s.entry_deletes := by
    have hp : ∀ st', ((iterM (fun id =>
        SyncM.bind (SyncM.call (RemoteCall.deleteAnn id) (c.deleteAnn id)) (fun _ =>
          SyncM.lift (fun s => DB.remove_delete_ann s id))) (DB.get_ann_deletes s))
          st').store.entry_deletes = st'.entry_deletes :=
      Preserves.iterM (fun id => Preserves.bind
        (Preserves.call (RemoteCall.deleteAnn id) (c.deleteAnn id)
          (fun st => st.entry_deletes))
        (fun _ => Preserves.lift (fun s => DB.remove_delete_ann s id)
          (fun st => st.entry_deletes) (fun _ => rfl))) _
    have h2 := hp s
    rw [hA] at h2
    exact h2
  cases ra with
  | error e =>
    constructor
    · unfold Backend.sync_local_deletes
      rw [SyncM.bind_ok _ (SyncM.read_run DB.get_ann_deletes s)]
      dsimp only
      rw [SyncM.bind_err _ hA]
      show i ∈ sa.entry_deletes
      rw [hpresA]
      exact hin
    · refine ⟨e, ?_⟩
      unfold Backend.sync_local_deletes
      rw [SyncM.bind_ok _ (SyncM.read_run DB.get_ann_deletes s)]
      dsimp only
      rw [SyncM.bind_err _ hA]
  | ok u =>
    obtain ⟨e, he⟩ := delE_loop_err c i ho (DB.get_entry_deletes sa) sa
      (by show i ∈ sa.entry_deletes; rw [hpresA]; exact hin)
    have hkeep := delE_loop_keep c i ho (DB.get_entry_deletes sa) sa
      (by show i ∈ sa.entry_deletes; rw [hpresA]; exact hin)
    constructor
    · unfold Backend.sync_local_deletes
      rw [SyncM.bind_ok _ (SyncM.read_run DB.get_ann_deletes s)]
      dsimp only
      rw [SyncM.bind_ok _ hA]
      dsimp only
      rw [SyncM.bind_ok _ (SyncM.read_run DB.get_entry_deletes sa)]
      dsimp only
      exact hkeep
    · refine ⟨e, ?_⟩
      unfold Backend.sync_local_deletes
      rw [SyncM.bind_ok _ (SyncM.read_run DB.get_ann_deletes s)]
      dsimp only
      rw [SyncM.bind_ok _ hA]
      dsimp only
      rw [SyncM.bind_ok _ (SyncM.read_run DB.get_entry_deletes sa)]
      dsimp only
      exact he

/-- **C3 (amended).** For all four pending queues, a record is removed only
after its own remote call succeeded, and a record whose remote call fails is
still present afterwards with the phase aborted (so a retry re-attempts it).
These phases are the exact queue-processing code shared by `sync` and
`full_sync`.  For the new-URL queue, success of `create_entry` alone is not
sufficient for removal — the follow-up pull of the created entry must also
succeed (see the counterexample). -/
theorem c3_pending_lifecycle (c : Client) (s : Store)
    (hnodupA : (s.new_anns.map (fun r => r.id)).Nodup)
    (hnodupU : (s.new_urls.map (fun u => u.id)).Nodup) :
    (∀ i ∈ s.ann_deletes,
      (i ∉ ((Backend.sync_local_deletes c) s).store.ann_deletes → c.deleteAnn i ≠ none) ∧
      (c.deleteAnn i = none → i ∈ ((Backend.sync_local_deletes c) s).store.ann_deletes ∧
        ∃ e, ((Backend.sync_local_deletes c) s).result = .error e)) ∧
    (∀ i ∈ s.entry_deletes,
      (i ∉ ((Backend.sync_local_deletes c) s).store.entry_deletes →
        c.deleteEntry i ≠ none) ∧
      (c.deleteEntry i = none →
        i ∈ ((Backend.sync_local_deletes c) s).store.entry_deletes ∧
        ∃ e, ((Backend.sync_local_deletes c) s).result = .error e)) ∧
    (∀ r ∈ s.new_anns,
      (r ∉ ((Backend.sync_new_anns c) s).store.new_anns →
        c.createAnn r.entry_id r.payload ≠ none) ∧
      (c.createAnn r.entry_id r.payload = none →
        r ∈ ((Backend.sync_new_anns c) s).store.new_anns ∧
        ∃ e, ((Backend.sync_new_anns c) s).result = .error e)) ∧
    (∀ u ∈ s.new_urls,
      (u ∉ ((Backend.sync_new_urls c) s).store.new_urls →
        c.createEntry (NewEntry.new_with_url u.url) ≠ none) ∧
      (c.createEntry (NewEntry.new_with_url u.url) = none →
        u ∈ ((Backend.sync_new_urls c) s).store.new_urls ∧
        ∃ e, ((Backend.sync_new_urls c) s).result = .error e)) :=
  ⟨fun i hi => ⟨fun hnot => sld_ann_removed c s i hi hnot,
      fun ho => sld_ann_keep c s i ho hi⟩,
   fun i hi => ⟨fun hnot => sld_entry_removed c s i hi hnot,
      fun ho => sld_entry_keep c s i ho hi⟩,
   fun r hr => ⟨fun hnot => sna_removed c s r
        (fun r' hr' h => List.inj_on_of_nodup_map hnodupA hr' hr h) hr hnot,
      fun ho => sna_keep c s r
        (fun r' hr' h => List.inj_on_of_nodup_map hnodupA hr' hr h) ho hr⟩,
   fun u hu => ⟨fun hnot => snu_removed c s u
        (fun u' hu' h => List.inj_on_of_nodup_map hnodupU hu' hu h) hu hnot,
      fun ho => snu_keep c s u
        (fun u' hu' h => List.inj_on_of_nodup_map hnodupU hu' hu h) ho hu⟩⟩

/-- C3 witness: a queued annotation delete whose remote delete fails survives
the phase, and the phase aborts. -/
theorem c3_pending_lifecycle_witness :
    5 ∈ ((Backend.sync_local_deletes okClient) sDel).store.ann_deletes ∧
    ∃ e, ((Backend.sync_local_deletes okClient) sDel).result = .error e := by
  have h := c3_pending_lifecycle okClient sDel (by decide) (by decide)
  exact (h.1 5 (List.mem_cons_self _ _)).2 rfl

/-- **C3 counterexample.** A queued URL whose `create_entry` call succeeded can
still survive the run: the response embeds an annotation whose reconciliation
(inside the follow-up pull) fails, so the record is not removed even though its
remote call returned success. -/
theorem c3_counterexample :
    cC3.createEntry (NewEntry.new_with_url "https://example.com") = some eC3 ∧
    ((Backend.sync cC3 ts3) sC3).trace
      = [RemoteCall.getEntriesWithFilter ts3,
         RemoteCall.createEntry (NewEntry.new_with_url "https://example.com"),
         RemoteCall.updateAnn (mkAnn 7 ts2)] ∧
    ((Backend.sync cC3 ts3) sC3).result = .error (RemoteCall.updateAnn (mkAnn 7 ts2)) ∧
    ((Backend.sync cC3 ts3) sC3).store.new_urls = [⟨1, "https://example.com"⟩] :=
  ⟨rfl, rfl, rfl, rfl⟩

end Wallabag
